import Mathlib

/-!
A verification development for `simple-vector/vector.h`.

`RawMemory<T>` owns a block of raw slots, `Vector<T>` owns a `RawMemory<T>` and a
count of live elements.  The embedding keeps that split:

* a block of memory is a list of slots, a slot is `none` while it holds no
  constructed object and `some x` while it holds the live object `x`;
* a pointer into a block is its signed distance (in elements) from the start of
  the block, so `end() - 1` of an empty vector is the slot `-1`;
* every access that C++ leaves undefined (a slot outside the block, a read,
  assignment or destruction of a slot that holds no object, a failed `assert`)
  is reported as a `Fault`, and the operation returns no state;
* an allocation whose count the container derives from the number of its live
  elements (`size_ * 2`, `other.size_`) is assumed to be granted, and `size_ + 1` and
  `size_ * 2` are taken without wrap of the `size_t` arithmetic: such a vector exists
  only where its elements fit in memory;
* an allocation whose count the caller passes (`Reserve`, `Resize`, `Vector(size)`)
  asks `operator new` for `n * sizeof(T)` bytes, the product taken in `size_t`:
  `operator new` throws `std::bad_alloc` for a request above its limit, and the block
  it returns has the bytes asked for, which after a wrap of the product are fewer than
  `n` slots;
* the definitions named `..._run` are the same code as a plain build executes it, one
  without sanitizer and without assertions, with the arithmetic of `size_t` throughout:
  `size_ + 1` and `size_ * 2` are taken modulo `2^64`, and every allocation asks
  `operator new` for `count * sizeof(T)` bytes.  A read of a slot outside the block or
  of a slot without an object yields whatever that memory holds; a store or a
  destruction outside the block is not followed, it leaves the block as it is; and the
  call goes on to its end.  Where the first reading returns a state, no count wraps and
  `operator new` grants the request, the second reading returns the same state (the
  lemmas `..._run_agrees`).

The element type is abstract.  What the container needs from it is collected in
`ElemOps`: the value-initialised object `T()`, the state a move leaves its source
in, and the compile-time choice between moving and copying on reallocation; it also
records `sizeof(T)` and the largest request that `operator new` grants.
-/

namespace CppVector

/-- What ends a call without a result: undefined behaviour observed by the memory model,
or the exception `std::bad_alloc`. -/
inductive Fault where
  /-- access to a slot that is not inside the block -/
  | out_of_bounds (slot : Int)
  /-- read, assignment or destruction of a slot that holds no live object -/
  | not_constructed (slot : Int)
  /-- the exception `std::bad_alloc`, thrown by `operator new` -/
  | bad_alloc
  deriving DecidableEq, Repr

/-- The number of values of `size_t` (64 bits): `SIZE_MAX + 1`. -/
def size_t_range : Nat := 18446744073709551616

/-- The facts about the element type `T` and about `operator new` that `vector.h` depends
on. -/
structure ElemOps (T : Type) where
  /-- The object `T()` produced by value-initialisation. -/
  value_init : T
  /-- The state in which a move construction or move assignment leaves its source. -/
  moved_from : T → T
  /-- The constant `std::is_nothrow_move_constructible_v<T> || !std::is_copy_constructible_v<T>`. -/
  move_on_realloc : Bool
  /-- The constant `sizeof(T)`. -/
  size_of : Nat
  /-- The largest number of bytes that `operator new` grants; it throws `std::bad_alloc` for
  a larger request. -/
  new_limit : Nat
  /-- No object has size zero. -/
  size_of_pos : 0 < size_of
  /-- No object is larger than `PTRDIFF_MAX` bytes. -/
  new_limit_le : new_limit ≤ 9223372036854775807

/-- A block of raw memory: one entry per slot, `none` for a slot without an object. -/
abbrev Block (T : Type) := List (Option T)

section memory
variable {T : Type}

/-- Read the object stored in slot `p`. -/
def Block.load (b : Block T) (p : Int) : Except Fault T :=
  if p < 0 ∨ (b.length : Int) ≤ p then .error (.out_of_bounds p)
  else match b[p.toNat]? with
    | some (some x) => .ok x
    | _ => .error (.not_constructed p)

/-- Placement construction `new (p) T(x)`: the slot needs no object beforehand. -/
def Block.construct (b : Block T) (p : Int) (x : T) : Except Fault (Block T) :=
  if p < 0 ∨ (b.length : Int) ≤ p then .error (.out_of_bounds p)
  else .ok (b.set p.toNat (some x))

/-- Assignment `*p = x` through a live object. -/
def Block.assign (b : Block T) (p : Int) (x : T) : Except Fault (Block T) :=
  match b.load p with
  | .ok _ => .ok (b.set p.toNat (some x))
  | .error e => .error e

/-- Destruction `std::destroy_at(p)` of a live object. -/
def Block.destroy (b : Block T) (p : Int) : Except Fault (Block T) :=
  match b.load p with
  | .ok _ => .ok (b.set p.toNat none)
  | .error e => .error e

/-- The source slot `p` of a move, afterwards holding the moved-from object. -/
def Block.leave_moved (E : ElemOps T) (b : Block T) (p : Int) (x : T) : Block T :=
  b.set p.toNat (some (E.moved_from x))

/-- Loop of `std::uninitialized_copy_n(first, n, d_first)` between two blocks. -/
def uninitialized_copy_n (src : Block T) : Int → Nat → Block T → Int → Except Fault (Block T)
  | _, 0, dst, _ => .ok dst
  | first, n + 1, dst, d_first =>
    match src.load first with
    | .error e => .error e
    | .ok x =>
      match dst.construct d_first x with
      | .error e => .error e
      | .ok dst1 => uninitialized_copy_n src (first + 1) n dst1 (d_first + 1)

/-- Loop of `std::uninitialized_move_n(first, n, d_first)` between two blocks; returns the
source block (its objects moved-from) and the destination block. -/
def uninitialized_move_n (E : ElemOps T) :
    Block T → Int → Nat → Block T → Int → Except Fault (Block T × Block T)
  | src, _, 0, dst, _ => .ok (src, dst)
  | src, first, n + 1, dst, d_first =>
    match src.load first with
    | .error e => .error e
    | .ok x =>
      match dst.construct d_first x with
      | .error e => .error e
      | .ok dst1 =>
        uninitialized_move_n E (src.leave_moved E first x) (first + 1) n dst1 (d_first + 1)

/-- Loop of `std::destroy_n(first, n)`. -/
def destroy_n : Block T → Int → Nat → Except Fault (Block T)
  | b, _, 0 => .ok b
  | b, first, n + 1 =>
    match b.destroy first with
    | .error e => .error e
    | .ok b1 => destroy_n b1 (first + 1) n

/-- Loop of `std::uninitialized_value_construct_n(first, n)`. -/
def uninitialized_value_construct_n (E : ElemOps T) : Block T → Int → Nat → Except Fault (Block T)
  | b, _, 0 => .ok b
  | b, first, n + 1 =>
    match b.construct first E.value_init with
    | .error e => .error e
    | .ok b1 => uninitialized_value_construct_n E b1 (first + 1) n

/-- Loop of `std::copy(first, first + n, d_first)` between two blocks: copy assignment
through the `n` destination objects, front to back. -/
def copy_loop (src : Block T) : Int → Nat → Block T → Int → Except Fault (Block T)
  | _, 0, dst, _ => .ok dst
  | first, n + 1, dst, d_first =>
    match src.load first with
    | .error e => .error e
    | .ok x =>
      match dst.assign d_first x with
      | .error e => .error e
      | .ok dst1 => copy_loop src (first + 1) n dst1 (d_first + 1)

/-- Call `std::copy(first, last, d_first)`. -/
def copy (src : Block T) (first last : Int) (dst : Block T) (d_first : Int) :
    Except Fault (Block T) :=
  copy_loop src first (last - first).toNat dst d_first

/-- Loop of `std::move_backward` inside one block, `n` elements still to go:
`*(--d_last) = std::move(*(--last))`. -/
def move_backward_loop (E : ElemOps T) : Block T → Int → Nat → Int → Except Fault (Block T)
  | b, _, 0, _ => .ok b
  | b, last, n + 1, d_last =>
    match b.load (last - 1) with
    | .error e => .error e
    | .ok x =>
      match b.assign (d_last - 1) x with
      | .error e => .error e
      | .ok b1 => move_backward_loop E (b1.leave_moved E (last - 1) x) (last - 1) n (d_last - 1)

/-- Call `std::move_backward(first, last, d_last)` inside one block. -/
def move_backward (E : ElemOps T) (b : Block T) (first last d_last : Int) :
    Except Fault (Block T) :=
  move_backward_loop E b last (last - first).toNat d_last

end memory

/-- The class `RawMemory<T>`: the block `buffer_` points to, and the field `capacity_`. -/
structure RawMemory (T : Type) where
  buffer_ : Block T := []
  capacity_ : Nat := 0

/-- The class `Vector<T>`: its raw memory `data_` and the live element count `size_`. -/
structure Vector (T : Type) where
  data_ : RawMemory T := {}
  size_ : Nat := 0

section rawmemory
variable {T : Type}

/-- Function `RawMemory::Allocate(n)`: `n` slots, none of them constructed. -/
def RawMemory.Allocate (n : Nat) : Block T := List.replicate n none

/-- Constructor `RawMemory(size_t capacity)`. -/
def RawMemory.ofCapacity (capacity : Nat) : RawMemory T :=
  { buffer_ := RawMemory.Allocate capacity, capacity_ := capacity }

/-- Function `RawMemory::Allocate(n)`, `n != 0 ? operator new(n * sizeof(T)) : nullptr`, for
a count `n` that the caller of the container passes: the product is taken in `size_t`,
`operator new` throws for a request above its limit, and the block it returns has room for
as many elements as the bytes asked for hold. -/
def RawMemory.Allocate_size_t (E : ElemOps T) (n : Nat) : Except Fault (Block T) :=
  if n = 0 then .ok []
  else
    let bytes := (n * E.size_of) % size_t_range
    if bytes > E.new_limit then .error .bad_alloc
    else .ok (List.replicate (bytes / E.size_of) none)

/-- Constructor `RawMemory(size_t capacity)` for a capacity that the caller of the container
passes. -/
def RawMemory.ofCapacity_size_t (E : ElemOps T) (capacity : Nat) : Except Fault (RawMemory T) :=
  match RawMemory.Allocate_size_t E capacity with
  | .error e => .error e
  | .ok b => .ok { buffer_ := b, capacity_ := capacity }

/-- Method `RawMemory::Swap`: exchanges the two fields of the two objects. -/
def RawMemory.Swap (self other : RawMemory T) : RawMemory T × RawMemory T :=
  ({ buffer_ := other.buffer_, capacity_ := other.capacity_ },
   { buffer_ := self.buffer_, capacity_ := self.capacity_ })

/-- Method `RawMemory::Capacity`. -/
def RawMemory.Capacity (self : RawMemory T) : Nat := self.capacity_

/-- Method `RawMemory::operator[]`, with its `assert(index < capacity_)`. -/
def RawMemory.index (self : RawMemory T) (index : Nat) : Except Fault T :=
  if index < self.capacity_ then self.buffer_.load index
  else .error (.out_of_bounds index)

/-- Method `RawMemory::operator+`, with its `assert(offset <= capacity_)`: the address of
the slot `offset`, the one after the last slot included. -/
def RawMemory.plus (self : RawMemory T) (offset : Nat) : Except Fault Int :=
  if offset ≤ self.capacity_ then .ok (0 + (offset : Int))
  else .error (.out_of_bounds offset)

end rawmemory

section vector
variable {T : Type}

/-- The transfer of the live elements into a new block on reallocation, the
`if constexpr` statement of `Reserve`, `PushBack`, `EmplaceBack` and `Emplace`:
returns the old block and the new one. -/
def transfer (E : ElemOps T) (old : Block T) (size : Nat) (new_data : Block T) :
    Except Fault (Block T × Block T) :=
  if E.move_on_realloc then uninitialized_move_n E old 0 size new_data 0
  else
    match uninitialized_copy_n old 0 size new_data 0 with
    | .error e => .error e
    | .ok d => .ok (old, d)

/-- Constructor `Vector()`. -/
def Vector.empty : Vector T := {}

/-- Method `Vector::Size`. -/
def Vector.Size (self : Vector T) : Nat := self.size_

/-- Method `Vector::Capacity`. -/
def Vector.Capacity (self : Vector T) : Nat := self.data_.Capacity

/-- Method `Vector::operator[]`, with its `assert(index < size_)`. -/
def Vector.index (self : Vector T) (index : Nat) : Except Fault T :=
  if index < self.size_ then self.data_.index index
  else .error (.out_of_bounds index)

/-- Method `Vector::Swap`: returns the new states of `*this` and of `other`. -/
def Vector.Swap (self other : Vector T) : Vector T × Vector T :=
  let d := RawMemory.Swap self.data_ other.data_
  ({ data_ := d.1, size_ := other.size_ }, { data_ := d.2, size_ := self.size_ })

/-- Constructor `Vector(size_t size)`. -/
def Vector.sized (E : ElemOps T) (size : Nat) : Except Fault (Vector T) :=
  match RawMemory.ofCapacity_size_t E size with
  | .error e => .error e
  | .ok data =>
    match uninitialized_value_construct_n E data.buffer_ 0 size with
    | .error e => .error e
    | .ok b => .ok { data_ := { data with buffer_ := b }, size_ := size }

/-- Constructor `Vector(const Vector& other)`. -/
def Vector.copy_ctor (other : Vector T) : Except Fault (Vector T) :=
  let data : RawMemory T := RawMemory.ofCapacity other.size_
  match uninitialized_copy_n other.data_.buffer_ 0 other.size_ data.buffer_ 0 with
  | .error e => .error e
  | .ok b => .ok { data_ := { data with buffer_ := b }, size_ := other.size_ }

/-- Constructor `Vector(Vector&& other)`: the new object and the new state of `other`. -/
def Vector.move_ctor (other : Vector T) : Vector T × Vector T :=
  Vector.Swap Vector.empty other

/-- Destructor `~Vector()`: destroys the live elements; the block is released after it. -/
def Vector.dtor (self : Vector T) : Except Fault Unit :=
  match destroy_n self.data_.buffer_ 0 self.size_ with
  | .error e => .error e
  | .ok _ => .ok ()

/-- Method `Vector::operator=(const Vector& rhs)`.  The objects are identified by their
addresses `this_addr` and `rhs_addr`; `rhs` is not modified.  The local `rhs_copy` of the
first branch is destroyed at the end of its block. -/
def Vector.assign_copy (this_addr rhs_addr : Nat) (self rhs : Vector T) :
    Except Fault (Vector T) :=
  if this_addr ≠ rhs_addr then
    if rhs.size_ > self.data_.Capacity then
      match Vector.copy_ctor rhs with
      | .error e => .error e
      | .ok rhs_copy =>
        let sw := Vector.Swap self rhs_copy
        match Vector.dtor sw.2 with
        | .error e => .error e
        | .ok _ => .ok { sw.1 with size_ := rhs.size_ }
    else if rhs.size_ < self.size_ then
      match copy rhs.data_.buffer_ 0 (0 + rhs.size_) self.data_.buffer_ 0 with
      | .error e => .error e
      | .ok b =>
        match destroy_n b (0 + rhs.size_) (self.size_ - rhs.size_) with
        | .error e => .error e
        | .ok b1 => .ok { data_ := { self.data_ with buffer_ := b1 }, size_ := rhs.size_ }
    else
      match copy rhs.data_.buffer_ 0 (0 + self.size_) self.data_.buffer_ 0 with
      | .error e => .error e
      | .ok b =>
        match uninitialized_copy_n rhs.data_.buffer_ (0 + self.size_) (rhs.size_ - self.size_)
            b (0 + self.size_) with
        | .error e => .error e
        | .ok b1 => .ok { data_ := { self.data_ with buffer_ := b1 }, size_ := rhs.size_ }
  else .ok self

/-- Method `Vector::operator=(Vector&& rhs)`: the new states of `*this` and of `rhs`. -/
def Vector.assign_move (this_addr rhs_addr : Nat) (self rhs : Vector T) :
    Vector T × Vector T :=
  if this_addr ≠ rhs_addr then Vector.Swap self rhs else (self, rhs)

/-- Method `Vector::Reserve`. -/
def Vector.Reserve (E : ElemOps T) (self : Vector T) (new_capacity : Nat) :
    Except Fault (Vector T) :=
  if new_capacity ≤ self.data_.Capacity then .ok self
  else
    match RawMemory.ofCapacity_size_t E new_capacity with
    | .error e => .error e
    | .ok new_data =>
      match transfer E self.data_.buffer_ self.size_ new_data.buffer_ with
      | .error e => .error e
      | .ok r =>
        match destroy_n r.1 0 self.size_ with
        | .error e => .error e
        | .ok old =>
          let d := RawMemory.Swap { self.data_ with buffer_ := old }
            { new_data with buffer_ := r.2 }
          .ok { data_ := d.1, size_ := self.size_ }

/-- Method `Vector::Resize`. -/
def Vector.Resize (E : ElemOps T) (self : Vector T) (new_size : Nat) :
    Except Fault (Vector T) :=
  if new_size ≤ self.size_ then
    match destroy_n self.data_.buffer_ (0 + new_size) (self.size_ - new_size) with
    | .error e => .error e
    | .ok b => .ok { data_ := { self.data_ with buffer_ := b }, size_ := new_size }
  else
    match Vector.Reserve E self new_size with
    | .error e => .error e
    | .ok self1 =>
      match uninitialized_value_construct_n E self1.data_.buffer_ (0 + self1.size_)
          (new_size - self1.size_) with
      | .error e => .error e
      | .ok b => .ok { data_ := { self1.data_ with buffer_ := b }, size_ := new_size }

/-- Method `Vector::EmplaceBack`, called with one argument from which the new element is
constructed: returns the new state and the slot of the returned reference,
`data_.GetAddress() + size_ - 1`. -/
def Vector.EmplaceBack (E : ElemOps T) (self : Vector T) (value : T) :
    Except Fault (Vector T × Int) :=
  if self.size_ = self.Capacity then
    let new_data : RawMemory T := RawMemory.ofCapacity (if self.size_ = 0 then 1 else self.size_ * 2)
    match new_data.buffer_.construct (0 + self.size_) value with
    | .error e => .error e
    | .ok nb =>
      match transfer E self.data_.buffer_ self.size_ nb with
      | .error e => .error e
      | .ok r =>
        match destroy_n r.1 0 self.size_ with
        | .error e => .error e
        | .ok old =>
          let d := RawMemory.Swap { self.data_ with buffer_ := old } { new_data with buffer_ := r.2 }
          .ok ({ data_ := d.1, size_ := self.size_ + 1 }, 0 + ((self.size_ + 1 : Nat) : Int) - 1)
  else
    match self.data_.buffer_.construct (0 + self.size_) value with
    | .error e => .error e
    | .ok b =>
      .ok ({ data_ := { self.data_ with buffer_ := b }, size_ := self.size_ + 1 },
           0 + ((self.size_ + 1 : Nat) : Int) - 1)

/-- Method `Vector::PushBack`: the statements of `EmplaceBack` without the returned reference. -/
def Vector.PushBack (E : ElemOps T) (self : Vector T) (value : T) : Except Fault (Vector T) :=
  if self.size_ = self.Capacity then
    let new_data : RawMemory T := RawMemory.ofCapacity (if self.size_ = 0 then 1 else self.size_ * 2)
    match new_data.buffer_.construct (0 + self.size_) value with
    | .error e => .error e
    | .ok nb =>
      match transfer E self.data_.buffer_ self.size_ nb with
      | .error e => .error e
      | .ok r =>
        match destroy_n r.1 0 self.size_ with
        | .error e => .error e
        | .ok old =>
          let d := RawMemory.Swap { self.data_ with buffer_ := old } { new_data with buffer_ := r.2 }
          .ok { data_ := d.1, size_ := self.size_ + 1 }
  else
    match self.data_.buffer_.construct (0 + self.size_) value with
    | .error e => .error e
    | .ok b => .ok { data_ := { self.data_ with buffer_ := b }, size_ := self.size_ + 1 }

/-- The reallocation at the head of `Vector::Emplace` (taken when `size_ == Capacity()`). -/
def Vector.grow (E : ElemOps T) (self : Vector T) : Except Fault (Vector T) :=
  if self.size_ = self.Capacity then
    let new_data : RawMemory T := RawMemory.ofCapacity (if self.size_ = 0 then 1 else self.size_ * 2)
    match transfer E self.data_.buffer_ self.size_ new_data.buffer_ with
    | .error e => .error e
    | .ok r =>
      match destroy_n r.1 0 self.size_ with
      | .error e => .error e
      | .ok old =>
        let d := RawMemory.Swap { self.data_ with buffer_ := old } { new_data with buffer_ := r.2 }
        .ok { data_ := d.1, size_ := self.size_ }
  else .ok self

/-- Method `Vector::Emplace`, called with one argument from which the new element is
constructed.  A position is given by its distance from `begin()`; the result is the
new state and the returned position `begin() + offset`. -/
def Vector.Emplace (E : ElemOps T) (self : Vector T) (pos : Nat) (value : T) :
    Except Fault (Vector T × Nat) :=
  let offset : Nat := pos
  match Vector.grow E self with
  | .error e => .error e
  | .ok self1 =>
    -- auto& last_value = *(this->end() - 1);
    let last_value : Int := 0 + (self1.size_ : Int) - 1
    -- new(this->end()) T(std::forward<T>(last_value));
    match self1.data_.buffer_.load last_value with
    | .error e => .error e
    | .ok x =>
      match self1.data_.buffer_.construct (0 + self1.size_) x with
      | .error e => .error e
      | .ok b1 =>
        let b2 := b1.leave_moved E last_value x
        match move_backward E b2 (0 + offset) (0 + self1.size_) (0 + self1.size_ + 1) with
        | .error e => .error e
        | .ok b3 =>
          match b3.assign (0 + offset) value with
          | .error e => .error e
          | .ok b4 =>
            .ok ({ data_ := { self1.data_ with buffer_ := b4 }, size_ := self1.size_ + 1 }, offset)

/-- Method `Vector::Insert` (both overloads forward to `Emplace`). -/
def Vector.Insert (E : ElemOps T) (self : Vector T) (pos : Nat) (value : T) :
    Except Fault (Vector T × Nat) :=
  Vector.Emplace E self pos value

/-- Method `Vector::PopBack`. -/
def Vector.PopBack (self : Vector T) : Except Fault (Vector T) :=
  if self.size_ > 0 then
    let size1 := self.size_ - 1
    match self.data_.buffer_.destroy (0 + size1) with
    | .error e => .error e
    | .ok b => .ok { data_ := { self.data_ with buffer_ := b }, size_ := size1 }
  else .ok self

/-- Method `Vector::Erase`.  A position is given by its distance from `begin()`; the
result is the new state and the returned position `begin() + offset`. -/
def Vector.Erase (E : ElemOps T) (self : Vector T) (pos : Nat) : Except Fault (Vector T × Nat) :=
  let offset : Nat := pos
  match move_backward E self.data_.buffer_ (0 + offset) (0 + self.size_) (0 + (self.size_ : Int) - 1) with
  | .error e => .error e
  | .ok b =>
    match Vector.PopBack { self with data_ := { self.data_ with buffer_ := b } } with
    | .error e => .error e
    | .ok self1 => .ok (self1, offset)

end vector

section plain_build
variable {T : Type}

/-- The value that a plain build reads from slot `p`: the object stored there, and for a slot
outside the block or a slot without an object whatever that memory holds, `junk p`. -/
def Block.peek (junk : Int → T) (b : Block T) (p : Int) : T :=
  match b.load p with
  | .ok x => x
  | .error _ => junk p

/-- A store of `x` to slot `p` in a plain build, by placement construction or by assignment:
a slot of the block holds `x` afterwards, a store outside the block leaves the block as it
is. -/
def Block.poke (b : Block T) (p : Int) (x : T) : Block T :=
  if p < 0 ∨ (b.length : Int) ≤ p then b else b.set p.toNat (some x)

/-- Destruction `std::destroy_at(p)` in a plain build: a slot of the block holds no object
afterwards, outside the block the block is left as it is. -/
def Block.wipe (b : Block T) (p : Int) : Block T :=
  if p < 0 ∨ (b.length : Int) ≤ p then b else b.set p.toNat none

/-- Loop of `std::uninitialized_copy_n(first, n, d_first)` in a plain build. -/
def uninitialized_copy_n_run (junk : Int → T) (src : Block T) :
    Int → Nat → Block T → Int → Block T
  | _, 0, dst, _ => dst
  | first, n + 1, dst, d_first =>
    uninitialized_copy_n_run junk src (first + 1) n (dst.poke d_first (src.peek junk first))
      (d_first + 1)

/-- Loop of `std::uninitialized_move_n(first, n, d_first)` in a plain build; returns the
source block and the destination block. -/
def uninitialized_move_n_run (E : ElemOps T) (junk : Int → T) :
    Block T → Int → Nat → Block T → Int → Block T × Block T
  | src, _, 0, dst, _ => (src, dst)
  | src, first, n + 1, dst, d_first =>
    uninitialized_move_n_run E junk (src.poke first (E.moved_from (src.peek junk first)))
      (first + 1) n (dst.poke d_first (src.peek junk first)) (d_first + 1)

/-- Loop of `std::destroy_n(first, n)` in a plain build. -/
def destroy_n_run : Block T → Int → Nat → Block T
  | b, _, 0 => b
  | b, first, n + 1 => destroy_n_run (b.wipe first) (first + 1) n

/-- Loop of `std::uninitialized_value_construct_n(first, n)` in a plain build. -/
def uninitialized_value_construct_n_run (E : ElemOps T) : Block T → Int → Nat → Block T
  | b, _, 0 => b
  | b, first, n + 1 =>
    uninitialized_value_construct_n_run E (b.poke first E.value_init) (first + 1) n

/-- Loop of `std::copy(first, first + n, d_first)` in a plain build. -/
def copy_loop_run (junk : Int → T) (src : Block T) : Int → Nat → Block T → Int → Block T
  | _, 0, dst, _ => dst
  | first, n + 1, dst, d_first =>
    copy_loop_run junk src (first + 1) n (dst.poke d_first (src.peek junk first)) (d_first + 1)

/-- Call `std::copy(first, last, d_first)` in a plain build. -/
def copy_run (junk : Int → T) (src : Block T) (first last : Int) (dst : Block T)
    (d_first : Int) : Block T :=
  copy_loop_run junk src first (last - first).toNat dst d_first

/-- Loop of `std::move_backward` inside one block in a plain build, `n` elements still to
go: `*(--d_last) = std::move(*(--last))`. -/
def move_backward_loop_run (E : ElemOps T) (junk : Int → T) :
    Block T → Int → Nat → Int → Block T
  | b, _, 0, _ => b
  | b, last, n + 1, d_last =>
    move_backward_loop_run E junk
      ((b.poke (d_last - 1) (b.peek junk (last - 1))).poke (last - 1)
        (E.moved_from (b.peek junk (last - 1))))
      (last - 1) n (d_last - 1)

/-- Call `std::move_backward(first, last, d_last)` inside one block in a plain build. -/
def move_backward_run (E : ElemOps T) (junk : Int → T) (b : Block T)
    (first last d_last : Int) : Block T :=
  move_backward_loop_run E junk b last (last - first).toNat d_last

/-- The transfer of the live elements into a new block on reallocation in a plain build:
returns the old block and the new one. -/
def transfer_run (E : ElemOps T) (junk : Int → T) (old : Block T) (size : Nat)
    (new_data : Block T) : Block T × Block T :=
  if E.move_on_realloc then uninitialized_move_n_run E junk old 0 size new_data 0
  else (old, uninitialized_copy_n_run junk old 0 size new_data 0)

/-- Constructor `Vector(size_t size)` in a plain build; `std::bad_alloc` ends it as it ends
`Vector.sized`. -/
def Vector.sized_run (E : ElemOps T) (size : Nat) : Except Fault (Vector T) :=
  match RawMemory.ofCapacity_size_t E size with
  | .error e => .error e
  | .ok data =>
    .ok { data_ := { data with
            buffer_ := uninitialized_value_construct_n_run E data.buffer_ 0 size },
          size_ := size }

/-- Constructor `Vector(const Vector& other)` in a plain build. -/
def Vector.copy_ctor_run (E : ElemOps T) (junk : Int → T) (other : Vector T) :
    Except Fault (Vector T) :=
  match RawMemory.ofCapacity_size_t E other.size_ with
  | .error e => .error e
  | .ok data =>
    .ok { data_ := { data with
            buffer_ := uninitialized_copy_n_run junk other.data_.buffer_ 0 other.size_
              data.buffer_ 0 },
          size_ := other.size_ }

/-- Method `Vector::operator=(const Vector& rhs)` in a plain build.  The local `rhs_copy` of
the first branch is destroyed at the end of its block, which changes nothing in `*this`. -/
def Vector.assign_copy_run (E : ElemOps T) (junk : Int → T) (this_addr rhs_addr : Nat)
    (self rhs : Vector T) : Except Fault (Vector T) :=
  if this_addr ≠ rhs_addr then
    if rhs.size_ > self.data_.Capacity then
      match Vector.copy_ctor_run E junk rhs with
      | .error e => .error e
      | .ok rhs_copy =>
        let sw := Vector.Swap self rhs_copy
        .ok { sw.1 with size_ := rhs.size_ }
    else if rhs.size_ < self.size_ then
      let b := copy_run junk rhs.data_.buffer_ 0 (0 + rhs.size_) self.data_.buffer_ 0
      .ok { data_ := { self.data_ with
              buffer_ := destroy_n_run b (0 + rhs.size_) (self.size_ - rhs.size_) },
            size_ := rhs.size_ }
    else
      let b := copy_run junk rhs.data_.buffer_ 0 (0 + self.size_) self.data_.buffer_ 0
      .ok { data_ := { self.data_ with
              buffer_ := uninitialized_copy_n_run junk rhs.data_.buffer_ (0 + self.size_)
                (rhs.size_ - self.size_) b (0 + self.size_) },
            size_ := rhs.size_ }
  else .ok self

/-- Method `Vector::Reserve` in a plain build. -/
def Vector.Reserve_run (E : ElemOps T) (junk : Int → T) (self : Vector T) (new_capacity : Nat) :
    Except Fault (Vector T) :=
  if new_capacity ≤ self.data_.Capacity then .ok self
  else
    match RawMemory.ofCapacity_size_t E new_capacity with
    | .error e => .error e
    | .ok new_data =>
      let r := transfer_run E junk self.data_.buffer_ self.size_ new_data.buffer_
      let old := destroy_n_run r.1 0 self.size_
      let d := RawMemory.Swap { self.data_ with buffer_ := old } { new_data with buffer_ := r.2 }
      .ok { data_ := d.1, size_ := self.size_ }

/-- Method `Vector::Resize` in a plain build; an exception of `Reserve` leaves it before
`size_` is written. -/
def Vector.Resize_run (E : ElemOps T) (junk : Int → T) (self : Vector T) (new_size : Nat) :
    Except Fault (Vector T) :=
  if new_size ≤ self.size_ then
    .ok { data_ := { self.data_ with
            buffer_ := destroy_n_run self.data_.buffer_ (0 + new_size)
              (self.size_ - new_size) },
          size_ := new_size }
  else
    match Vector.Reserve_run E junk self new_size with
    | .error e => .error e
    | .ok self1 =>
      .ok { data_ := { self1.data_ with
              buffer_ := uninitialized_value_construct_n_run E self1.data_.buffer_
                (0 + self1.size_) (new_size - self1.size_) },
            size_ := new_size }

/-- Method `Vector::EmplaceBack` in a plain build: the new state and the slot of the returned
reference. -/
def Vector.EmplaceBack_run (E : ElemOps T) (junk : Int → T) (self : Vector T) (value : T) :
    Except Fault (Vector T × Int) :=
  if self.size_ = self.Capacity then
    match RawMemory.ofCapacity_size_t E
        (if self.size_ = 0 then 1 else self.size_ * 2 % size_t_range) with
    | .error e => .error e
    | .ok new_data =>
      let nb := new_data.buffer_.poke (0 + self.size_) value
      let r := transfer_run E junk self.data_.buffer_ self.size_ nb
      let old := destroy_n_run r.1 0 self.size_
      let d := RawMemory.Swap { self.data_ with buffer_ := old } { new_data with buffer_ := r.2 }
      .ok ({ data_ := d.1, size_ := (self.size_ + 1) % size_t_range },
           0 + (((self.size_ + 1) % size_t_range : Nat) : Int) - 1)
  else
    .ok ({ data_ := { self.data_ with
             buffer_ := self.data_.buffer_.poke (0 + self.size_) value },
           size_ := (self.size_ + 1) % size_t_range },
         0 + (((self.size_ + 1) % size_t_range : Nat) : Int) - 1)

/-- Method `Vector::PushBack` in a plain build. -/
def Vector.PushBack_run (E : ElemOps T) (junk : Int → T) (self : Vector T) (value : T) :
    Except Fault (Vector T) :=
  if self.size_ = self.Capacity then
    match RawMemory.ofCapacity_size_t E
        (if self.size_ = 0 then 1 else self.size_ * 2 % size_t_range) with
    | .error e => .error e
    | .ok new_data =>
      let nb := new_data.buffer_.poke (0 + self.size_) value
      let r := transfer_run E junk self.data_.buffer_ self.size_ nb
      let old := destroy_n_run r.1 0 self.size_
      let d := RawMemory.Swap { self.data_ with buffer_ := old } { new_data with buffer_ := r.2 }
      .ok { data_ := d.1, size_ := (self.size_ + 1) % size_t_range }
  else
    .ok { data_ := { self.data_ with
            buffer_ := self.data_.buffer_.poke (0 + self.size_) value },
          size_ := (self.size_ + 1) % size_t_range }

/-- The reallocation at the head of `Vector::Emplace` in a plain build. -/
def Vector.grow_run (E : ElemOps T) (junk : Int → T) (self : Vector T) :
    Except Fault (Vector T) :=
  if self.size_ = self.Capacity then
    match RawMemory.ofCapacity_size_t E
        (if self.size_ = 0 then 1 else self.size_ * 2 % size_t_range) with
    | .error e => .error e
    | .ok new_data =>
      let r := transfer_run E junk self.data_.buffer_ self.size_ new_data.buffer_
      let old := destroy_n_run r.1 0 self.size_
      let d := RawMemory.Swap { self.data_ with buffer_ := old } { new_data with buffer_ := r.2 }
      .ok { data_ := d.1, size_ := self.size_ }
  else .ok self

/-- Method `Vector::Emplace` in a plain build: on the empty vector `last_value` refers to
the slot before the block, and the object constructed from it in slot 0 is `junk (-1)`
until the value is assigned over it. -/
def Vector.Emplace_run (E : ElemOps T) (junk : Int → T) (self : Vector T) (pos : Nat)
    (value : T) : Except Fault (Vector T × Nat) :=
  let offset : Nat := pos
  match Vector.grow_run E junk self with
  | .error e => .error e
  | .ok self1 =>
    -- auto& last_value = *(this->end() - 1);
    let last_value : Int := 0 + (self1.size_ : Int) - 1
    -- new(this->end()) T(std::forward<T>(last_value));
    let x := self1.data_.buffer_.peek junk last_value
    let b1 := self1.data_.buffer_.poke (0 + self1.size_) x
    let b2 := b1.poke last_value (E.moved_from x)
    let b3 := move_backward_run E junk b2 (0 + offset) (0 + self1.size_) (0 + self1.size_ + 1)
    let b4 := b3.poke (0 + offset) value
    .ok ({ data_ := { self1.data_ with buffer_ := b4 },
           size_ := (self1.size_ + 1) % size_t_range }, offset)

/-- Method `Vector::Insert` in a plain build. -/
def Vector.Insert_run (E : ElemOps T) (junk : Int → T) (self : Vector T) (pos : Nat)
    (value : T) : Except Fault (Vector T × Nat) :=
  Vector.Emplace_run E junk self pos value

/-- Method `Vector::PopBack` in a plain build. -/
def Vector.PopBack_run (self : Vector T) : Vector T :=
  if self.size_ > 0 then
    let size1 := self.size_ - 1
    { data_ := { self.data_ with buffer_ := self.data_.buffer_.wipe (0 + size1) },
      size_ := size1 }
  else self

/-- Method `Vector::Erase` in a plain build: the store that `std::move_backward` makes
through the slot before `begin()` lands outside the block. -/
def Vector.Erase_run (E : ElemOps T) (junk : Int → T) (self : Vector T) (pos : Nat) :
    Vector T × Nat :=
  let offset : Nat := pos
  let b := move_backward_run E junk self.data_.buffer_ (0 + offset) (0 + self.size_)
    (0 + (self.size_ : Int) - 1)
  (Vector.PopBack_run { self with data_ := { self.data_ with buffer_ := b } }, offset)

end plain_build

section programs
variable {T : Type}

/-- Element type `int`: value-initialised to `0`, a move is a copy, `sizeof(int)` is 4;
`operator new` grants no request above `PTRDIFF_MAX`. -/
def intOps : ElemOps Int :=
  { value_init := 0, moved_from := fun x => x, move_on_realloc := true,
    size_of := 4, new_limit := 9223372036854775807,
    size_of_pos := by decide, new_limit_le := by decide }

/-- Element type `std::unique_ptr<int>` with the pointee as its value (`none` is the null
pointer): a move leaves the source null, the type is not copy-constructible, its size is
8; `operator new` grants no request above `PTRDIFF_MAX`. -/
def uniquePtrOps : ElemOps (Option Int) :=
  { value_init := none, moved_from := fun _ => none, move_on_realloc := true,
    size_of := 8, new_limit := 9223372036854775807,
    size_of_pos := by decide, new_limit_le := by decide }

/-- Successive `PushBack` calls, one per element of the list, front to back. -/
def Vector.push_all (E : ElemOps T) : Vector T → List T → Except Fault (Vector T)
  | v, [] => .ok v
  | v, x :: xs =>
    match Vector.PushBack E v x with
    | .error e => .error e
    | .ok v1 => Vector.push_all E v1 xs

/-- The vector holds the sequence `s`: the block has `capacity_` slots, `size_` is the
length of `s`, and the first `size_` slots hold the elements of `s` as live objects. -/
def Vector.Holds (v : Vector T) (s : List T) : Prop :=
  v.data_.buffer_.length = v.data_.capacity_ ∧ v.size_ = s.length ∧
    v.data_.buffer_.take v.size_ = s.map some

instance Vector.decHolds [DecidableEq T] (v : Vector T) (s : List T) : Decidable (v.Holds s) := by
  unfold Vector.Holds; infer_instance

/-- A call of a member function that names no other `Vector` object: `a` is the state of
the object before the call and `a'` its state after a call that returned.  Positions
passed to `Emplace`/`Insert` lie in `[begin, end]`, those passed to `Erase` in
`[begin, end)`. -/
inductive Mutate (E : ElemOps T) : Vector T → Vector T → Prop
  | reserve (a a' : Vector T) (n : Nat) : Vector.Reserve E a n = .ok a' → Mutate E a a'
  | resize (a a' : Vector T) (n : Nat) : Vector.Resize E a n = .ok a' → Mutate E a a'
  | push_back (a a' : Vector T) (x : T) : Vector.PushBack E a x = .ok a' → Mutate E a a'
  | emplace_back (a a' : Vector T) (x : T) (r : Int) :
      Vector.EmplaceBack E a x = .ok (a', r) → Mutate E a a'
  | emplace (a a' : Vector T) (pos : Nat) (x : T) (r : Nat) :
      pos ≤ a.size_ → Vector.Emplace E a pos x = .ok (a', r) → Mutate E a a'
  | insert (a a' : Vector T) (pos : Nat) (x : T) (r : Nat) :
      pos ≤ a.size_ → Vector.Insert E a pos x = .ok (a', r) → Mutate E a a'
  | erase (a a' : Vector T) (pos : Nat) (r : Nat) :
      pos < a.size_ → Vector.Erase E a pos = .ok (a', r) → Mutate E a a'
  | pop_back (a a' : Vector T) : Vector.PopBack a = .ok a' → Mutate E a a'

/-- One statement of a program that works on `Vector` objects.  The objects alive are the
entries of the list, and the address of an object is its position in the list. -/
inductive Step (E : ElemOps T) : List (Vector T) → List (Vector T) → Prop
  | default_ctor (w : List (Vector T)) : Step E w (w ++ [Vector.empty])
  | sized_ctor (w : List (Vector T)) (n : Nat) (v : Vector T) :
      Vector.sized E n = .ok v → Step E w (w ++ [v])
  | copy_ctor (w : List (Vector T)) (i : Nat) (other v : Vector T) :
      w[i]? = some other → Vector.copy_ctor other = .ok v → Step E w (w ++ [v])
  | move_ctor (w : List (Vector T)) (i : Nat) (other : Vector T) :
      w[i]? = some other →
      Step E w (w.set i (Vector.move_ctor other).2 ++ [(Vector.move_ctor other).1])
  | assign_copy (w : List (Vector T)) (i j : Nat) (a b a' : Vector T) :
      w[i]? = some a → w[j]? = some b → Vector.assign_copy i j a b = .ok a' →
      Step E w (w.set i a')
  | assign_move (w : List (Vector T)) (i j : Nat) (a b : Vector T) :
      w[i]? = some a → w[j]? = some b →
      Step E w ((w.set i (Vector.assign_move i j a b).1).set j (Vector.assign_move i j a b).2)
  | swap (w : List (Vector T)) (i j : Nat) (a b : Vector T) :
      w[i]? = some a → w[j]? = some b →
      Step E w ((w.set i (Vector.Swap a b).1).set j (Vector.Swap a b).2)
  | mutate (w : List (Vector T)) (i : Nat) (a a' : Vector T) :
      w[i]? = some a → Mutate E a a' → Step E w (w.set i a')

/-- A call of a member function that names no other `Vector` object, as a plain build
executes it: `a` is the state of the object before the call and `a'` its state after it.
A count is a `size_t`.  A call that ends in `std::bad_alloc` leaves the object as it was,
the allocation being the first thing it does to the object.  Positions passed to
`Emplace`/`Insert` lie in `[begin, end]`, those passed to `Erase` in `[begin, end)`. -/
inductive RunMutate (E : ElemOps T) : Vector T → Vector T → Prop
  | reserve (a a' : Vector T) (junk : Int → T) (n : Nat) :
      n < size_t_range → Vector.Reserve_run E junk a n = .ok a' → RunMutate E a a'
  | reserve_throws (a : Vector T) (junk : Int → T) (n : Nat) (e : Fault) :
      n < size_t_range → Vector.Reserve_run E junk a n = .error e → RunMutate E a a
  | resize (a a' : Vector T) (junk : Int → T) (n : Nat) :
      n < size_t_range → Vector.Resize_run E junk a n = .ok a' → RunMutate E a a'
  | resize_throws (a : Vector T) (junk : Int → T) (n : Nat) (e : Fault) :
      n < size_t_range → Vector.Resize_run E junk a n = .error e → RunMutate E a a
  | push_back (a a' : Vector T) (junk : Int → T) (x : T) :
      Vector.PushBack_run E junk a x = .ok a' → RunMutate E a a'
  | push_back_throws (a : Vector T) (junk : Int → T) (x : T) (e : Fault) :
      Vector.PushBack_run E junk a x = .error e → RunMutate E a a
  | emplace_back (a a' : Vector T) (junk : Int → T) (x : T) (r : Int) :
      Vector.EmplaceBack_run E junk a x = .ok (a', r) → RunMutate E a a'
  | emplace_back_throws (a : Vector T) (junk : Int → T) (x : T) (e : Fault) :
      Vector.EmplaceBack_run E junk a x = .error e → RunMutate E a a
  | emplace (a a' : Vector T) (junk : Int → T) (pos : Nat) (x : T) (r : Nat) :
      pos ≤ a.size_ → Vector.Emplace_run E junk a pos x = .ok (a', r) → RunMutate E a a'
  | emplace_throws (a : Vector T) (junk : Int → T) (pos : Nat) (x : T) (e : Fault) :
      pos ≤ a.size_ → Vector.Emplace_run E junk a pos x = .error e → RunMutate E a a
  | insert (a a' : Vector T) (junk : Int → T) (pos : Nat) (x : T) (r : Nat) :
      pos ≤ a.size_ → Vector.Insert_run E junk a pos x = .ok (a', r) → RunMutate E a a'
  | insert_throws (a : Vector T) (junk : Int → T) (pos : Nat) (x : T) (e : Fault) :
      pos ≤ a.size_ → Vector.Insert_run E junk a pos x = .error e → RunMutate E a a
  | erase (a : Vector T) (junk : Int → T) (pos : Nat) :
      pos < a.size_ → RunMutate E a (Vector.Erase_run E junk a pos).1
  | pop_back (a : Vector T) : RunMutate E a (Vector.PopBack_run a)

/-- One statement of a program that works on `Vector` objects, as a plain build executes it.
The objects alive are the entries of the list, and the address of an object is its position
in the list.  A constructor that ends in `std::bad_alloc` creates no object, a copy
assignment that ends in it leaves the object as it was. -/
inductive RunStep (E : ElemOps T) : List (Vector T) → List (Vector T) → Prop
  | default_ctor (w : List (Vector T)) : RunStep E w (w ++ [Vector.empty])
  | sized_ctor (w : List (Vector T)) (n : Nat) (v : Vector T) :
      n < size_t_range → Vector.sized_run E n = .ok v → RunStep E w (w ++ [v])
  | sized_ctor_throws (w : List (Vector T)) (n : Nat) (e : Fault) :
      n < size_t_range → (Vector.sized_run E n : Except Fault (Vector T)) = .error e →
      RunStep E w w
  | copy_ctor (w : List (Vector T)) (junk : Int → T) (i : Nat) (other v : Vector T) :
      w[i]? = some other → Vector.copy_ctor_run E junk other = .ok v → RunStep E w (w ++ [v])
  | copy_ctor_throws (w : List (Vector T)) (junk : Int → T) (i : Nat) (other : Vector T)
      (e : Fault) :
      w[i]? = some other → Vector.copy_ctor_run E junk other = .error e → RunStep E w w
  | move_ctor (w : List (Vector T)) (i : Nat) (other : Vector T) :
      w[i]? = some other →
      RunStep E w (w.set i (Vector.move_ctor other).2 ++ [(Vector.move_ctor other).1])
  | assign_copy (w : List (Vector T)) (junk : Int → T) (i j : Nat) (a b a' : Vector T) :
      w[i]? = some a → w[j]? = some b → Vector.assign_copy_run E junk i j a b = .ok a' →
      RunStep E w (w.set i a')
  | assign_copy_throws (w : List (Vector T)) (junk : Int → T) (i j : Nat) (a b : Vector T)
      (e : Fault) :
      w[i]? = some a → w[j]? = some b → Vector.assign_copy_run E junk i j a b = .error e →
      RunStep E w w
  | assign_move (w : List (Vector T)) (i j : Nat) (a b : Vector T) :
      w[i]? = some a → w[j]? = some b →
      RunStep E w
        ((w.set i (Vector.assign_move i j a b).1).set j (Vector.assign_move i j a b).2)
  | swap (w : List (Vector T)) (i j : Nat) (a b : Vector T) :
      w[i]? = some a → w[j]? = some b →
      RunStep E w ((w.set i (Vector.Swap a b).1).set j (Vector.Swap a b).2)
  | mutate (w : List (Vector T)) (i : Nat) (a a' : Vector T) :
      w[i]? = some a → RunMutate E a a' → RunStep E w (w.set i a')

/-- The states that a program reaches in a plain build when it starts with one
default-constructed `Vector`. -/
inductive Reachable (E : ElemOps T) : List (Vector T) → Prop
  | start : Reachable E [Vector.empty]
  | run (w w' : List (Vector T)) : Reachable E w → RunStep E w w' → Reachable E w'

/-- The move assignment as the specification words it ("swap buffers; `rhs` ends up holding
what `*this` previously held"): the two objects exchange their states. -/
def spec_move_assign (self rhs : Vector T) : Vector T × Vector T := (rhs, self)

end programs

end CppVector

/-!
The class `SimpleVector<Type>` of `simple_vector.h`.  Its storage is an `ArrayPtr<Type>`;
every element of the array is a constructed object, so a block is a list of values.  The
fields `size_` and `capacity_` are kept apart from the number of elements the array really
has: an access outside the array is a `Fault`, whatever `capacity_` says.
-/

namespace CppVector

/-- The facts about the element type `Type` that `simple_vector.h` depends on. -/
structure SimpleOps (T : Type) where
  /-- The object `Type()`, also written `Type{}`. -/
  default_value : T
  /-- The literal `0` converted to `Type`, the fill value of `SimpleVector(size_t size)`. -/
  from_zero : T
  /-- The state in which a move assignment leaves its source. -/
  moved_from : T → T
  /-- The value of an element of an array that `ArrayPtr(size)` has just allocated. -/
  fresh : T

/-- Modelled from the spec: `array_ptr.h`, which declares `ArrayPtr<Type>`, is not among the
sources.  Following the specification, an `ArrayPtr` owns a block "sized for exactly N
elements" whose slots are objects that are "assignable at all times"; `ArrayPtr(size)`
allocates `size` elements (none for `size == 0`), `operator[]` is unchecked and an access
outside the block is undefined, `swap` exchanges the blocks of two objects, and `Release`
gives up the block without touching its elements.  The value of a newly allocated element
is left open: it is the field `fresh` of `SimpleOps`. -/
abbrev ArrayPtr (T : Type) := List T

/-- What a call can end with instead of a result. -/
inductive Thrown where
  /-- the exception `std::out_of_range` -/
  | out_of_range
  /-- undefined behaviour -/
  | undefined (f : Fault)
  deriving DecidableEq, Repr

section simple_vector
variable {T : Type}

/-- Modelled from the spec: the constructor `ArrayPtr(size_t size)`. -/
def ArrayPtr.alloc (O : SimpleOps T) (size : Nat) : ArrayPtr T := List.replicate size O.fresh

/-- Modelled from the spec: read through `ArrayPtr::operator[]`. -/
def ArrayPtr.get (a : ArrayPtr T) (i : Nat) : Except Fault T :=
  match a[i]? with
  | some x => .ok x
  | none => .error (.out_of_bounds i)

/-- Modelled from the spec: assignment through `ArrayPtr::operator[]`. -/
def ArrayPtr.put (a : ArrayPtr T) (i : Nat) (x : T) : Except Fault (ArrayPtr T) :=
  if i < a.length then .ok (a.set i x) else .error (.out_of_bounds i)

/-- Loop `for (it = first; ...; it++) *it = x` with `n` elements still to write. -/
def fill_loop : ArrayPtr T → Nat → Nat → T → Except Fault (ArrayPtr T)
  | a, _, 0, _ => .ok a
  | a, first, n + 1, x =>
    match a.put first x with
    | .error e => .error e
    | .ok a1 => fill_loop a1 (first + 1) n x

/-- Call `std::fill(first, last, x)`, and the loop of `SimpleVector::Fill`.  When `last` lies
before `first` the loop never meets `last` and runs out of the array. -/
def fill_range (a : ArrayPtr T) (first last : Nat) (x : T) : Except Fault (ArrayPtr T) :=
  if last < first then .error (.out_of_bounds (max first a.length))
  else fill_loop a first (last - first) x

/-- Loop of `std::copy` between two arrays, `n` elements still to copy. -/
def copy_range_loop (src : ArrayPtr T) : Nat → Nat → ArrayPtr T → Nat → Except Fault (ArrayPtr T)
  | _, 0, dst, _ => .ok dst
  | first, n + 1, dst, d_first =>
    match src.get first with
    | .error e => .error e
    | .ok x =>
      match dst.put d_first x with
      | .error e => .error e
      | .ok dst1 => copy_range_loop src (first + 1) n dst1 (d_first + 1)

/-- Call `std::copy(first, last, d_first)` between two arrays; `[first, last)` has to be a
range. -/
def copy_range (src : ArrayPtr T) (first last : Nat) (dst : ArrayPtr T) (d_first : Nat) :
    Except Fault (ArrayPtr T) :=
  if last < first then .error (.out_of_bounds last)
  else copy_range_loop src first (last - first) dst d_first

/-- Loop of the algorithm `std::move` between two arrays, `n` elements still to move:
returns the source array (its elements moved-from) and the destination array. -/
def move_range_loop (O : SimpleOps T) :
    ArrayPtr T → Nat → Nat → ArrayPtr T → Nat → Except Fault (ArrayPtr T × ArrayPtr T)
  | src, _, 0, dst, _ => .ok (src, dst)
  | src, first, n + 1, dst, d_first =>
    match src.get first with
    | .error e => .error e
    | .ok x =>
      match dst.put d_first x with
      | .error e => .error e
      | .ok dst1 =>
        move_range_loop O (src.set first (O.moved_from x)) (first + 1) n dst1 (d_first + 1)

/-- Call `std::move(first, last, d_first)` between two arrays; `[first, last)` has to be a
range. -/
def move_range (O : SimpleOps T) (src : ArrayPtr T) (first last : Nat) (dst : ArrayPtr T)
    (d_first : Nat) : Except Fault (ArrayPtr T × ArrayPtr T) :=
  if last < first then .error (.out_of_bounds last)
  else move_range_loop O src first (last - first) dst d_first

/-- The class `SimpleVector<Type>`: the array `items_` and the fields `size_`, `capacity_`. -/
structure SimpleVector (T : Type) where
  items_ : ArrayPtr T := []
  size_ : Nat := 0
  capacity_ : Nat := 0

/-- Constructor `SimpleVector()`. -/
def SimpleVector.empty : SimpleVector T := {}

/-- Constructor `SimpleVector(size_t size, const Type& value)`. -/
def SimpleVector.filled (O : SimpleOps T) (size : Nat) (value : T) :
    Except Fault (SimpleVector T) :=
  let new_items := ArrayPtr.alloc O size
  match fill_range new_items 0 size value with
  | .error e => .error e
  | .ok new_items1 => .ok { items_ := new_items1, size_ := size, capacity_ := size }

/-- Constructor `SimpleVector(size_t size)`, which delegates to `SimpleVector(size, 0)`. -/
def SimpleVector.sized (O : SimpleOps T) (size : Nat) : Except Fault (SimpleVector T) :=
  SimpleVector.filled O size O.from_zero

/-- Constructor `SimpleVector(SimpleVector&& other)`: the new object and the new state of
`other`. -/
def SimpleVector.move_ctor (other : SimpleVector T) : SimpleVector T × SimpleVector T :=
  ({ items_ := other.items_, size_ := other.size_, capacity_ := other.capacity_ },
   { items_ := [], size_ := 0, capacity_ := 0 })

/-- Loop of `SimpleVector(std::initializer_list<Type> init)`: `new_items[i] = *it`. -/
def init_loop : ArrayPtr T → Nat → List T → Except Fault (ArrayPtr T)
  | a, _, [] => .ok a
  | a, i, x :: xs =>
    match a.put i x with
    | .error e => .error e
    | .ok a1 => init_loop a1 (i + 1) xs

/-- Constructor `SimpleVector(std::initializer_list<Type> init)`. -/
def SimpleVector.from_list (O : SimpleOps T) (init : List T) : Except Fault (SimpleVector T) :=
  let new_items := ArrayPtr.alloc O init.length
  match init_loop new_items 0 init with
  | .error e => .error e
  | .ok new_items1 =>
    .ok { items_ := new_items1, size_ := init.length, capacity_ := init.length }

/-- Method `SimpleVector::GetSize`. -/
def SimpleVector.GetSize (self : SimpleVector T) : Nat := self.size_

/-- Method `SimpleVector::GetCapacity`. -/
def SimpleVector.GetCapacity (self : SimpleVector T) : Nat := self.capacity_

/-- Method `SimpleVector::IsEmpty`. -/
def SimpleVector.IsEmpty (self : SimpleVector T) : Bool := self.size_ == 0

/-- Method `SimpleVector::operator[]`, with its `assert(index < size_)`. -/
def SimpleVector.index (self : SimpleVector T) (index : Nat) : Except Fault T :=
  if index < self.size_ then self.items_.get index else .error (.out_of_bounds index)

/-- Method `SimpleVector::At`. -/
def SimpleVector.At (self : SimpleVector T) (index : Nat) : Except Thrown T :=
  if index ≥ self.size_ then .error .out_of_range
  else
    match self.items_.get index with
    | .ok x => .ok x
    | .error f => .error (.undefined f)

/-- Method `SimpleVector::Clear`. -/
def SimpleVector.Clear (self : SimpleVector T) : SimpleVector T := { self with size_ := 0 }

/-- Method `SimpleVector::Reserve`. -/
def SimpleVector.Reserve (O : SimpleOps T) (self : SimpleVector T) (new_capacity : Nat) :
    Except Fault (SimpleVector T) :=
  if new_capacity ≤ self.capacity_ then .ok self
  else
    let new_array := ArrayPtr.alloc O new_capacity
    match copy_range self.items_ 0 self.size_ new_array 0 with
    | .error e => .error e
    | .ok new_array1 =>
      .ok { items_ := new_array1, size_ := self.size_, capacity_ := new_capacity }

/-- Constructor `SimpleVector(ReserveProxyObj obj)`. -/
def SimpleVector.reserve_ctor (O : SimpleOps T) (capacity_to_reserve : Nat) :
    Except Fault (SimpleVector T) :=
  SimpleVector.Reserve O SimpleVector.empty capacity_to_reserve

/-- Method `SimpleVector::Fill(It begin, It end, Type&& value)`: every element of the range
is assigned `Type{}`, the argument is not used. -/
def SimpleVector.Fill (O : SimpleOps T) (a : ArrayPtr T) (first last : Nat) (_value : T) :
    Except Fault (ArrayPtr T) :=
  fill_range a first last O.default_value

/-- Method `SimpleVector::Resize`. -/
def SimpleVector.Resize (O : SimpleOps T) (self : SimpleVector T) (new_size : Nat) :
    Except Fault (SimpleVector T) :=
  if new_size < self.capacity_ then
    match SimpleVector.Fill O self.items_ self.size_ self.capacity_ O.default_value with
    | .error e => .error e
    | .ok items1 => .ok { self with items_ := items1, size_ := new_size }
  else
    let new_capacity := max new_size (2 * self.capacity_)
    let new_array := ArrayPtr.alloc O new_capacity
    match move_range O self.items_ 0 self.size_ new_array 0 with
    | .error e => .error e
    | .ok r =>
      match SimpleVector.Fill O r.2 self.size_ new_size O.default_value with
      | .error e => .error e
      | .ok new_array1 =>
        .ok { items_ := new_array1, size_ := new_size, capacity_ := new_capacity }

/-- Method `SimpleVector::swap`: the new states of `*this` and of `other`. -/
def SimpleVector.swap (self other : SimpleVector T) : SimpleVector T × SimpleVector T :=
  ({ items_ := other.items_, size_ := other.size_, capacity_ := other.capacity_ },
   { items_ := self.items_, size_ := self.size_, capacity_ := self.capacity_ })

/-- Method `SimpleVector::CopyAndSwap`: the new state of `*this`. -/
def SimpleVector.CopyAndSwap (O : SimpleOps T) (self other : SimpleVector T) :
    Except Fault (SimpleVector T) :=
  match SimpleVector.sized O other.GetSize with
  | .error e => .error e
  | .ok copy_vector =>
    match copy_range other.items_ 0 other.size_ copy_vector.items_ 0 with
    | .error e => .error e
    | .ok items1 =>
      let copy_vector1 : SimpleVector T :=
        { copy_vector with items_ := items1, capacity_ := other.capacity_ }
      .ok (SimpleVector.swap self copy_vector1).1

/-- Constructor `SimpleVector(const SimpleVector& other)`. -/
def SimpleVector.copy_ctor (O : SimpleOps T) (other : SimpleVector T) :
    Except Fault (SimpleVector T) :=
  SimpleVector.CopyAndSwap O SimpleVector.empty other

/-- Method `SimpleVector::operator=(const SimpleVector& rhs)`; the objects are identified
by their addresses. -/
def SimpleVector.assign_copy (O : SimpleOps T) (this_addr rhs_addr : Nat)
    (self rhs : SimpleVector T) : Except Fault (SimpleVector T) :=
  if this_addr ≠ rhs_addr then SimpleVector.CopyAndSwap O self rhs else .ok self

/-- Method `SimpleVector::PushBack` (both overloads have the same statements). -/
def SimpleVector.PushBack (O : SimpleOps T) (self : SimpleVector T) (item : T) :
    Except Fault (SimpleVector T) :=
  let items0 := if self.IsEmpty then ArrayPtr.alloc O 1 else self.items_
  match items0.put self.size_ item with
  | .error e => .error e
  | .ok items1 =>
    let self1 : SimpleVector T := { self with items_ := items1, size_ := self.size_ + 1 }
    if self1.size_ > self1.capacity_ then SimpleVector.Resize O self1 self1.size_
    else .ok self1

/-- Method `SimpleVector::Insert`, with its `assert`.  A position is given by its distance
from `begin()`; the result is the new state and the returned position. -/
def SimpleVector.Insert (O : SimpleOps T) (self : SimpleVector T) (pos : Nat) (value : T) :
    Except Fault (SimpleVector T × Nat) :=
  if self.size_ < pos then .error (.out_of_bounds pos)
  else
    let dist := self.size_ - pos
    let length_dist := pos
    let moved : Except Fault (ArrayPtr T) :=
      if self.IsEmpty then (ArrayPtr.alloc O 1).put length_dist value
      else
        let copy_arr := ArrayPtr.alloc O dist
        match move_range O self.items_ length_dist self.size_ copy_arr 0 with
        | .error e => .error e
        | .ok r =>
          match r.1.put length_dist value with
          | .error e => .error e
          | .ok items1 =>
            match move_range O r.2 0 dist items1 (length_dist + 1) with
            | .error e => .error e
            | .ok r1 => .ok r1.2
    match moved with
    | .error e => .error e
    | .ok items2 =>
      let self1 : SimpleVector T := { self with items_ := items2, size_ := self.size_ + 1 }
      if self1.size_ > self1.capacity_ then
        match SimpleVector.Resize O self1 self1.size_ with
        | .error e => .error e
        | .ok self2 => .ok (self2, length_dist)
      else .ok (self1, length_dist)

/-- Method `SimpleVector::PopBack`. -/
def SimpleVector.PopBack (self : SimpleVector T) : SimpleVector T :=
  if !self.IsEmpty then { self with size_ := self.size_ - 1 } else self

/-- Method `SimpleVector::Erase`, with its `assert`.  A position is given by its distance
from `begin()`; the result is the new state and the returned position, `none` for the
value-initialised iterator returned on an empty vector. -/
def SimpleVector.Erase (O : SimpleOps T) (self : SimpleVector T) (pos : Nat) :
    Except Fault (SimpleVector T × Option Nat) :=
  if self.size_ < pos then .error (.out_of_bounds pos)
  else if self.IsEmpty then .ok (self, none)
  else
    let dist := self.size_ - pos
    let length_dist := pos
    let copy_arr := ArrayPtr.alloc O dist
    match move_range O self.items_ (length_dist + 1) self.size_ copy_arr 0 with
    | .error e => .error e
    | .ok r =>
      match move_range O r.2 0 dist r.1 length_dist with
      | .error e => .error e
      | .ok r1 =>
        let self1 : SimpleVector T := { self with items_ := r1.2, size_ := self.size_ - 1 }
        match SimpleVector.Resize O self1 self1.size_ with
        | .error e => .error e
        | .ok self2 => .ok (self2, some length_dist)

/-- Element type `int` for `SimpleVector`; `fresh` is the value found in new storage. -/
def intSimpleOps (fresh : Int) : SimpleOps Int :=
  { default_value := 0, from_zero := 0, moved_from := fun x => x, fresh := fresh }

/-- The vector holds the sequence `s`: `size_` is the length of `s` and the first `size_`
elements of the array are those of `s`. -/
def SimpleVector.Holds (v : SimpleVector T) (s : List T) : Prop :=
  v.size_ = s.length ∧ v.items_.take v.size_ = s ∧ s.length ≤ v.items_.length

instance SimpleVector.decHolds [DecidableEq T] (v : SimpleVector T) (s : List T) :
    Decidable (v.Holds s) := by
  unfold SimpleVector.Holds; infer_instance

/-- The storage is consistent: the array has exactly `capacity_` elements and `size_` does
not exceed `capacity_`. -/
def SimpleVector.Consistent (v : SimpleVector T) : Prop :=
  v.items_.length = v.capacity_ ∧ v.size_ ≤ v.capacity_

instance SimpleVector.decConsistent (v : SimpleVector T) : Decidable v.Consistent := by
  unfold SimpleVector.Consistent; infer_instance

/-- A call of a member function of `SimpleVector` that names no other object: `a` is the
state of the object before the call and `a'` its state after a call that returned.  The
positions passed to `Insert` and `Erase` satisfy the `assert` of these functions. -/
inductive SimpleMutate (O : SimpleOps T) : SimpleVector T → SimpleVector T → Prop
  | reserve (a a' : SimpleVector T) (n : Nat) :
      SimpleVector.Reserve O a n = .ok a' → SimpleMutate O a a'
  | resize (a a' : SimpleVector T) (n : Nat) :
      SimpleVector.Resize O a n = .ok a' → SimpleMutate O a a'
  | clear (a : SimpleVector T) : SimpleMutate O a (SimpleVector.Clear a)
  | push_back (a a' : SimpleVector T) (x : T) :
      SimpleVector.PushBack O a x = .ok a' → SimpleMutate O a a'
  | insert (a a' : SimpleVector T) (pos : Nat) (x : T) (r : Nat) :
      pos ≤ a.size_ → SimpleVector.Insert O a pos x = .ok (a', r) → SimpleMutate O a a'
  | erase (a a' : SimpleVector T) (pos : Nat) (r : Option Nat) :
      pos ≤ a.size_ → SimpleVector.Erase O a pos = .ok (a', r) → SimpleMutate O a a'
  | pop_back (a : SimpleVector T) : SimpleMutate O a (SimpleVector.PopBack a)

/-- One statement of a program that works on `SimpleVector` objects.  The objects alive are
the entries of the list, and the address of an object is its position in the list. -/
inductive SimpleStep (O : SimpleOps T) : List (SimpleVector T) → List (SimpleVector T) → Prop
  | default_ctor (w : List (SimpleVector T)) : SimpleStep O w (w ++ [SimpleVector.empty])
  | sized_ctor (w : List (SimpleVector T)) (n : Nat) (v : SimpleVector T) :
      SimpleVector.sized O n = .ok v → SimpleStep O w (w ++ [v])
  | fill_ctor (w : List (SimpleVector T)) (n : Nat) (x : T) (v : SimpleVector T) :
      SimpleVector.filled O n x = .ok v → SimpleStep O w (w ++ [v])
  | init_list_ctor (w : List (SimpleVector T)) (init : List T) (v : SimpleVector T) :
      SimpleVector.from_list O init = .ok v → SimpleStep O w (w ++ [v])
  | reserve_ctor (w : List (SimpleVector T)) (n : Nat) (v : SimpleVector T) :
      SimpleVector.reserve_ctor O n = .ok v → SimpleStep O w (w ++ [v])
  | copy_ctor (w : List (SimpleVector T)) (i : Nat) (other v : SimpleVector T) :
      w[i]? = some other → SimpleVector.copy_ctor O other = .ok v → SimpleStep O w (w ++ [v])
  | move_ctor (w : List (SimpleVector T)) (i : Nat) (other : SimpleVector T) :
      w[i]? = some other →
      SimpleStep O w
        (w.set i (SimpleVector.move_ctor other).2 ++ [(SimpleVector.move_ctor other).1])
  | assign_copy (w : List (SimpleVector T)) (i j : Nat) (a b a' : SimpleVector T) :
      w[i]? = some a → w[j]? = some b → SimpleVector.assign_copy O i j a b = .ok a' →
      SimpleStep O w (w.set i a')
  | swap (w : List (SimpleVector T)) (i j : Nat) (a b : SimpleVector T) :
      w[i]? = some a → w[j]? = some b →
      SimpleStep O w ((w.set i (SimpleVector.swap a b).1).set j (SimpleVector.swap a b).2)
  | mutate (w : List (SimpleVector T)) (i : Nat) (a a' : SimpleVector T) :
      w[i]? = some a → SimpleMutate O a a' → SimpleStep O w (w.set i a')

/-- The states a program can reach when it starts with one default-constructed
`SimpleVector`. -/
inductive SimpleReachable (O : SimpleOps T) : List (SimpleVector T) → Prop
  | start : SimpleReachable O [SimpleVector.empty]
  | step (w w' : List (SimpleVector T)) :
      SimpleReachable O w → SimpleStep O w w' → SimpleReachable O w'

end simple_vector

end CppVector
namespace CppVector
section block_lemmas
variable {T : Type}

theorem getElem?_append_mid (p : List (Option T)) (d : Option T) (r : List (Option T)) :
    (p ++ d :: r)[p.length]? = some d := by
  rw [List.getElem?_append_right (Nat.le_refl _)]
  simp

theorem set_append_mid (p : List (Option T)) (d y : Option T) (r : List (Option T)) :
    (p ++ d :: r).set p.length y = p ++ y :: r := by
  induction p with
  | nil => rfl
  | cons a p ih => simp [ih]

theorem Block.load_mid (p : Block T) (x : T) (r : Block T) (k : Int) (hk : k = p.length) :
    Block.load (p ++ some x :: r) k = .ok x := by
  subst hk
  have h1 : ¬ (((p.length : Nat) : Int) < 0 ∨ (((p ++ some x :: r).length : Nat) : Int) ≤ (p.length : Int)) := by
    simp only [List.length_append, List.length_cons]; push_cast; omega
  simp only [Block.load, h1, if_false, Int.toNat_ofNat, getElem?_append_mid]

theorem Block.construct_mid (p : Block T) (d : Option T) (x : T) (r : Block T) (k : Int)
    (hk : k = p.length) :
    Block.construct (p ++ d :: r) k x = .ok (p ++ some x :: r) := by
  subst hk
  have h1 : ¬ (((p.length : Nat) : Int) < 0 ∨ (((p ++ d :: r).length : Nat) : Int) ≤ (p.length : Int)) := by
    simp only [List.length_append, List.length_cons]; push_cast; omega
  simp only [Block.construct, h1, if_false, Int.toNat_ofNat, set_append_mid]

theorem Block.assign_mid (p : Block T) (y x : T) (r : Block T) (k : Int) (hk : k = p.length) :
    Block.assign (p ++ some y :: r) k x = .ok (p ++ some x :: r) := by
  simp only [Block.assign, Block.load_mid p y r k hk]
  subst hk
  simp only [Int.toNat_ofNat, set_append_mid]

theorem Block.destroy_mid (p : Block T) (y : T) (r : Block T) (k : Int) (hk : k = p.length) :
    Block.destroy (p ++ some y :: r) k = .ok (p ++ none :: r) := by
  simp only [Block.destroy, Block.load_mid p y r k hk]
  subst hk
  simp only [Int.toNat_ofNat, set_append_mid]

theorem Block.leave_moved_mid (E : ElemOps T) (p : Block T) (d : Option T) (x : T) (r : Block T)
    (k : Int) (hk : k = p.length) :
    Block.leave_moved E (p ++ d :: r) k x = p ++ some (E.moved_from x) :: r := by
  subst hk
  simp only [Block.leave_moved, Int.toNat_ofNat, set_append_mid]

end block_lemmas
end CppVector
namespace CppVector
section loop_lemmas
variable {T : Type}

theorem uninitialized_copy_n_spec (s : List T) :
    ∀ (sp ss dp dm ds : Block T) (first d_first : Int),
      first = sp.length → d_first = dp.length → dm.length = s.length →
      uninitialized_copy_n (sp ++ s.map some ++ ss) first s.length (dp ++ dm ++ ds) d_first
        = .ok (dp ++ s.map some ++ ds) := by
  induction s with
  | nil =>
    intro sp ss dp dm ds first d_first _ _ hdm
    have : dm = [] := List.length_eq_zero.mp hdm
    subst this
    simp [uninitialized_copy_n]
  | cons x s ih =>
    intro sp ss dp dm ds first d_first hf hd hdm
    cases dm with
    | nil => simp at hdm
    | cons d dm =>
      have hlen : dm.length = s.length := by simpa using hdm
      have h1 : Block.load (sp ++ List.map some (x :: s) ++ ss) first = .ok x := by
        have := Block.load_mid sp x (s.map some ++ ss) first hf
        simpa using this
      have h2 : Block.construct (dp ++ d :: dm ++ ds) d_first x
          = .ok (dp ++ some x :: (dm ++ ds)) := by
        have := Block.construct_mid dp d x (dm ++ ds) d_first hd
        simpa using this
      have h3 := ih (sp ++ [some x]) ss (dp ++ [some x]) dm ds (first + 1) (d_first + 1)
        (by simp [hf]) (by simp [hd]) hlen
      simp only [List.length_cons, uninitialized_copy_n, h1, h2]
      simpa using h3

theorem uninitialized_move_n_spec (E : ElemOps T) (s : List T) :
    ∀ (sp ss dp dm ds : Block T) (first d_first : Int),
      first = sp.length → d_first = dp.length → dm.length = s.length →
      uninitialized_move_n E (sp ++ s.map some ++ ss) first s.length (dp ++ dm ++ ds) d_first
        = .ok (sp ++ s.map (fun x => some (E.moved_from x)) ++ ss, dp ++ s.map some ++ ds) := by
  induction s with
  | nil =>
    intro sp ss dp dm ds first d_first _ _ hdm
    have : dm = [] := List.length_eq_zero.mp hdm
    subst this
    simp [uninitialized_move_n]
  | cons x s ih =>
    intro sp ss dp dm ds first d_first hf hd hdm
    cases dm with
    | nil => simp at hdm
    | cons d dm =>
      have hlen : dm.length = s.length := by simpa using hdm
      have h1 : Block.load (sp ++ List.map some (x :: s) ++ ss) first = .ok x := by
        have := Block.load_mid sp x (s.map some ++ ss) first hf
        simpa using this
      have h2 : Block.construct (dp ++ d :: dm ++ ds) d_first x
          = .ok (dp ++ some x :: (dm ++ ds)) := by
        have := Block.construct_mid dp d x (dm ++ ds) d_first hd
        simpa using this
      have h4 : Block.leave_moved E (sp ++ List.map some (x :: s) ++ ss) first x
          = sp ++ some (E.moved_from x) :: (s.map some ++ ss) := by
        have := Block.leave_moved_mid E sp (some x) x (s.map some ++ ss) first hf
        simpa using this
      have h3 := ih (sp ++ [some (E.moved_from x)]) ss (dp ++ [some x]) dm ds (first + 1)
        (d_first + 1) (by simp [hf]) (by simp [hd]) hlen
      simp only [List.length_cons, uninitialized_move_n, h1, h2, h4]
      simpa using h3

theorem destroy_n_spec (s : List T) :
    ∀ (bp bs : Block T) (first : Int), first = bp.length →
      destroy_n (bp ++ s.map some ++ bs) first s.length
        = .ok (bp ++ List.replicate s.length none ++ bs) := by
  induction s with
  | nil => intro bp bs first _; simp [destroy_n]
  | cons x s ih =>
    intro bp bs first hf
    have h1 : Block.destroy (bp ++ List.map some (x :: s) ++ bs) first
        = .ok (bp ++ none :: (s.map some ++ bs)) := by
      have := Block.destroy_mid bp x (s.map some ++ bs) first hf
      simpa using this
    have h3 := ih (bp ++ [none]) bs (first + 1) (by simp [hf])
    simp only [List.length_cons, destroy_n, h1]
    simpa [List.replicate_succ] using h3

theorem uninitialized_value_construct_n_spec (E : ElemOps T) (n : Nat) :
    ∀ (bp bm bs : Block T) (first : Int), first = bp.length → bm.length = n →
      uninitialized_value_construct_n E (bp ++ bm ++ bs) first n
        = .ok (bp ++ List.replicate n (some E.value_init) ++ bs) := by
  induction n with
  | zero =>
    intro bp bm bs first _ hbm
    have : bm = [] := List.length_eq_zero.mp hbm
    subst this
    simp [uninitialized_value_construct_n]
  | succ n ih =>
    intro bp bm bs first hf hbm
    cases bm with
    | nil => simp at hbm
    | cons d bm =>
      have hlen : bm.length = n := by simpa using hbm
      have h2 : Block.construct (bp ++ d :: bm ++ bs) first E.value_init
          = .ok (bp ++ some E.value_init :: (bm ++ bs)) := by
        have := Block.construct_mid bp d E.value_init (bm ++ bs) first hf
        simpa using this
      have h3 := ih (bp ++ [some E.value_init]) bm bs (first + 1) (by simp [hf]) hlen
      simp only [uninitialized_value_construct_n, h2]
      simpa [List.replicate_succ] using h3

theorem copy_loop_spec (s : List T) :
    ∀ (sp ss dp ds : Block T) (t : List T) (first d_first : Int),
      first = sp.length → d_first = dp.length → t.length = s.length →
      copy_loop (sp ++ s.map some ++ ss) first s.length (dp ++ t.map some ++ ds) d_first
        = .ok (dp ++ s.map some ++ ds) := by
  induction s with
  | nil =>
    intro sp ss dp ds t first d_first _ _ ht
    have : t = [] := List.length_eq_zero.mp ht
    subst this
    simp [copy_loop]
  | cons x s ih =>
    intro sp ss dp ds t first d_first hf hd ht
    cases t with
    | nil => simp at ht
    | cons y t =>
      have hlen : t.length = s.length := by simpa using ht
      have h1 : Block.load (sp ++ List.map some (x :: s) ++ ss) first = .ok x := by
        have := Block.load_mid sp x (s.map some ++ ss) first hf
        simpa using this
      have h2 : Block.assign (dp ++ List.map some (y :: t) ++ ds) d_first x
          = .ok (dp ++ some x :: (t.map some ++ ds)) := by
        have := Block.assign_mid dp y x (t.map some ++ ds) d_first hd
        simpa using this
      have h3 := ih (sp ++ [some x]) ss (dp ++ [some x]) ds t (first + 1) (d_first + 1)
        (by simp [hf]) (by simp [hd]) hlen
      simp only [List.length_cons, copy_loop, h1, h2]
      simpa using h3

end loop_lemmas
end CppVector
namespace CppVector
section shift_lemmas
variable {T : Type}

theorem headD_append_singleton (s : List T) (z y : T) : (s ++ [z]).headD y = s.headD z := by
  cases s <;> rfl

theorem move_backward_loop_shift (E : ElemOps T) (hE : ∀ x, E.moved_from x = x) (s : List T) :
    ∀ (bp bs : Block T) (y : T) (last d_last : Int),
      last = bp.length + s.length → d_last = last + 1 →
      move_backward_loop E (bp ++ s.map some ++ some y :: bs) last s.length d_last
        = .ok (bp ++ some (s.headD y) :: (s.map some ++ bs)) := by
  induction s using List.reverseRecOn with
  | nil => intro bp bs y last d_last _ _; simp [move_backward_loop]
  | append_singleton s z ih =>
    intro bp bs y last d_last hl hd
    have hl1 : last - 1 = ((bp ++ s.map some).length : Nat) := by
      simp [hl]; omega
    have hd1 : d_last - 1 = ((bp ++ s.map some ++ [some z]).length : Nat) := by
      simp [hl, hd]
    have e0 : bp ++ List.map some (s ++ [z]) ++ some y :: bs
        = (bp ++ s.map some) ++ some z :: (some y :: bs) := by simp
    have e1 : bp ++ List.map some (s ++ [z]) ++ some y :: bs
        = (bp ++ s.map some ++ [some z]) ++ some y :: bs := by simp
    have h1 : Block.load (bp ++ List.map some (s ++ [z]) ++ some y :: bs) (last - 1) = .ok z := by
      rw [e0]; exact Block.load_mid _ z _ _ hl1
    have h2 : Block.assign (bp ++ List.map some (s ++ [z]) ++ some y :: bs) (d_last - 1) z
        = .ok ((bp ++ s.map some ++ [some z]) ++ some z :: bs) := by
      rw [e1]; exact Block.assign_mid _ y z _ _ hd1
    have h4 : Block.leave_moved E ((bp ++ s.map some ++ [some z]) ++ some z :: bs) (last - 1) z
        = bp ++ s.map some ++ some z :: (some z :: bs) := by
      have := Block.leave_moved_mid E (bp ++ s.map some) (some z) z (some z :: bs) (last - 1) hl1
      rw [hE] at this
      simpa using this
    have h3 := ih bp (some z :: bs) z (last - 1) (d_last - 1)
      (by simp [hl]; omega) (by simp [hd])
    rw [List.length_append, List.length_singleton]
    simp only [move_backward_loop, h1, h2, h4, h3, headD_append_singleton]
    simp

end shift_lemmas
end CppVector
namespace CppVector
section vector_lemmas
variable {T : Type}

theorem Vector.holds_iff (v : Vector T) (s : List T) :
    v.Holds s ↔ ∃ rest : Block T, v.data_.buffer_ = s.map some ++ rest ∧ v.size_ = s.length ∧
      v.data_.capacity_ = s.length + rest.length := by
  constructor
  · rintro ⟨h1, h2, h3⟩
    refine ⟨v.data_.buffer_.drop v.size_, ?_, h2, ?_⟩
    · rw [← h3, List.take_append_drop]
    · have hl := congrArg List.length h3
      simp only [List.length_take, List.length_map] at hl
      rw [← h1, List.length_drop]
      omega
  · rintro ⟨rest, h1, h2, h3⟩
    refine ⟨?_, h2, ?_⟩
    · rw [h1, h3]; simp
    · rw [h1, h2]
      have : (s.map some).length = s.length := by simp
      rw [← this, List.take_left]

theorem Vector.holds_size_le_capacity {v : Vector T} {s : List T} (h : v.Holds s) :
    v.Size ≤ v.Capacity := by
  obtain ⟨rest, _, h2, h3⟩ := (Vector.holds_iff v s).mp h
  simp only [Vector.Size, Vector.Capacity, RawMemory.Capacity]
  omega

theorem Vector.holds_index {v : Vector T} {s : List T} (h : v.Holds s) (i : Nat) (x : T)
    (hx : s[i]? = some x) : v.index i = .ok x := by
  obtain ⟨rest, h1, h2, h3⟩ := (Vector.holds_iff v s).mp h
  have hi : i < s.length := by
    rcases Nat.lt_or_ge i s.length with hlt | hge
    · exact hlt
    · rw [List.getElem?_eq_none hge] at hx; cases hx
  have hsplit : s = s.take i ++ x :: s.drop (i + 1) := by
    have hxi : s[i] = x := by
      rw [List.getElem?_eq_getElem hi] at hx
      exact Option.some.inj hx
    rw [← hxi]
    exact (List.take_append_drop i s).symm.trans (by rw [List.drop_eq_getElem_cons hi])
  have hb : v.data_.buffer_ = (s.take i).map some ++ some x :: ((s.drop (i + 1)).map some ++ rest) := by
    rw [h1]
    conv_lhs => rw [hsplit]
    simp
  have hlen : ((i : Nat) : Int) = (((s.take i).map some).length : Nat) := by
    simp [List.length_take]; omega
  have hload := Block.load_mid ((s.take i).map some) x ((s.drop (i + 1)).map some ++ rest) i hlen
  rw [← hb] at hload
  have h4 : i < v.size_ := by omega
  have h5 : i < v.data_.capacity_ := by omega
  simp only [Vector.index, RawMemory.index, h4, h5, if_true, hload]

theorem realloc_spec (E : ElemOps T) (s : List T) (os dm ds : Block T)
    (hdm : dm.length = s.length) :
    ∃ r, transfer E (s.map some ++ os) s.length (dm ++ ds) = .ok r ∧
      r.2 = s.map some ++ ds ∧
      destroy_n r.1 0 s.length = .ok (List.replicate s.length none ++ os) := by
  cases hmv : E.move_on_realloc with
  | true =>
    have h := uninitialized_move_n_spec E s [] os [] dm ds 0 0 rfl rfl hdm
    simp only [List.nil_append] at h
    refine ⟨(s.map (fun x => some (E.moved_from x)) ++ os, s.map some ++ ds), ?_, rfl, ?_⟩
    · simp only [transfer, hmv, if_true]; exact h
    · have hd := destroy_n_spec (s.map E.moved_from) [] os 0 rfl
      simp only [List.nil_append, List.length_map, List.map_map] at hd
      exact hd
  | false =>
    have h := uninitialized_copy_n_spec s [] os [] dm ds 0 0 rfl rfl hdm
    simp only [List.nil_append] at h
    refine ⟨(s.map some ++ os, s.map some ++ ds), ?_, rfl, ?_⟩
    · simp only [transfer, hmv, h]; rfl
    · have hd := destroy_n_spec s [] os 0 rfl
      simpa using hd

end vector_lemmas
end CppVector
namespace CppVector
section op_specs
variable {T : Type}

theorem replicate_none_split (n k : Nat) (h : k ≤ n) :
    (List.replicate n (none : Option T)) = List.replicate k none ++ List.replicate (n - k) none := by
  rw [← List.replicate_add]; congr 1; omega

theorem Vector.holds_mk (s : List T) (rest : Block T) :
    Vector.Holds ⟨⟨s.map some ++ rest, s.length + rest.length⟩, s.length⟩ s :=
  (Vector.holds_iff _ s).mpr ⟨rest, rfl, rfl, rfl⟩

theorem RawMemory.ofCapacity_size_t_granted (E : ElemOps T) (n : Nat)
    (hg : n * E.size_of ≤ E.new_limit) :
    RawMemory.ofCapacity_size_t E n = .ok ⟨List.replicate n none, n⟩ := by
  by_cases h0 : n = 0
  · subst h0
    simp [RawMemory.ofCapacity_size_t, RawMemory.Allocate_size_t]
  · have hlt : n * E.size_of < size_t_range := by
      have := E.new_limit_le
      unfold size_t_range
      omega
    have hmod : n * E.size_of % size_t_range = n * E.size_of := Nat.mod_eq_of_lt hlt
    have hdiv : n * E.size_of / E.size_of = n := Nat.mul_div_cancel n E.size_of_pos
    have hno : ¬ (n * E.size_of > E.new_limit) := by omega
    simp only [RawMemory.ofCapacity_size_t, RawMemory.Allocate_size_t, h0, if_false, hmod, hno,
      hdiv]

theorem RawMemory.ofCapacity_size_t_refused (E : ElemOps T) (n : Nat) (h0 : n ≠ 0)
    (hr : E.new_limit < n * E.size_of % size_t_range) :
    (RawMemory.ofCapacity_size_t E n : Except Fault (RawMemory T)) = .error .bad_alloc := by
  have hyes : n * E.size_of % size_t_range > E.new_limit := hr
  simp only [RawMemory.ofCapacity_size_t, RawMemory.Allocate_size_t, h0, if_false, hyes,
    if_true]

theorem RawMemory.ofCapacity_size_t_capacity (E : ElemOps T) (n : Nat) (d : RawMemory T)
    (h : RawMemory.ofCapacity_size_t E n = .ok d) : d.capacity_ = n := by
  simp only [RawMemory.ofCapacity_size_t] at h
  split at h
  · cases h
  · cases h; rfl

theorem Vector.Reserve_spec (E : ElemOps T) (v : Vector T) (s : List T) (n : Nat)
    (h : v.Holds s) (hg : n ≤ v.Capacity ∨ n * E.size_of ≤ E.new_limit) :
    ∃ v', v.Reserve E n = .ok v' ∧ v'.Holds s ∧ v'.Size = v.Size ∧
      v'.Capacity = (if n > v.Capacity then n else v.Capacity) ∧
      (n ≤ v.Capacity → v' = v) := by
  obtain ⟨rest, h1, h2, h3⟩ := (Vector.holds_iff v s).mp h
  obtain ⟨⟨buf, cap⟩, size⟩ := v
  simp only at h1 h2 h3
  subst h1 h2 h3
  simp only [Vector.Capacity, RawMemory.Capacity] at hg
  by_cases hn : n ≤ s.length + rest.length
  · refine ⟨_, by simp only [Vector.Reserve, RawMemory.Capacity, hn, if_true], h, rfl, ?_, fun _ => rfl⟩
    simp only [Vector.Capacity, RawMemory.Capacity]
    rw [if_neg (by omega)]
  · have hk : s.length ≤ n := by omega
    obtain ⟨r, hr1, hr2, hr3⟩ := realloc_spec E s rest (List.replicate s.length none)
      (List.replicate (n - s.length) none) (by simp)
    rw [← replicate_none_split n s.length hk] at hr1
    refine ⟨⟨⟨s.map some ++ List.replicate (n - s.length) none, n⟩, s.length⟩, ?_, ?_, rfl, ?_, ?_⟩
    · have hgr : n * E.size_of ≤ E.new_limit := hg.resolve_left hn
      simp only [Vector.Reserve, RawMemory.Capacity, hn, if_false,
        RawMemory.ofCapacity_size_t_granted E n hgr, hr1, hr3, RawMemory.Swap, hr2]
    · have := Vector.holds_mk s (List.replicate (n - s.length) (none : Option T))
      simp only [List.length_replicate] at this
      rw [show s.length + (n - s.length) = n by omega] at this
      exact this
    · simp only [Vector.Capacity, RawMemory.Capacity]
      rw [if_pos (by omega)]
    · intro hle; exact absurd hle hn

theorem Vector.Reserve_refused (E : ElemOps T) (v : Vector T) (n : Nat)
    (hc : v.Capacity < n) (hr : E.new_limit < n * E.size_of % size_t_range) :
    v.Reserve E n = .error .bad_alloc := by
  have hn : ¬ n ≤ v.data_.capacity_ := by
    simp only [Vector.Capacity, RawMemory.Capacity] at hc; omega
  have h0 : n ≠ 0 := by omega
  simp only [Vector.Reserve, RawMemory.Capacity, hn, if_false,
    RawMemory.ofCapacity_size_t_refused E n h0 hr]

theorem Vector.PushBack_spec (E : ElemOps T) (v : Vector T) (s : List T) (x : T)
    (h : v.Holds s) :
    ∃ v', v.PushBack E x = .ok v' ∧ v'.Holds (s ++ [x]) ∧ v'.Size = v.Size + 1 ∧
      v'.Capacity = (if v.Size < v.Capacity then v.Capacity
        else if v.Capacity = 0 then 1 else 2 * v.Capacity) := by
  obtain ⟨rest, h1, h2, h3⟩ := (Vector.holds_iff v s).mp h
  obtain ⟨⟨buf, cap⟩, size⟩ := v
  simp only at h1 h2 h3
  subst h1 h2 h3
  cases rest with
  | nil =>
    -- full: reallocate
    generalize hN : (if s.length = 0 then 1 else s.length * 2) = N
    have hNlt : s.length < N := by
      rw [← hN]; split <;> omega
    have hsplit : (List.replicate N (none : Option T))
        = List.replicate s.length none ++ none :: List.replicate (N - s.length - 1) none := by
      rw [← List.replicate_succ, ← List.replicate_add]; congr 1; omega
    have hc : Block.construct (List.replicate N (none : Option T)) (0 + (s.length : Int)) x
        = .ok (List.replicate s.length none ++ some x :: List.replicate (N - s.length - 1) none) := by
      rw [hsplit]
      exact Block.construct_mid _ none x _ _ (by simp)
    obtain ⟨r, hr1, hr2, hr3⟩ := realloc_spec E s [] (List.replicate s.length none)
      (some x :: List.replicate (N - s.length - 1) none) (by simp)
    simp only [List.append_nil] at hr1 hr3
    refine ⟨⟨⟨s.map some ++ some x :: List.replicate (N - s.length - 1) none, N⟩,
      s.length + 1⟩, ?_, ?_, rfl, ?_⟩
    · simp only [Vector.PushBack, Vector.Capacity, RawMemory.Capacity, List.length_nil,
        Nat.add_zero, if_true, hN, RawMemory.ofCapacity, RawMemory.Allocate, hc, hr1, hr3,
        RawMemory.Swap, hr2, List.append_nil]
    · have := Vector.holds_mk (s ++ [x]) (List.replicate (N - s.length - 1) (none : Option T))
      simp only [List.length_replicate, List.length_append, List.length_singleton,
        List.map_append, List.map_cons, List.map_nil, List.append_assoc, List.singleton_append]
        at this
      rw [show s.length + 1 + (N - s.length - 1) = N by omega] at this
      exact this
    · simp only [Vector.Capacity, RawMemory.Capacity, Vector.Size, List.length_nil, Nat.add_zero,
        lt_irrefl, if_false]
      rw [← hN]
      split <;> omega
  | cons d rest =>
    have hc : Block.construct (s.map some ++ d :: rest) (0 + (s.length : Int)) x
        = .ok (s.map some ++ some x :: rest) :=
      Block.construct_mid _ d x _ _ (by simp)
    have hne : ¬ (s.length = s.length + (d :: rest).length) := by simp
    refine ⟨⟨⟨s.map some ++ some x :: rest, s.length + (d :: rest).length⟩, s.length + 1⟩,
      ?_, ?_, rfl, ?_⟩
    · simp only [Vector.PushBack, Vector.Capacity, RawMemory.Capacity, hne, if_false, hc]
    · have := Vector.holds_mk (s ++ [x]) rest
      simp only [List.length_append, List.length_singleton,
        List.map_append, List.map_cons, List.map_nil, List.append_assoc, List.singleton_append]
        at this
      rw [show s.length + 1 + rest.length = s.length + (d :: rest).length by simp; omega] at this
      exact this
    · simp only [Vector.Capacity, RawMemory.Capacity, Vector.Size]
      rw [if_pos (by simp)]

end op_specs
end CppVector
namespace CppVector
section op_specs2
variable {T : Type}

theorem Vector.EmplaceBack_eq (E : ElemOps T) (v : Vector T) (x : T) :
    v.EmplaceBack E x =
      match v.PushBack E x with
      | .error e => .error e
      | .ok v' => .ok (v', (v.size_ : Int)) := by
  have hi : (0 : Int) + ((v.size_ + 1 : Nat) : Int) - 1 = (v.size_ : Int) := by
    push_cast; omega
  unfold Vector.EmplaceBack Vector.PushBack
  rw [hi]
  by_cases hfull : v.size_ = v.Capacity
  · simp only [hfull, if_true]
    cases hc : Block.construct (RawMemory.ofCapacity (if v.Capacity = 0 then 1 else v.Capacity * 2)).buffer_
        (0 + (v.Capacity : Int)) x with
    | error e => rfl
    | ok nb =>
      simp only
      cases ht : transfer E v.data_.buffer_ v.Capacity nb with
      | error e => rfl
      | ok r =>
        simp only
        cases hd : destroy_n r.1 0 v.Capacity with
        | error e => rfl
        | ok old => rfl
  · simp only [hfull, if_false]
    cases hc : Block.construct v.data_.buffer_ (0 + (v.size_ : Int)) x with
    | error e => rfl
    | ok b => rfl

end op_specs2
end CppVector
namespace CppVector
section op_specs3
variable {T : Type}

theorem Vector.copy_ctor_spec (other : Vector T) (s : List T) (h : other.Holds s) :
    Vector.copy_ctor other = .ok ⟨⟨s.map some, s.length⟩, s.length⟩ := by
  obtain ⟨rest, h1, h2, h3⟩ := (Vector.holds_iff other s).mp h
  obtain ⟨⟨buf, cap⟩, size⟩ := other
  simp only at h1 h2 h3
  subst h1 h2 h3
  have hc := uninitialized_copy_n_spec s [] rest [] (List.replicate s.length none) [] 0 0 rfl rfl
    (by simp)
  simp only [List.nil_append, List.append_nil] at hc
  simp only [Vector.copy_ctor, RawMemory.ofCapacity, RawMemory.Allocate, hc]

theorem Vector.holds_copy (s : List T) :
    Vector.Holds (⟨⟨s.map some, s.length⟩, s.length⟩ : Vector T) s := by
  have := Vector.holds_mk s ([] : Block T)
  simpa using this

theorem Vector.assign_copy_spec (this_addr rhs_addr : Nat) (hne : this_addr ≠ rhs_addr)
    (a b : Vector T) (sa t : List T) (ha : a.Holds sa) (hb : b.Holds t) :
    ∃ a', Vector.assign_copy this_addr rhs_addr a b = .ok a' ∧ a'.Holds t ∧
      a'.Size = t.length ∧
      a'.Capacity = (if t.length > a.Capacity then t.length else a.Capacity) := by
  obtain ⟨ra, h1, h2, h3⟩ := (Vector.holds_iff a sa).mp ha
  obtain ⟨⟨buf, cap⟩, size⟩ := a
  simp only at h1 h2 h3
  subst h1 h2 h3
  have hcopy := Vector.copy_ctor_spec b t hb
  obtain ⟨rb, g1, g2, g3⟩ := (Vector.holds_iff b t).mp hb
  obtain ⟨⟨bufb, capb⟩, sizeb⟩ := b
  simp only at g1 g2 g3
  subst g1 g2 g3
  by_cases hbig : t.length > sa.length + ra.length
  · -- copy and swap
    have hd := destroy_n_spec sa [] ra 0 rfl
    simp only [List.nil_append] at hd
    refine ⟨⟨⟨t.map some, t.length⟩, t.length⟩, ?_, Vector.holds_copy t, rfl, ?_⟩
    · simp only [Vector.assign_copy, hne, ne_eq, not_false_eq_true, if_true, RawMemory.Capacity,
        hbig, hcopy, Vector.Swap, RawMemory.Swap, Vector.dtor, hd]
    · simp only [Vector.Capacity, RawMemory.Capacity, hbig, if_true]
  · by_cases hlt : t.length < sa.length
    · -- assign the prefix, destroy the excess suffix
      have hsa : sa.map some ++ ra
          = [] ++ (sa.take t.length).map some ++ ((sa.drop t.length).map some ++ ra) := by
        rw [List.nil_append, ← List.append_assoc, ← List.map_append, List.take_append_drop]
      have hc := copy_loop_spec t [] rb [] ((sa.drop t.length).map some ++ ra)
        (sa.take t.length) 0 0 rfl rfl (by simp [List.length_take]; omega)
      rw [← hsa] at hc
      simp only [List.nil_append] at hc
      have hd := destroy_n_spec (sa.drop t.length) (t.map some) ra (0 + (t.length : Int))
        (by simp)
      simp only [List.length_drop, zero_add, List.append_assoc] at hd
      refine ⟨⟨⟨t.map some ++ List.replicate (sa.length - t.length) none ++ ra,
        sa.length + ra.length⟩, t.length⟩, ?_, ?_, rfl, ?_⟩
      · simp only [Vector.assign_copy, hne, ne_eq, not_false_eq_true, if_true, RawMemory.Capacity,
          hbig, if_false, hlt, copy, zero_add, sub_zero, Int.toNat_ofNat, hc]
        simp only [hd, List.append_assoc]
      · have := Vector.holds_mk t (List.replicate (sa.length - t.length) (none : Option T) ++ ra)
        simp only [List.length_append, List.length_replicate, ← List.append_assoc] at this
        rw [show t.length + (sa.length - t.length + ra.length) = sa.length + ra.length by omega]
          at this
        exact this
      · simp only [Vector.Capacity, RawMemory.Capacity, hbig, if_false]
    · -- assign the prefix, construct the rest
      have hk : t.length - sa.length ≤ ra.length := by omega
      have hm : sa.length ≤ t.length := by omega
      have htk : (t.take sa.length).length = sa.length := by simp [List.length_take]; omega
      have hsrc : t.map some ++ rb
          = [] ++ (t.take sa.length).map some ++ ((t.drop sa.length).map some ++ rb) := by
        rw [List.nil_append, ← List.append_assoc, ← List.map_append, List.take_append_drop]
      have hc := copy_loop_spec (t.take sa.length) [] ((t.drop sa.length).map some ++ rb) [] ra
        sa 0 0 rfl rfl htk.symm
      rw [← hsrc] at hc
      simp only [List.nil_append, htk] at hc
      have hsrc2 : t.map some ++ rb
          = (t.take sa.length).map some ++ (t.drop sa.length).map some ++ rb := by
        rw [← List.map_append, List.take_append_drop]
      have hu := uninitialized_copy_n_spec (t.drop sa.length) ((t.take sa.length).map some) rb
        ((t.take sa.length).map some) (ra.take (t.length - sa.length))
        (ra.drop (t.length - sa.length)) (0 + (sa.length : Int)) (0 + (sa.length : Int))
        (by simp; omega) (by simp; omega)
        (by simp [List.length_take]; omega)
      rw [← hsrc2, List.append_assoc, List.take_append_drop, ← List.map_append,
        List.take_append_drop, List.length_drop] at hu
      refine ⟨⟨⟨t.map some ++ ra.drop (t.length - sa.length), sa.length + ra.length⟩,
        t.length⟩, ?_, ?_, rfl, ?_⟩
      · simp only [Vector.assign_copy, hne, ne_eq, not_false_eq_true, if_true, RawMemory.Capacity,
          hbig, if_false, hlt, copy, zero_add, sub_zero, Int.toNat_ofNat, hc]
        simp only [zero_add] at hu
        simp only [hu]
      · have := Vector.holds_mk t (ra.drop (t.length - sa.length))
        simp only [List.length_drop] at this
        rw [show t.length + (ra.length - (t.length - sa.length)) = sa.length + ra.length by omega]
          at this
        exact this
      · simp only [Vector.Capacity, RawMemory.Capacity, hbig, if_false]

end op_specs3
end CppVector
namespace CppVector
section op_specs4
variable {T : Type}

theorem Vector.grow_spec (E : ElemOps T) (v : Vector T) (s : List T) (h : v.Holds s) :
    ∃ d rest, Vector.grow E v = .ok ⟨⟨s.map some ++ d :: rest, s.length + (rest.length + 1)⟩,
        s.length⟩ ∧
      s.length + (rest.length + 1) = (if v.Size < v.Capacity then v.Capacity
        else if v.Capacity = 0 then 1 else 2 * v.Capacity) := by
  obtain ⟨rest, h1, h2, h3⟩ := (Vector.holds_iff v s).mp h
  obtain ⟨⟨buf, cap⟩, size⟩ := v
  simp only at h1 h2 h3
  subst h1 h2 h3
  cases rest with
  | nil =>
    generalize hN : (if s.length = 0 then 1 else s.length * 2) = N
    have hNlt : s.length < N := by
      rw [← hN]; split <;> omega
    have hsplit : (List.replicate N (none : Option T))
        = List.replicate s.length none ++ none :: List.replicate (N - s.length - 1) none := by
      rw [← List.replicate_succ, ← List.replicate_add]; congr 1; omega
    obtain ⟨r, hr1, hr2, hr3⟩ := realloc_spec E s [] (List.replicate s.length none)
      (none :: List.replicate (N - s.length - 1) none) (by simp)
    simp only [List.append_nil] at hr1 hr3
    rw [← hsplit] at hr1
    refine ⟨none, List.replicate (N - s.length - 1) none, ?_, ?_⟩
    · simp only [Vector.grow, Vector.Capacity, RawMemory.Capacity, List.length_nil,
        Nat.add_zero, if_true, hN, RawMemory.ofCapacity, RawMemory.Allocate, hr1, hr3,
        RawMemory.Swap, hr2, List.append_nil, List.length_replicate]
      rw [show s.length + (N - s.length - 1 + 1) = N by omega]
    · simp only [Vector.Capacity, RawMemory.Capacity, Vector.Size, List.length_nil, Nat.add_zero,
        lt_irrefl, if_false, List.length_replicate]
      rw [← hN]
      split <;> omega
  | cons d rest =>
    have hne : ¬ (s.length = s.length + (rest.length + 1)) := by omega
    refine ⟨d, rest, ?_, ?_⟩
    · simp only [Vector.grow, Vector.Capacity, RawMemory.Capacity, List.length_cons, hne,
        if_false]
    · simp only [Vector.Capacity, RawMemory.Capacity, Vector.Size, List.length_cons]
      rw [if_pos (by omega)]

theorem Vector.Emplace_spec (E : ElemOps T) (hE : ∀ x, E.moved_from x = x) (v : Vector T)
    (s : List T) (i : Nat) (x : T) (h : v.Holds s) (hs : s ≠ []) (hi : i ≤ s.length) :
    ∃ v', v.Emplace E i x = .ok (v', i) ∧ v'.Holds (s.take i ++ x :: s.drop i) ∧
      v'.Size = s.length + 1 ∧
      v'.Capacity = (if v.Size < v.Capacity then v.Capacity
        else if v.Capacity = 0 then 1 else 2 * v.Capacity) := by
  obtain ⟨d, rest, hg, hcap⟩ := Vector.grow_spec E v s h
  obtain ⟨s0, z, hsz⟩ : ∃ s0 z, s = s0 ++ [z] := by
    rcases List.eq_nil_or_concat s with hnil | ⟨s0, z, hc⟩
    · exact absurd hnil hs
    · exact ⟨s0, z, by simpa using hc⟩
  have hlast : (0 : Int) + (s.length : Int) - 1 = ((s0.map some).length : Nat) := by
    simp [hsz]
  have hmap : s.map some = s0.map some ++ [some z] := by rw [hsz]; simp
  have hl : Block.load (s.map some ++ d :: rest) (0 + (s.length : Int) - 1) = .ok z := by
    rw [hmap, List.append_assoc]
    exact Block.load_mid (s0.map some) z (d :: rest) _ hlast
  have hc : Block.construct (s.map some ++ d :: rest) (0 + (s.length : Int)) z
      = .ok (s.map some ++ some z :: rest) :=
    Block.construct_mid _ d z _ _ (by simp)
  have hm : Block.leave_moved E (s.map some ++ some z :: rest) (0 + (s.length : Int) - 1) z
      = s.map some ++ some z :: rest := by
    have := Block.leave_moved_mid E (s0.map some) (some z) z (some z :: rest) _ hlast
    rw [hE] at this
    rw [hmap, List.append_assoc]
    exact this
  have hsplit : s.map some = (s.take i).map some ++ (s.drop i).map some := by
    rw [← List.map_append, List.take_append_drop]
  have hcount : ((0 : Int) + (s.length : Int) - (0 + (i : Int))).toNat = (s.drop i).length := by
    rw [List.length_drop]; omega
  have hb := move_backward_loop_shift E hE (s.drop i) ((s.take i).map some) rest z
    (0 + (s.length : Int)) (0 + (s.length : Int) + 1)
    (by simp [List.length_take, List.length_drop]; omega) rfl
  rw [← hsplit] at hb
  have ha : Block.assign ((s.take i).map some ++ some ((s.drop i).headD z) ::
      ((s.drop i).map some ++ rest)) (0 + (i : Int)) x
      = .ok ((s.take i).map some ++ some x :: ((s.drop i).map some ++ rest)) :=
    Block.assign_mid _ _ x _ _ (by simp [List.length_take]; omega)
  refine ⟨⟨⟨(s.take i).map some ++ some x :: ((s.drop i).map some ++ rest),
    s.length + (rest.length + 1)⟩, s.length + 1⟩, ?_, ?_, rfl, ?_⟩
  · simp only [Vector.Emplace, hg, hl, hc, hm, move_backward, hcount, hb, ha]
  · have := Vector.holds_mk (s.take i ++ x :: s.drop i) rest
    simp only [List.length_append, List.length_cons, List.length_take, List.length_drop,
      List.map_append, List.map_cons, List.append_assoc, List.cons_append] at this
    rw [show min i s.length + (s.length - i + 1) + rest.length = s.length + (rest.length + 1)
      by omega, show min i s.length + (s.length - i + 1) = s.length + 1 by omega] at this
    exact this
  · exact hcap

end op_specs4
end CppVector
namespace CppVector
section inv_lemmas
variable {T : Type}

theorem Vector.Reserve_fields (E : ElemOps T) (a a' : Vector T) (n : Nat)
    (h : Vector.Reserve E a n = .ok a') :
    a'.size_ = a.size_ ∧
      a'.data_.capacity_ = (if n ≤ a.data_.capacity_ then a.data_.capacity_ else n) := by
  simp only [Vector.Reserve, RawMemory.Swap, RawMemory.Capacity] at h
  split at h
  · cases h; simp [*]
  · split at h
    · cases h
    · rename_i nd hnd
      have hc := RawMemory.ofCapacity_size_t_capacity E n nd hnd
      split at h
      · cases h
      · split at h
        · cases h
        · cases h; simp [*]

theorem Vector.Resize_fields (E : ElemOps T) (a a' : Vector T) (n : Nat)
    (h : Vector.Resize E a n = .ok a') :
    a'.size_ = n ∧ a.data_.capacity_ ≤ a'.data_.capacity_ ∧ (a.size_ < n → n ≤ a'.data_.capacity_) := by
  simp only [Vector.Resize] at h
  split at h
  · split at h
    · cases h
    · cases h; simp; omega
  · split at h
    · cases h
    · rename_i a1 hr
      obtain ⟨h1, h2⟩ := Vector.Reserve_fields E a a1 n hr
      split at h
      · cases h
      · cases h
        simp only [true_and]
        rw [h2]
        split <;> omega

theorem Vector.PushBack_fields (E : ElemOps T) (a a' : Vector T) (x : T)
    (h : Vector.PushBack E a x = .ok a') :
    a'.size_ = a.size_ + 1 ∧
      a'.data_.capacity_ = (if a.size_ = a.data_.capacity_
        then (if a.size_ = 0 then 1 else a.size_ * 2) else a.data_.capacity_) := by
  simp only [Vector.PushBack, RawMemory.ofCapacity, RawMemory.Swap, RawMemory.Capacity,
    Vector.Capacity] at h
  split at h
  · split at h
    · cases h
    · split at h
      · cases h
      · split at h
        · cases h
        · cases h; simp [*]
  · split at h
    · cases h
    · cases h; simp [*]

theorem Vector.grow_fields (E : ElemOps T) (a a' : Vector T)
    (h : Vector.grow E a = .ok a') :
    a'.size_ = a.size_ ∧
      a'.data_.capacity_ = (if a.size_ = a.data_.capacity_
        then (if a.size_ = 0 then 1 else a.size_ * 2) else a.data_.capacity_) := by
  simp only [Vector.grow, RawMemory.ofCapacity, RawMemory.Swap, RawMemory.Capacity,
    Vector.Capacity] at h
  split at h
  · split at h
    · cases h
    · split at h
      · cases h
      · cases h; simp [*]
  · cases h; simp [*]

theorem Vector.Emplace_fields (E : ElemOps T) (a a' : Vector T) (pos : Nat) (x : T) (r : Nat)
    (h : Vector.Emplace E a pos x = .ok (a', r)) :
    r = pos ∧ a'.size_ = a.size_ + 1 ∧
      a'.data_.capacity_ = (if a.size_ = a.data_.capacity_
        then (if a.size_ = 0 then 1 else a.size_ * 2) else a.data_.capacity_) := by
  simp only [Vector.Emplace] at h
  split at h
  · cases h
  · rename_i a1 hg
    obtain ⟨h1, h2⟩ := Vector.grow_fields E a a1 hg
    split at h
    · cases h
    · split at h
      · cases h
      · split at h
        · cases h
        · split at h
          · cases h
          · cases h
            exact ⟨rfl, by simp [h1], h2⟩

theorem Vector.PopBack_fields (a a' : Vector T) (h : Vector.PopBack a = .ok a') :
    a'.size_ = a.size_ - 1 ∧ a'.data_.capacity_ = a.data_.capacity_ := by
  simp only [Vector.PopBack] at h
  split at h
  · split at h
    · cases h
    · cases h; simp
  · cases h; simp; omega

theorem Vector.Erase_fields (E : ElemOps T) (a a' : Vector T) (pos : Nat) (r : Nat)
    (h : Vector.Erase E a pos = .ok (a', r)) :
    r = pos ∧ a'.size_ = a.size_ - 1 ∧ a'.data_.capacity_ = a.data_.capacity_ := by
  simp only [Vector.Erase] at h
  split at h
  · cases h
  · split at h
    · cases h
    · rename_i b hb a1 hp
      obtain ⟨h1, h2⟩ := Vector.PopBack_fields _ a1 hp
      cases h
      exact ⟨rfl, h1, h2⟩

theorem Vector.sized_fields (E : ElemOps T) (n : Nat) (v : Vector T)
    (h : Vector.sized E n = .ok v) : v.size_ = n ∧ v.data_.capacity_ = n := by
  simp only [Vector.sized] at h
  split at h
  · cases h
  · rename_i nd hnd
    have hc := RawMemory.ofCapacity_size_t_capacity E n nd hnd
    split at h
    · cases h
    · cases h; simp [hc]

theorem Vector.copy_ctor_fields (other v : Vector T)
    (h : Vector.copy_ctor other = .ok v) :
    v.size_ = other.size_ ∧ v.data_.capacity_ = other.size_ := by
  simp only [Vector.copy_ctor, RawMemory.ofCapacity] at h
  split at h
  · cases h
  · cases h; simp

theorem Vector.assign_copy_fields (i j : Nat) (a b a' : Vector T)
    (h : Vector.assign_copy i j a b = .ok a') :
    (i = j ∧ a' = a) ∨ (i ≠ j ∧ a'.size_ = b.size_ ∧
      a'.data_.capacity_ = (if b.size_ > a.data_.capacity_ then b.size_ else a.data_.capacity_)) := by
  simp only [Vector.assign_copy, RawMemory.Capacity, Vector.Swap, RawMemory.Swap, Vector.dtor] at h
  split at h
  · rename_i hne
    right
    refine ⟨hne, ?_⟩
    split at h
    · rename_i hbig
      split at h
      · cases h
      · rename_i c hc
        obtain ⟨h1, h2⟩ := Vector.copy_ctor_fields b c hc
        split at h
        · cases h
        · cases h
          simp [h2, hbig]
    · rename_i hbig
      split at h
      · split at h
        · cases h
        · split at h
          · cases h
          · cases h; simp [hbig]
      · split at h
        · cases h
        · split at h
          · cases h
          · cases h; simp [hbig]
  · rename_i he
    left
    cases h
    exact ⟨by simpa using he, rfl⟩

end inv_lemmas
end CppVector
namespace CppVector
section invariant
variable {T : Type}

theorem mutate_keeps_size_le_capacity (E : ElemOps T) (a a' : Vector T) (hm : Mutate E a a')
    (h : a.size_ ≤ a.data_.capacity_) : a'.size_ ≤ a'.data_.capacity_ := by
  cases hm with
  | reserve n hr =>
    obtain ⟨h1, h2⟩ := Vector.Reserve_fields E a a' n hr
    rw [h1, h2]; split <;> omega
  | resize n hr =>
    obtain ⟨h1, h2, h3⟩ := Vector.Resize_fields E a a' n hr
    rcases Nat.lt_or_ge a.size_ n with hlt | hge
    · rw [h1]; exact h3 hlt
    · omega
  | push_back x hr =>
    obtain ⟨h1, h2⟩ := Vector.PushBack_fields E a a' x hr
    rw [h1, h2]; split <;> [split; skip] <;> omega
  | emplace_back x r hr =>
    rw [Vector.EmplaceBack_eq] at hr
    split at hr
    · cases hr
    · rename_i v' hp
      obtain ⟨h1, h2⟩ := Vector.PushBack_fields E a v' x hp
      cases hr
      rw [h1, h2]; split <;> [split; skip] <;> omega
  | emplace pos x r _ hr =>
    obtain ⟨_, h1, h2⟩ := Vector.Emplace_fields E a a' pos x r hr
    rw [h1, h2]; split <;> [split; skip] <;> omega
  | insert pos x r _ hr =>
    obtain ⟨_, h1, h2⟩ := Vector.Emplace_fields E a a' pos x r hr
    rw [h1, h2]; split <;> [split; skip] <;> omega
  | erase pos r _ hr =>
    obtain ⟨_, h1, h2⟩ := Vector.Erase_fields E a a' pos r hr
    omega
  | pop_back hr =>
    obtain ⟨h1, h2⟩ := Vector.PopBack_fields a a' hr
    omega

theorem mem_of_getElem?_some {α : Type} (w : List α) (i : Nat) (a : α) (h : w[i]? = some a) :
    a ∈ w := by
  obtain ⟨hi, rfl⟩ := List.getElem?_eq_some.mp h
  exact List.getElem_mem hi

theorem step_keeps_size_le_capacity (E : ElemOps T) (w w' : List (Vector T)) (hs : Step E w w')
    (h : ∀ v ∈ w, v.size_ ≤ v.data_.capacity_) : ∀ v ∈ w', v.size_ ≤ v.data_.capacity_ := by
  have hset : ∀ (l : List (Vector T)) (i : Nat) (b : Vector T),
      (∀ v ∈ l, v.size_ ≤ v.data_.capacity_) → b.size_ ≤ b.data_.capacity_ →
      ∀ v ∈ l.set i b, v.size_ ≤ v.data_.capacity_ := by
    intro l i b hl hb v hv
    rcases List.mem_or_eq_of_mem_set hv with hin | heq
    · exact hl v hin
    · rw [heq]; exact hb
  have happ : ∀ (l : List (Vector T)) (b : Vector T),
      (∀ v ∈ l, v.size_ ≤ v.data_.capacity_) → b.size_ ≤ b.data_.capacity_ →
      ∀ v ∈ l ++ [b], v.size_ ≤ v.data_.capacity_ := by
    intro l b hl hb v hv
    rcases List.mem_append.mp hv with hin | heq
    · exact hl v hin
    · rw [List.mem_singleton.mp heq]; exact hb
  cases hs with
  | default_ctor => exact happ w _ h (Nat.le_refl 0)
  | sized_ctor n v hv =>
    obtain ⟨h1, h2⟩ := Vector.sized_fields E n v hv
    exact happ w v h (by omega)
  | copy_ctor i other v hi hv =>
    obtain ⟨h1, h2⟩ := Vector.copy_ctor_fields other v hv
    exact happ w v h (by omega)
  | move_ctor i other hi =>
    have ho := h other (mem_of_getElem?_some w i other hi)
    exact happ _ _ (hset w i _ h (Nat.le_refl 0)) ho
  | assign_copy i j a b a' hi hj ha =>
    have hao := h a (mem_of_getElem?_some w i a hi)
    refine hset w i a' h ?_
    rcases Vector.assign_copy_fields i j a b a' ha with ⟨_, he⟩ | ⟨_, h1, h2⟩
    · rw [he]; exact hao
    · rw [h1, h2]; split <;> omega
  | assign_move i j a b hi hj =>
    have hao := h a (mem_of_getElem?_some w i a hi)
    have hbo := h b (mem_of_getElem?_some w j b hj)
    by_cases hij : i = j
    · have e : Vector.assign_move i j a b = (a, b) := by simp [Vector.assign_move, hij]
      rw [e]
      exact hset _ j b (hset w i a h hao) hbo
    · have e : Vector.assign_move i j a b = Vector.Swap a b := by simp [Vector.assign_move, hij]
      rw [e]
      exact hset _ j _ (hset w i _ h hbo) hao
  | swap i j a b hi hj =>
    have hao := h a (mem_of_getElem?_some w i a hi)
    have hbo := h b (mem_of_getElem?_some w j b hj)
    exact hset _ j _ (hset w i _ h hbo) hao
  | mutate i a a' hi hm =>
    have hao := h a (mem_of_getElem?_some w i a hi)
    exact hset w i a' h (mutate_keeps_size_le_capacity E a a' hm hao)

theorem Vector.Reserve_run_fields (E : ElemOps T) (junk : Int → T) (a a' : Vector T) (n : Nat)
    (h : Vector.Reserve_run E junk a n = .ok a') :
    a'.size_ = a.size_ ∧
      a'.data_.capacity_ = (if n ≤ a.data_.capacity_ then a.data_.capacity_ else n) := by
  simp only [Vector.Reserve_run, RawMemory.Swap, RawMemory.Capacity] at h
  split at h
  · cases h; simp [*]
  · split at h
    · cases h
    · rename_i nd hnd
      have hc := RawMemory.ofCapacity_size_t_capacity E n nd hnd
      cases h; simp [*]

theorem RawMemory.ofCapacity_size_t_throws (E : ElemOps T) (n : Nat) (e : Fault)
    (h : (RawMemory.ofCapacity_size_t E n : Except Fault (RawMemory T)) = .error e) :
    e = .bad_alloc := by
  simp only [RawMemory.ofCapacity_size_t, RawMemory.Allocate_size_t] at h
  split at h
  · rename_i he
    split at he
    · cases he
    · split at he
      · cases he; cases h; rfl
      · cases he
  · cases h

theorem Vector.Reserve_run_throws (E : ElemOps T) (junk : Int → T) (a : Vector T) (n : Nat)
    (e : Fault) (h : Vector.Reserve_run E junk a n = .error e) : e = .bad_alloc := by
  simp only [Vector.Reserve_run] at h
  split at h
  · cases h
  · split at h
    · rename_i e1 he1
      cases h
      exact RawMemory.ofCapacity_size_t_throws E n _ he1
    · cases h

theorem Vector.Resize_run_fields (E : ElemOps T) (junk : Int → T) (a a' : Vector T) (n : Nat)
    (h : Vector.Resize_run E junk a n = .ok a') :
    a'.size_ = n ∧ a.data_.capacity_ ≤ a'.data_.capacity_ ∧
      (a.size_ < n → n ≤ a'.data_.capacity_) := by
  simp only [Vector.Resize_run] at h
  split at h
  · cases h; simp; omega
  · split at h
    · cases h
    · rename_i a1 hr
      obtain ⟨h1, h2⟩ := Vector.Reserve_run_fields E junk a a1 n hr
      cases h
      simp only [true_and]
      rw [h2]
      split <;> omega

theorem Vector.sized_run_fields (E : ElemOps T) (n : Nat) (v : Vector T)
    (h : Vector.sized_run E n = .ok v) : v.size_ = n ∧ v.data_.capacity_ = n := by
  simp only [Vector.sized_run] at h
  split at h
  · cases h
  · rename_i d hd
    have hc := RawMemory.ofCapacity_size_t_capacity E n d hd
    cases h; simp [hc]

theorem Vector.PushBack_run_fields (E : ElemOps T) (junk : Int → T) (a a' : Vector T) (x : T)
    (h : Vector.PushBack_run E junk a x = .ok a') :
    a'.size_ = (a.size_ + 1) % size_t_range ∧
      a'.data_.capacity_ = (if a.size_ = a.data_.capacity_
        then (if a.size_ = 0 then 1 else a.size_ * 2 % size_t_range)
        else a.data_.capacity_) := by
  simp only [Vector.PushBack_run, RawMemory.Swap, RawMemory.Capacity, Vector.Capacity] at h
  split at h
  · split at h
    · cases h
    · rename_i nd hnd
      have hc := RawMemory.ofCapacity_size_t_capacity E _ nd hnd
      cases h; simp [*]
  · cases h; simp [*]

theorem Vector.EmplaceBack_run_fields (E : ElemOps T) (junk : Int → T) (a a' : Vector T)
    (x : T) (r : Int) (h : Vector.EmplaceBack_run E junk a x = .ok (a', r)) :
    a'.size_ = (a.size_ + 1) % size_t_range ∧
      a'.data_.capacity_ = (if a.size_ = a.data_.capacity_
        then (if a.size_ = 0 then 1 else a.size_ * 2 % size_t_range)
        else a.data_.capacity_) := by
  simp only [Vector.EmplaceBack_run, RawMemory.Swap, RawMemory.Capacity, Vector.Capacity] at h
  split at h
  · split at h
    · cases h
    · rename_i nd hnd
      have hc := RawMemory.ofCapacity_size_t_capacity E _ nd hnd
      cases h; simp [*]
  · cases h; simp [*]

theorem Vector.grow_run_fields (E : ElemOps T) (junk : Int → T) (a a' : Vector T)
    (h : Vector.grow_run E junk a = .ok a') :
    a'.size_ = a.size_ ∧
      a'.data_.capacity_ = (if a.size_ = a.data_.capacity_
        then (if a.size_ = 0 then 1 else a.size_ * 2 % size_t_range)
        else a.data_.capacity_) := by
  simp only [Vector.grow_run, RawMemory.Swap, RawMemory.Capacity, Vector.Capacity] at h
  split at h
  · split at h
    · cases h
    · rename_i nd hnd
      have hc := RawMemory.ofCapacity_size_t_capacity E _ nd hnd
      cases h; simp [*]
  · cases h; simp [*]

theorem Vector.Emplace_run_fields (E : ElemOps T) (junk : Int → T) (a a' : Vector T)
    (pos : Nat) (x : T) (r : Nat) (h : Vector.Emplace_run E junk a pos x = .ok (a', r)) :
    r = pos ∧ a'.size_ = (a.size_ + 1) % size_t_range ∧
      a'.data_.capacity_ = (if a.size_ = a.data_.capacity_
        then (if a.size_ = 0 then 1 else a.size_ * 2 % size_t_range)
        else a.data_.capacity_) := by
  simp only [Vector.Emplace_run] at h
  split at h
  · cases h
  · rename_i a1 hg
    obtain ⟨h1, h2⟩ := Vector.grow_run_fields E junk a a1 hg
    cases h
    simp [h1, h2]

theorem Vector.PopBack_run_fields (a : Vector T) :
    (Vector.PopBack_run a).size_ = a.size_ - 1 ∧
      (Vector.PopBack_run a).data_.capacity_ = a.data_.capacity_ := by
  simp only [Vector.PopBack_run]
  split
  · simp
  · constructor
    · omega
    · rfl

theorem Vector.Erase_run_fields (E : ElemOps T) (junk : Int → T) (a : Vector T) (pos : Nat) :
    (Vector.Erase_run E junk a pos).2 = pos ∧
      (Vector.Erase_run E junk a pos).1.size_ = a.size_ - 1 ∧
      (Vector.Erase_run E junk a pos).1.data_.capacity_ = a.data_.capacity_ := by
  refine ⟨rfl, ?_, ?_⟩
  · simp only [Vector.Erase_run]
    exact (Vector.PopBack_run_fields _).1
  · simp only [Vector.Erase_run]
    exact (Vector.PopBack_run_fields _).2

theorem Vector.copy_ctor_run_fields (E : ElemOps T) (junk : Int → T) (other v : Vector T)
    (h : Vector.copy_ctor_run E junk other = .ok v) :
    v.size_ = other.size_ ∧ v.data_.capacity_ = other.size_ := by
  simp only [Vector.copy_ctor_run] at h
  split at h
  · cases h
  · rename_i d hd
    have hc := RawMemory.ofCapacity_size_t_capacity E _ d hd
    cases h; simp [hc]

theorem Vector.assign_copy_run_fields (E : ElemOps T) (junk : Int → T) (i j : Nat)
    (a b a' : Vector T) (h : Vector.assign_copy_run E junk i j a b = .ok a') :
    a' = a ∨
      (a'.size_ = b.size_ ∧
        a'.data_.capacity_
          = (if b.size_ > a.data_.capacity_ then b.size_ else a.data_.capacity_)) := by
  simp only [Vector.assign_copy_run, RawMemory.Capacity, Vector.Swap, RawMemory.Swap] at h
  split at h
  · right
    split at h
    · rename_i hbig
      split at h
      · cases h
      · rename_i c hc
        obtain ⟨h1, h2⟩ := Vector.copy_ctor_run_fields E junk b c hc
        cases h
        simp [h2, hbig]
    · rename_i hbig
      split at h
      · cases h; simp [hbig]
      · cases h; simp [hbig]
  · left
    cases h
    rfl

theorem run_mutate_keeps_size_le_capacity (E : ElemOps T) (a a' : Vector T)
    (hm : RunMutate E a a') (h : a.size_ ≤ a.data_.capacity_)
    (hb : a.size_ < 9223372036854775808) : a'.size_ ≤ a'.data_.capacity_ := by
  have hgrow : ∀ s c : Nat, s ≤ c → s < 9223372036854775808 →
      (s + 1) % size_t_range ≤ (if s = c then (if s = 0 then 1 else s * 2 % size_t_range)
        else c) := by
    intro s c hsc hs
    have h1 : (s + 1) % size_t_range = s + 1 := Nat.mod_eq_of_lt (by unfold size_t_range; omega)
    have h2 : s * 2 % size_t_range = s * 2 := Nat.mod_eq_of_lt (by unfold size_t_range; omega)
    rw [h1, h2]
    split <;> [split; skip] <;> omega
  cases hm with
  | reserve _ junk n _ hr =>
    obtain ⟨h1, h2⟩ := Vector.Reserve_run_fields E junk a a' n hr
    rw [h1, h2]; split <;> omega
  | reserve_throws junk n e _ hr => exact h
  | resize _ junk n _ hr =>
    obtain ⟨h1, h2, h3⟩ := Vector.Resize_run_fields E junk a a' n hr
    rcases Nat.lt_or_ge a.size_ n with hlt | hge
    · rw [h1]; exact h3 hlt
    · omega
  | resize_throws junk n e _ hr => exact h
  | push_back _ junk x hr =>
    obtain ⟨h1, h2⟩ := Vector.PushBack_run_fields E junk a a' x hr
    rw [h1, h2]; exact hgrow _ _ h hb
  | push_back_throws junk x e hr => exact h
  | emplace_back _ junk x r hr =>
    obtain ⟨h1, h2⟩ := Vector.EmplaceBack_run_fields E junk a a' x r hr
    rw [h1, h2]; exact hgrow _ _ h hb
  | emplace_back_throws junk x e hr => exact h
  | emplace _ junk pos x r _ hr =>
    obtain ⟨_, h1, h2⟩ := Vector.Emplace_run_fields E junk a a' pos x r hr
    rw [h1, h2]; exact hgrow _ _ h hb
  | emplace_throws junk pos x e _ hr => exact h
  | insert _ junk pos x r _ hr =>
    obtain ⟨_, h1, h2⟩ := Vector.Emplace_run_fields E junk a a' pos x r hr
    rw [h1, h2]; exact hgrow _ _ h hb
  | insert_throws junk pos x e _ hr => exact h
  | erase junk pos _ =>
    obtain ⟨_, h1, h2⟩ := Vector.Erase_run_fields E junk a pos
    omega
  | pop_back =>
    obtain ⟨h1, h2⟩ := Vector.PopBack_run_fields a
    omega

theorem run_step_keeps_size_le_capacity (E : ElemOps T) (w w' : List (Vector T))
    (hs : RunStep E w w') (h : ∀ v ∈ w, v.size_ ≤ v.data_.capacity_)
    (hb : ∀ v ∈ w, v.size_ < 9223372036854775808) :
    ∀ v ∈ w', v.size_ ≤ v.data_.capacity_ := by
  have hset : ∀ (l : List (Vector T)) (i : Nat) (b : Vector T),
      (∀ v ∈ l, v.size_ ≤ v.data_.capacity_) → b.size_ ≤ b.data_.capacity_ →
      ∀ v ∈ l.set i b, v.size_ ≤ v.data_.capacity_ := by
    intro l i b hl hb v hv
    rcases List.mem_or_eq_of_mem_set hv with hin | heq
    · exact hl v hin
    · rw [heq]; exact hb
  have happ : ∀ (l : List (Vector T)) (b : Vector T),
      (∀ v ∈ l, v.size_ ≤ v.data_.capacity_) → b.size_ ≤ b.data_.capacity_ →
      ∀ v ∈ l ++ [b], v.size_ ≤ v.data_.capacity_ := by
    intro l b hl hb v hv
    rcases List.mem_append.mp hv with hin | hin
    · exact hl v hin
    · rw [List.mem_singleton.mp hin]; exact hb
  cases hs with
  | default_ctor => exact happ w _ h (Nat.le_refl 0)
  | move_ctor i other hi =>
    have ho := h other (mem_of_getElem?_some w i other hi)
    exact happ _ _ (hset w i _ h (Nat.le_refl 0)) ho
  | assign_move i j a b hi hj =>
    have hao := h a (mem_of_getElem?_some w i a hi)
    have hbo := h b (mem_of_getElem?_some w j b hj)
    by_cases hij : i = j
    · have e : Vector.assign_move i j a b = (a, b) := by simp [Vector.assign_move, hij]
      rw [e]
      exact hset _ j b (hset w i a h hao) hbo
    · have e : Vector.assign_move i j a b = Vector.Swap a b := by simp [Vector.assign_move, hij]
      rw [e]
      exact hset _ j _ (hset w i _ h hbo) hao
  | swap i j a b hi hj =>
    have hao := h a (mem_of_getElem?_some w i a hi)
    have hbo := h b (mem_of_getElem?_some w j b hj)
    exact hset _ j _ (hset w i _ h hbo) hao
  | sized_ctor n v _ hv =>
    obtain ⟨h1, h2⟩ := Vector.sized_run_fields E n v hv
    exact happ w v h (by omega)
  | sized_ctor_throws n e _ hv => exact h
  | copy_ctor junk i other v hi hv =>
    obtain ⟨h1, h2⟩ := Vector.copy_ctor_run_fields E junk other v hv
    exact happ w _ h (by omega)
  | copy_ctor_throws junk i other e hi hv => exact h
  | assign_copy junk i j a b a' hi hj ha =>
    have hao := h a (mem_of_getElem?_some w i a hi)
    refine hset w i _ h ?_
    rcases Vector.assign_copy_run_fields E junk i j a b a' ha with he | ⟨h1, h2⟩
    · rw [he]; exact hao
    · rw [h1, h2]; split <;> omega
  | assign_copy_throws junk i j a b e hi hj ha => exact h
  | mutate i a a' hi hm =>
    have hao := h a (mem_of_getElem?_some w i a hi)
    have hab := hb a (mem_of_getElem?_some w i a hi)
    exact hset w i a' h (run_mutate_keeps_size_le_capacity E a a' hm hao hab)

theorem strict_reachable_size_le_capacity (E : ElemOps T) (w : List (Vector T))
    (hw : Relation.ReflTransGen (Step E) [Vector.empty] w) :
    ∀ v ∈ w, v.size_ ≤ v.data_.capacity_ := by
  induction hw with
  | refl =>
    intro v hv
    rw [List.mem_singleton.mp hv]
    exact Nat.le_refl 0
  | tail _ hs ih => exact step_keeps_size_le_capacity E _ _ hs ih

end invariant

section run_agrees
variable {T : Type}

theorem Block.load_range (b : Block T) (p : Int) (x : T) (h : b.load p = .ok x) :
    ¬ (p < 0 ∨ (b.length : Int) ≤ p) := by
  simp only [Block.load] at h
  split at h
  · cases h
  · assumption

theorem Block.peek_of_load (junk : Int → T) (b : Block T) (p : Int) (x : T)
    (h : b.load p = .ok x) : b.peek junk p = x := by
  simp only [Block.peek, h]

theorem Block.poke_of_construct (b b' : Block T) (p : Int) (x : T)
    (h : b.construct p x = .ok b') : b.poke p x = b' := by
  simp only [Block.construct] at h
  split at h
  · cases h
  · rename_i hn
    cases h
    simp only [Block.poke, hn, if_false]

theorem Block.poke_of_assign (b b' : Block T) (p : Int) (x : T)
    (h : b.assign p x = .ok b') : b.poke p x = b' := by
  simp only [Block.assign] at h
  split at h
  · rename_i y hy
    have hn := Block.load_range b p y hy
    cases h
    simp only [Block.poke, hn, if_false]
  · cases h

theorem Block.assign_length (b b' : Block T) (p : Int) (x : T)
    (h : b.assign p x = .ok b') : b'.length = b.length := by
  simp only [Block.assign] at h
  split at h
  · cases h; simp
  · cases h

theorem Block.wipe_of_destroy (b b' : Block T) (p : Int)
    (h : b.destroy p = .ok b') : b.wipe p = b' := by
  simp only [Block.destroy] at h
  split at h
  · rename_i y hy
    have hn := Block.load_range b p y hy
    cases h
    simp only [Block.wipe, hn, if_false]
  · cases h

theorem Block.poke_of_leave_moved (E : ElemOps T) (b : Block T) (p : Int) (x : T)
    (hn : ¬ (p < 0 ∨ (b.length : Int) ≤ p)) :
    b.poke p (E.moved_from x) = b.leave_moved E p x := by
  simp only [Block.poke, hn, if_false, Block.leave_moved]

theorem uninitialized_copy_n_run_agrees (junk : Int → T) (src : Block T) :
    ∀ (n : Nat) (first : Int) (dst : Block T) (d_first : Int) (r : Block T),
      uninitialized_copy_n src first n dst d_first = .ok r →
      uninitialized_copy_n_run junk src first n dst d_first = r
  | 0, first, dst, d_first, r, h => by
    simp only [uninitialized_copy_n] at h
    cases h
    simp only [uninitialized_copy_n_run]
  | n + 1, first, dst, d_first, r, h => by
    simp only [uninitialized_copy_n] at h
    split at h
    · cases h
    · rename_i x hx
      split at h
      · cases h
      · rename_i d1 hd
        simp only [uninitialized_copy_n_run, Block.peek_of_load junk _ _ _ hx,
          Block.poke_of_construct _ _ _ _ hd]
        exact uninitialized_copy_n_run_agrees junk src n _ _ _ _ h

theorem uninitialized_move_n_run_agrees (E : ElemOps T) (junk : Int → T) :
    ∀ (n : Nat) (src : Block T) (first : Int) (dst : Block T) (d_first : Int)
      (r : Block T × Block T),
      uninitialized_move_n E src first n dst d_first = .ok r →
      uninitialized_move_n_run E junk src first n dst d_first = r
  | 0, src, first, dst, d_first, r, h => by
    simp only [uninitialized_move_n] at h
    cases h
    simp only [uninitialized_move_n_run]
  | n + 1, src, first, dst, d_first, r, h => by
    simp only [uninitialized_move_n] at h
    split at h
    · cases h
    · rename_i x hx
      split at h
      · cases h
      · rename_i d1 hd
        simp only [uninitialized_move_n_run, Block.peek_of_load junk _ _ _ hx,
          Block.poke_of_construct _ _ _ _ hd,
          Block.poke_of_leave_moved E src first x (Block.load_range src first x hx)]
        exact uninitialized_move_n_run_agrees E junk n _ _ _ _ _ h

theorem destroy_n_run_agrees :
    ∀ (n : Nat) (b : Block T) (first : Int) (r : Block T),
      destroy_n b first n = .ok r → destroy_n_run b first n = r
  | 0, b, first, r, h => by
    simp only [destroy_n] at h
    cases h
    simp only [destroy_n_run]
  | n + 1, b, first, r, h => by
    simp only [destroy_n] at h
    split at h
    · cases h
    · rename_i b1 hb
      simp only [destroy_n_run, Block.wipe_of_destroy _ _ _ hb]
      exact destroy_n_run_agrees n _ _ _ h

theorem uninitialized_value_construct_n_run_agrees (E : ElemOps T) :
    ∀ (n : Nat) (b : Block T) (first : Int) (r : Block T),
      uninitialized_value_construct_n E b first n = .ok r →
      uninitialized_value_construct_n_run E b first n = r
  | 0, b, first, r, h => by
    simp only [uninitialized_value_construct_n] at h
    cases h
    simp only [uninitialized_value_construct_n_run]
  | n + 1, b, first, r, h => by
    simp only [uninitialized_value_construct_n] at h
    split at h
    · cases h
    · rename_i b1 hb
      simp only [uninitialized_value_construct_n_run, Block.poke_of_construct _ _ _ _ hb]
      exact uninitialized_value_construct_n_run_agrees E n _ _ _ h

theorem copy_loop_run_agrees (junk : Int → T) (src : Block T) :
    ∀ (n : Nat) (first : Int) (dst : Block T) (d_first : Int) (r : Block T),
      copy_loop src first n dst d_first = .ok r →
      copy_loop_run junk src first n dst d_first = r
  | 0, first, dst, d_first, r, h => by
    simp only [copy_loop] at h
    cases h
    simp only [copy_loop_run]
  | n + 1, first, dst, d_first, r, h => by
    simp only [copy_loop] at h
    split at h
    · cases h
    · rename_i x hx
      split at h
      · cases h
      · rename_i d1 hd
        simp only [copy_loop_run, Block.peek_of_load junk _ _ _ hx,
          Block.poke_of_assign _ _ _ _ hd]
        exact copy_loop_run_agrees junk src n _ _ _ _ h

theorem copy_run_agrees (junk : Int → T) (src : Block T) (first last : Int) (dst : Block T)
    (d_first : Int) (r : Block T) (h : copy src first last dst d_first = .ok r) :
    copy_run junk src first last dst d_first = r :=
  copy_loop_run_agrees junk src _ _ _ _ _ h

theorem move_backward_loop_run_agrees (E : ElemOps T) (junk : Int → T) :
    ∀ (n : Nat) (b : Block T) (last d_last : Int) (r : Block T),
      move_backward_loop E b last n d_last = .ok r →
      move_backward_loop_run E junk b last n d_last = r
  | 0, b, last, d_last, r, h => by
    simp only [move_backward_loop] at h
    cases h
    simp only [move_backward_loop_run]
  | n + 1, b, last, d_last, r, h => by
    simp only [move_backward_loop] at h
    split at h
    · cases h
    · rename_i x hx
      split at h
      · cases h
      · rename_i b1 hb
        have hn := Block.load_range b (last - 1) x hx
        rw [← Block.assign_length b b1 _ _ hb] at hn
        simp only [move_backward_loop_run, Block.peek_of_load junk _ _ _ hx,
          Block.poke_of_assign _ _ _ _ hb, Block.poke_of_leave_moved E b1 (last - 1) x hn]
        exact move_backward_loop_run_agrees E junk n _ _ _ _ h

theorem move_backward_run_agrees (E : ElemOps T) (junk : Int → T) (b : Block T)
    (first last d_last : Int) (r : Block T) (h : move_backward E b first last d_last = .ok r) :
    move_backward_run E junk b first last d_last = r :=
  move_backward_loop_run_agrees E junk _ _ _ _ _ h

theorem transfer_run_agrees (E : ElemOps T) (junk : Int → T) (old : Block T) (size : Nat)
    (new_data : Block T) (r : Block T × Block T) (h : transfer E old size new_data = .ok r) :
    transfer_run E junk old size new_data = r := by
  simp only [transfer] at h
  simp only [transfer_run]
  split at h
  · rename_i hm
    rw [if_pos hm]
    exact uninitialized_move_n_run_agrees E junk _ _ _ _ _ _ h
  · rename_i hm
    rw [if_neg hm]
    split at h
    · cases h
    · rename_i d hd
      cases h
      rw [uninitialized_copy_n_run_agrees junk _ _ _ _ _ _ hd]

theorem Vector.sized_run_agrees (E : ElemOps T) (n : Nat) (v : Vector T)
    (h : Vector.sized E n = .ok v) : Vector.sized_run E n = .ok v := by
  simp only [Vector.sized] at h
  simp only [Vector.sized_run]
  split at h
  · cases h
  · rename_i d hd
    split at h
    · cases h
    · rename_i b hb
      cases h
      simp only [hd, uninitialized_value_construct_n_run_agrees E _ _ _ _ hb]

theorem RawMemory.ofCapacity_size_t_agrees (E : ElemOps T) (n : Nat)
    (hg : n * E.size_of ≤ E.new_limit) :
    RawMemory.ofCapacity_size_t E n = .ok (RawMemory.ofCapacity n : RawMemory T) := by
  rw [RawMemory.ofCapacity_size_t_granted E n hg]
  rfl

theorem Vector.copy_ctor_run_agrees (E : ElemOps T) (junk : Int → T) (other v : Vector T)
    (hg : other.size_ * E.size_of ≤ E.new_limit) (h : Vector.copy_ctor other = .ok v) :
    Vector.copy_ctor_run E junk other = .ok v := by
  simp only [Vector.copy_ctor] at h
  simp only [Vector.copy_ctor_run, RawMemory.ofCapacity_size_t_agrees E _ hg]
  split at h
  · cases h
  · rename_i b hb
    cases h
    simp only [uninitialized_copy_n_run_agrees junk _ _ _ _ _ _ hb]

theorem Vector.assign_copy_run_agrees (E : ElemOps T) (junk : Int → T) (i j : Nat)
    (a b a' : Vector T)
    (hg : b.size_ > a.data_.capacity_ → b.size_ * E.size_of ≤ E.new_limit)
    (h : Vector.assign_copy i j a b = .ok a') :
    Vector.assign_copy_run E junk i j a b = .ok a' := by
  simp only [Vector.assign_copy] at h
  simp only [Vector.assign_copy_run]
  split at h
  · rename_i hij
    rw [if_pos hij]
    split at h
    · rename_i hbig
      rw [if_pos hbig]
      split at h
      · cases h
      · rename_i c hc
        split at h
        · cases h
        · cases h
          simp only [Vector.copy_ctor_run_agrees E junk b c (hg hbig) hc]
    · rename_i hbig
      rw [if_neg hbig]
      split at h
      · rename_i hlt
        rw [if_pos hlt]
        split at h
        · cases h
        · rename_i b1 hb1
          split at h
          · cases h
          · rename_i b2 hb2
            cases h
            simp only [copy_run_agrees junk _ _ _ _ _ _ hb1, destroy_n_run_agrees _ _ _ _ hb2]
      · rename_i hlt
        rw [if_neg hlt]
        split at h
        · cases h
        · rename_i b1 hb1
          split at h
          · cases h
          · rename_i b2 hb2
            cases h
            simp only [copy_run_agrees junk _ _ _ _ _ _ hb1,
              uninitialized_copy_n_run_agrees junk _ _ _ _ _ _ hb2]
  · rename_i hij
    rw [if_neg hij]
    exact h

theorem Vector.Reserve_run_agrees (E : ElemOps T) (junk : Int → T) (a a' : Vector T) (n : Nat)
    (h : Vector.Reserve E a n = .ok a') : Vector.Reserve_run E junk a n = .ok a' := by
  simp only [Vector.Reserve] at h
  simp only [Vector.Reserve_run]
  split at h
  · rename_i hle
    rw [if_pos hle]
    exact h
  · rename_i hle
    rw [if_neg hle]
    split at h
    · cases h
    · rename_i nd hnd
      split at h
      · cases h
      · rename_i r hr
        split at h
        · cases h
        · rename_i old hold
          cases h
          simp only [hnd, transfer_run_agrees E junk _ _ _ _ hr,
            destroy_n_run_agrees _ _ _ _ hold]

theorem Vector.Resize_run_agrees (E : ElemOps T) (junk : Int → T) (a a' : Vector T) (n : Nat)
    (h : Vector.Resize E a n = .ok a') : Vector.Resize_run E junk a n = .ok a' := by
  simp only [Vector.Resize] at h
  simp only [Vector.Resize_run]
  split at h
  · rename_i hle
    rw [if_pos hle]
    split at h
    · cases h
    · rename_i b hb
      cases h
      simp only [destroy_n_run_agrees _ _ _ _ hb]
  · rename_i hle
    rw [if_neg hle]
    split at h
    · cases h
    · rename_i a1 ha1
      split at h
      · cases h
      · rename_i b hb
        cases h
        simp only [Vector.Reserve_run_agrees E junk a a1 n ha1,
          uninitialized_value_construct_n_run_agrees E _ _ _ _ hb]

theorem growth_count_exact (E : ElemOps T) (s : Nat)
    (hg : (if s = 0 then 1 else s * 2) * E.size_of ≤ E.new_limit) :
    (if s = 0 then 1 else s * 2 % size_t_range) = (if s = 0 then 1 else s * 2) := by
  split
  · rfl
  · rename_i h0
    rw [if_neg h0] at hg
    have h1 := E.new_limit_le
    have h2 := E.size_of_pos
    have h3 : s * 2 ≤ s * 2 * E.size_of := Nat.le_mul_of_pos_right _ h2
    exact Nat.mod_eq_of_lt (by unfold size_t_range; omega)

theorem size_succ_exact (s : Nat) (hs : s < 9223372036854775808) :
    (s + 1) % size_t_range = s + 1 :=
  Nat.mod_eq_of_lt (by unfold size_t_range; omega)

theorem Vector.EmplaceBack_run_agrees (E : ElemOps T) (junk : Int → T) (a : Vector T) (x : T)
    (r : Vector T × Int) (hs : a.size_ < 9223372036854775808)
    (hg : a.size_ = a.data_.capacity_ →
      (if a.size_ = 0 then 1 else a.size_ * 2) * E.size_of ≤ E.new_limit)
    (h : Vector.EmplaceBack E a x = .ok r) :
    Vector.EmplaceBack_run E junk a x = .ok r := by
  simp only [Vector.EmplaceBack, Vector.Capacity, RawMemory.Capacity] at h
  simp only [Vector.EmplaceBack_run, Vector.Capacity, RawMemory.Capacity, size_succ_exact _ hs]
  split at h
  · rename_i hfull
    rw [if_pos hfull, growth_count_exact E _ (hg hfull),
      RawMemory.ofCapacity_size_t_agrees E _ (hg hfull)]
    split at h
    · cases h
    · rename_i nb hnb
      split at h
      · cases h
      · rename_i t ht
        split at h
        · cases h
        · rename_i old hold
          cases h
          simp only [Block.poke_of_construct _ _ _ _ hnb, transfer_run_agrees E junk _ _ _ _ ht,
            destroy_n_run_agrees _ _ _ _ hold]
  · rename_i hfull
    rw [if_neg hfull]
    split at h
    · cases h
    · rename_i b hb
      cases h
      simp only [Block.poke_of_construct _ _ _ _ hb]

theorem Vector.PushBack_run_agrees (E : ElemOps T) (junk : Int → T) (a a' : Vector T) (x : T)
    (hs : a.size_ < 9223372036854775808)
    (hg : a.size_ = a.data_.capacity_ →
      (if a.size_ = 0 then 1 else a.size_ * 2) * E.size_of ≤ E.new_limit)
    (h : Vector.PushBack E a x = .ok a') : Vector.PushBack_run E junk a x = .ok a' := by
  simp only [Vector.PushBack, Vector.Capacity, RawMemory.Capacity] at h
  simp only [Vector.PushBack_run, Vector.Capacity, RawMemory.Capacity, size_succ_exact _ hs]
  split at h
  · rename_i hfull
    rw [if_pos hfull, growth_count_exact E _ (hg hfull),
      RawMemory.ofCapacity_size_t_agrees E _ (hg hfull)]
    split at h
    · cases h
    · rename_i nb hnb
      split at h
      · cases h
      · rename_i t ht
        split at h
        · cases h
        · rename_i old hold
          cases h
          simp only [Block.poke_of_construct _ _ _ _ hnb, transfer_run_agrees E junk _ _ _ _ ht,
            destroy_n_run_agrees _ _ _ _ hold]
  · rename_i hfull
    rw [if_neg hfull]
    split at h
    · cases h
    · rename_i b hb
      cases h
      simp only [Block.poke_of_construct _ _ _ _ hb]

theorem Vector.grow_run_agrees (E : ElemOps T) (junk : Int → T) (a a' : Vector T)
    (hg : a.size_ = a.data_.capacity_ →
      (if a.size_ = 0 then 1 else a.size_ * 2) * E.size_of ≤ E.new_limit)
    (h : Vector.grow E a = .ok a') : Vector.grow_run E junk a = .ok a' := by
  simp only [Vector.grow, Vector.Capacity, RawMemory.Capacity] at h
  simp only [Vector.grow_run, Vector.Capacity, RawMemory.Capacity]
  split at h
  · rename_i hfull
    rw [if_pos hfull, growth_count_exact E _ (hg hfull),
      RawMemory.ofCapacity_size_t_agrees E _ (hg hfull)]
    split at h
    · cases h
    · rename_i t ht
      split at h
      · cases h
      · rename_i old hold
        cases h
        simp only [transfer_run_agrees E junk _ _ _ _ ht, destroy_n_run_agrees _ _ _ _ hold]
  · rename_i hfull
    rw [if_neg hfull]
    exact h

theorem Block.construct_length (b b' : Block T) (p : Int) (x : T)
    (h : b.construct p x = .ok b') : b'.length = b.length := by
  simp only [Block.construct] at h
  split at h
  · cases h
  · cases h; simp

theorem Vector.Emplace_run_agrees (E : ElemOps T) (junk : Int → T) (a : Vector T) (pos : Nat)
    (x : T) (r : Vector T × Nat) (hs : a.size_ < 9223372036854775808)
    (hg : a.size_ = a.data_.capacity_ →
      (if a.size_ = 0 then 1 else a.size_ * 2) * E.size_of ≤ E.new_limit)
    (h : Vector.Emplace E a pos x = .ok r) :
    Vector.Emplace_run E junk a pos x = .ok r := by
  simp only [Vector.Emplace] at h
  simp only [Vector.Emplace_run]
  split at h
  · cases h
  · rename_i a1 ha1
    have hsz : a1.size_ = a.size_ := (Vector.grow_fields E a a1 ha1).1
    split at h
    · cases h
    · rename_i y hy
      split at h
      · cases h
      · rename_i b1 hb1
        split at h
        · cases h
        · rename_i b3 hb3
          split at h
          · cases h
          · rename_i b4 hb4
            cases h
            have hn := Block.load_range _ _ y hy
            rw [← Block.construct_length _ b1 _ _ hb1] at hn
            simp only [Vector.grow_run_agrees E junk a a1 hg ha1,
              Block.peek_of_load junk _ _ _ hy,
              Block.poke_of_construct _ _ _ _ hb1, Block.poke_of_leave_moved E b1 _ y hn,
              move_backward_run_agrees E junk _ _ _ _ _ hb3, Block.poke_of_assign _ _ _ _ hb4,
              size_succ_exact _ (hsz ▸ hs)]

theorem Vector.PopBack_run_agrees (a a' : Vector T) (h : Vector.PopBack a = .ok a') :
    Vector.PopBack_run a = a' := by
  simp only [Vector.PopBack] at h
  simp only [Vector.PopBack_run]
  split at h
  · rename_i hpos
    rw [if_pos hpos]
    split at h
    · cases h
    · rename_i b hb
      cases h
      simp only [Block.wipe_of_destroy _ _ _ hb]
  · rename_i hpos
    rw [if_neg hpos]
    cases h
    rfl

theorem Vector.Erase_run_agrees (E : ElemOps T) (junk : Int → T) (a : Vector T) (pos : Nat)
    (r : Vector T × Nat) (h : Vector.Erase E a pos = .ok r) :
    Vector.Erase_run E junk a pos = r := by
  simp only [Vector.Erase] at h
  simp only [Vector.Erase_run]
  split at h
  · cases h
  · rename_i b hb
    split at h
    · cases h
    · rename_i a1 ha1
      cases h
      simp only [move_backward_run_agrees E junk _ _ _ _ _ hb, Vector.PopBack_run_agrees _ _ ha1]

end run_agrees

section plain_lemmas
variable {T : Type}

theorem uninitialized_value_construct_n_run_outside (E : ElemOps T) :
    ∀ (n : Nat) (b : Block T) (first : Int), (b.length : Int) ≤ first →
      uninitialized_value_construct_n_run E b first n = b
  | 0, b, first, _ => by simp only [uninitialized_value_construct_n_run]
  | n + 1, b, first, h => by
    have hp : b.poke first E.value_init = b := by
      simp only [Block.poke, h, or_true, if_true]
    simp only [uninitialized_value_construct_n_run, hp]
    exact uninitialized_value_construct_n_run_outside E n b (first + 1) (by omega)

theorem uninitialized_value_construct_n_run_succ (E : ElemOps T) (b : Block T) (first : Int)
    (n : Nat) :
    uninitialized_value_construct_n_run E b first (n + 1)
      = uninitialized_value_construct_n_run E (b.poke first E.value_init) (first + 1) n := rfl

end plain_lemmas

/-- A plain build runs through `Insert` on an empty vector and through `Erase(begin())`:
`Vector<int> v; v.Insert(v.begin(), 7)` leaves `[7]` with size 1 and capacity 1, and
`Erase(begin())` on `[7, 8]` at capacity 2 leaves size 1, capacity 2 and `8` in slot 0,
where the first reading reports the access to the slot before the block. -/
theorem plain_build_runs_on :
    Vector.Insert intOps Vector.empty 0 7 = .error (.out_of_bounds (-1)) ∧
    Vector.Insert_run intOps (fun _ => 0) Vector.empty 0 7 = .ok (⟨⟨[some 7], 1⟩, 1⟩, 0) ∧
    Vector.Erase intOps ⟨⟨[some 7, some 8], 2⟩, 2⟩ 0 = .error (.out_of_bounds (-1)) ∧
    Vector.Erase_run intOps (fun _ => 0) ⟨⟨[some 7, some 8], 2⟩, 2⟩ 0
      = (⟨⟨[some 8, none], 2⟩, 1⟩, 0) ∧
    Reachable intOps [⟨⟨[some 7], 1⟩, 1⟩] :=
  ⟨rfl, rfl, rfl, rfl,
    .run _ _ .start
      (.mutate [Vector.empty] 0 Vector.empty ⟨⟨[some 7], 1⟩, 1⟩ rfl
        (.insert Vector.empty _ (fun _ => 0) 0 7 0 (by decide) rfl))⟩


/-- C3: the invariant `Size() <= Capacity()` does not hold in every reachable state.  On a
default-constructed `Vector<int>`, `Reserve(2^63 + 1)` asks `operator new` for
`(2^63 + 1) * 4` bytes, which is 4 in `size_t`: it returns with a block of one slot and
`capacity_ == 2^63 + 1`.  `Resize(2^63 + 1)` finds the capacity sufficient and
value-constructs `2^63 + 1` elements from slot 0 on, past the end of the block (the call
is outside the behaviour C++ defines; a plain build goes on), and sets `size_` to
`2^63 + 1`.  `PushBack(1)` then finds `size_ == Capacity()` and allocates room for
`size_ * 2` elements, which is 2 in `size_t`: afterwards `Size()` is `2^63 + 2` and
`Capacity()` is 2. -/
theorem C3_size_exceeds_capacity_after_wrapped_allocation :
    Vector.Reserve intOps Vector.empty 9223372036854775809
      = .ok ⟨⟨[none], 9223372036854775809⟩, 0⟩ ∧
    Vector.Resize intOps ⟨⟨[none], 9223372036854775809⟩, 0⟩ 9223372036854775809
      = .error (.out_of_bounds 1) ∧
    Vector.Resize_run intOps (fun _ => 0) ⟨⟨[none], 9223372036854775809⟩, 0⟩
        9223372036854775809
      = .ok ⟨⟨[some 0], 9223372036854775809⟩, 9223372036854775809⟩ ∧
    (∃ v, Vector.PushBack_run intOps (fun _ => 0)
          ⟨⟨[some 0], 9223372036854775809⟩, 9223372036854775809⟩ 1 = .ok v ∧
        v.Size = 9223372036854775810 ∧ v.Capacity = 2 ∧ Reachable intOps [v]) ∧
    ¬ (∀ w, Reachable intOps w → ∀ v ∈ w, 0 ≤ v.Size ∧ v.Size ≤ v.Capacity) := by
  have e1 : Vector.Reserve_run intOps (fun _ => 0) Vector.empty 9223372036854775809
      = .ok ⟨⟨[none], 9223372036854775809⟩, 0⟩ := rfl
  have e2 : Vector.Resize_run intOps (fun _ => 0) ⟨⟨[none], 9223372036854775809⟩, 0⟩
      9223372036854775809
      = .ok ⟨⟨[some 0], 9223372036854775809⟩, 9223372036854775809⟩ := by
    have hloop : uninitialized_value_construct_n_run intOps ([none] : Block Int) (0 + 0)
        (9223372036854775808 + 1) = [some 0] := by
      rw [uninitialized_value_construct_n_run_succ]
      show uninitialized_value_construct_n_run intOps [some 0] (0 + 0 + 1)
        9223372036854775808 = [some 0]
      exact uninitialized_value_construct_n_run_outside intOps _ _ _ (by decide)
    have hr : Vector.Reserve_run intOps (fun _ => 0) ⟨⟨[none], 9223372036854775809⟩, 0⟩
        9223372036854775809 = .ok ⟨⟨[none], 9223372036854775809⟩, 0⟩ := rfl
    have hn : ¬ (9223372036854775809 ≤ (0 : Nat)) := by decide
    simp only [Vector.Resize_run, hn, if_false, hr]
    rw [show (9223372036854775809 - 0 : Nat) = 9223372036854775808 + 1 from rfl]
    simp only [Nat.cast_zero, hloop]
  have h1 : Reachable intOps [⟨⟨[none], 9223372036854775809⟩, 0⟩] :=
    .run _ _ .start
      (.mutate [Vector.empty] 0 Vector.empty _ rfl
        (.reserve Vector.empty _ (fun _ => 0) 9223372036854775809 (by decide) e1))
  have h2 : Reachable intOps [⟨⟨[some 0], 9223372036854775809⟩, 9223372036854775809⟩] :=
    .run _ _ h1
      (.mutate [⟨⟨[none], 9223372036854775809⟩, 0⟩] 0 ⟨⟨[none], 9223372036854775809⟩, 0⟩ _
        rfl (.resize _ _ (fun _ => 0) 9223372036854775809 (by decide) e2))
  have h3 : ∃ v, Vector.PushBack_run intOps (fun _ => 0)
        ⟨⟨[some 0], 9223372036854775809⟩, 9223372036854775809⟩ 1 = .ok v ∧
      v.Size = 9223372036854775810 ∧ v.Capacity = 2 ∧ Reachable intOps [v] := by
    cases hp : Vector.PushBack_run intOps (fun _ => 0)
        ⟨⟨[some 0], 9223372036854775809⟩, 9223372036854775809⟩ 1 with
    | error e =>
      have hg : RawMemory.ofCapacity_size_t intOps
          (if (9223372036854775809 : Nat) = 0 then 1
            else 9223372036854775809 * 2 % size_t_range)
          = .ok (⟨[none, none], 2⟩ : RawMemory Int) := rfl
      simp only [Vector.PushBack_run, Vector.Capacity, RawMemory.Capacity, if_true, hg] at hp
      cases hp
    | ok v =>
      obtain ⟨f1, f2⟩ := Vector.PushBack_run_fields intOps _ _ v 1 hp
      refine ⟨v, rfl, ?_, ?_, ?_⟩
      · rw [Vector.Size, f1]; rfl
      · rw [Vector.Capacity, RawMemory.Capacity, f2]; rfl
      · exact .run _ _ h2
          (.mutate _ 0 ⟨⟨[some 0], 9223372036854775809⟩, 9223372036854775809⟩ v rfl
            (.push_back _ v (fun _ => 0) 1 hp))
  refine ⟨rfl, rfl, e2, h3, ?_⟩
  intro hall
  obtain ⟨v, _, hs, hc, hr⟩ := h3
  have := (hall [v] hr v (List.mem_singleton.mpr rfl)).2
  rw [hs, hc] at this
  exact absurd this (by decide)

end CppVector
namespace CppVector
section growth
variable {T : Type}

theorem Vector.holds_empty : (Vector.empty : Vector T).Holds [] := by
  simp [Vector.Holds, Vector.empty]

theorem Vector.push_all_append (E : ElemOps T) (xs : List T) (x : T) :
    ∀ v : Vector T, Vector.push_all E v (xs ++ [x]) =
      match Vector.push_all E v xs with
      | .error e => .error e
      | .ok v1 => Vector.PushBack E v1 x := by
  induction xs with
  | nil =>
    intro v
    simp only [List.nil_append, Vector.push_all]
    cases Vector.PushBack E v x <;> rfl
  | cons y ys ih =>
    intro v
    simp only [List.cons_append, Vector.push_all]
    cases Vector.PushBack E v y with
    | error e => rfl
    | ok v1 => exact ih v1

theorem Vector.push_all_spec (E : ElemOps T) (xs : List T) :
    ∀ (v : Vector T) (s : List T), v.Holds s →
      ((s.length = 0 ∧ v.Capacity = 0) ∨
        ∃ j, v.Capacity = 2 ^ j ∧ s.length ≤ v.Capacity ∧ v.Capacity < 2 * s.length) →
      ∃ v', Vector.push_all E v xs = .ok v' ∧ v'.Holds (s ++ xs) ∧
        (((s ++ xs).length = 0 ∧ v'.Capacity = 0) ∨
          ∃ j, v'.Capacity = 2 ^ j ∧ (s ++ xs).length ≤ v'.Capacity ∧
            v'.Capacity < 2 * (s ++ xs).length) := by
  induction xs with
  | nil =>
    intro v s h hc
    exact ⟨v, rfl, by simpa using h, by simpa using hc⟩
  | cons x xs ih =>
    intro v s h hc
    obtain ⟨v1, hp, hh, hsz, hcap⟩ := Vector.PushBack_spec E v s x h
    have hsize : v.Size = s.length := by
      have := ((Vector.holds_iff v s).mp h).choose_spec.2.1
      simpa [Vector.Size] using this
    have hc1 : ((s ++ [x]).length = 0 ∧ v1.Capacity = 0) ∨
        ∃ j, v1.Capacity = 2 ^ j ∧ (s ++ [x]).length ≤ v1.Capacity ∧
          v1.Capacity < 2 * (s ++ [x]).length := by
      right
      rw [List.length_append, List.length_singleton]
      rcases hc with ⟨h0, hc0⟩ | ⟨j, hj, hle, hlt⟩
      · refine ⟨0, ?_, ?_, ?_⟩ <;>
        · rw [hcap, hsize, h0, hc0]; simp
      · by_cases hfull : v.Size < v.Capacity
        · rw [if_pos hfull] at hcap
          exact ⟨j, by rw [hcap, hj], by rw [hcap]; omega, by rw [hcap]; omega⟩
        · have hpos : v.Capacity ≠ 0 := by
            rw [hj]; exact pow_ne_zero j (by decide)
          rw [if_neg hfull, if_neg hpos] at hcap
          refine ⟨j + 1, by rw [hcap, hj, pow_succ]; ring, by rw [hcap]; omega,
            by rw [hcap]; omega⟩
    obtain ⟨v2, hp2, hh2, hc2⟩ := ih v1 (s ++ [x]) hh hc1
    refine ⟨v2, ?_, ?_, ?_⟩
    · simp only [Vector.push_all, hp, hp2]
    · simpa using hh2
    · simpa using hc2

end growth

/-- C5: after `k` successive `PushBack` calls on a default-constructed `Vector` (the
elements pushed are those of `xs`, `k` its length) the vector holds `xs`; its capacity is
`0` for `k = 0` and, for `k >= 1`, a power of two that is at least `k` and not larger than
any other power of two that is at least `k`.  One more `PushBack` either keeps the capacity
or doubles it (from `0` it becomes `1`). -/
theorem C5_growth_law {T : Type} (E : ElemOps T) (xs : List T) (x : T) :
    ∃ v v', Vector.push_all E Vector.empty xs = .ok v ∧ v.Holds xs ∧
      Vector.push_all E Vector.empty (xs ++ [x]) = .ok v' ∧
      Vector.PushBack E v x = .ok v' ∧
      (xs.length = 0 → v.Capacity = 0) ∧
      (1 ≤ xs.length → (∃ j, v.Capacity = 2 ^ j) ∧ xs.length ≤ v.Capacity ∧
        ∀ j, xs.length ≤ 2 ^ j → v.Capacity ≤ 2 ^ j) ∧
      (v'.Capacity = v.Capacity ∨
        v'.Capacity = (if v.Capacity = 0 then 1 else 2 * v.Capacity)) := by
  obtain ⟨v, hp, hh, hc⟩ := Vector.push_all_spec E xs Vector.empty [] Vector.holds_empty
    (Or.inl ⟨rfl, rfl⟩)
  simp only [List.nil_append] at hh hc
  obtain ⟨v', hq, _, _, hcap⟩ := Vector.PushBack_spec E v xs x hh
  refine ⟨v, v', hp, hh, ?_, hq, ?_, ?_, ?_⟩
  · rw [Vector.push_all_append, hp]; exact hq
  · intro h0
    rcases hc with ⟨_, h⟩ | ⟨j, hj, hle, hlt⟩
    · exact h
    · omega
  · intro h1
    rcases hc with ⟨h, _⟩ | ⟨j, hj, hle, hlt⟩
    · omega
    · refine ⟨⟨j, hj⟩, hle, ?_⟩
      intro j' hj'
      rw [hj] at hlt ⊢
      have h2 : 2 ^ j < 2 ^ (j' + 1) := by rw [pow_succ]; omega
      have h3 : j < j' + 1 := (Nat.pow_lt_pow_iff_right (by decide)).mp h2
      exact Nat.pow_le_pow_right (by decide) (by omega)
  · rw [hcap]
    by_cases hfull : v.Size < v.Capacity
    · left; rw [if_pos hfull]
    · right; rw [if_neg hfull]

/-- C5, witness: five `PushBack` calls and a sixth one on a vector of `int`. -/
theorem C5_growth_law_witness :
    ∃ v v', Vector.push_all intOps Vector.empty [1, 2, 3, 4, 5] = .ok v ∧
      v.Holds [1, 2, 3, 4, 5] ∧
      Vector.push_all intOps Vector.empty ([1, 2, 3, 4, 5] ++ [6]) = .ok v' ∧
      Vector.PushBack intOps v 6 = .ok v' ∧
      (([1, 2, 3, 4, 5] : List Int).length = 0 → v.Capacity = 0) ∧
      (1 ≤ ([1, 2, 3, 4, 5] : List Int).length → (∃ j, v.Capacity = 2 ^ j) ∧
        ([1, 2, 3, 4, 5] : List Int).length ≤ v.Capacity ∧
        ∀ j, ([1, 2, 3, 4, 5] : List Int).length ≤ 2 ^ j → v.Capacity ≤ 2 ^ j) ∧
      (v'.Capacity = v.Capacity ∨
        v'.Capacity = (if v.Capacity = 0 then 1 else 2 * v.Capacity)) :=
  C5_growth_law intOps [1, 2, 3, 4, 5] 6

end CppVector
namespace CppVector

/-- C1: `Insert` does not splice the value into every vector.  On the empty vector of `int`
(with capacity 0, and with capacity 3 after `Reserve(3)`) the statement
`auto& last_value = *(end() - 1)` makes `Insert(begin(), 7)` read the slot `-1`, before the
start of the block.  On the vector of `std::unique_ptr<int>` holding one pointer to `1`,
`Insert(end(), pointer to 2)` moves the last element out of its slot and then overwrites the
copy: the vector holds a null pointer and the pointer to `2`, not the pointer to `1` and the
pointer to `2`. -/
theorem C1_insert_misses_empty_vector_and_last_element :
    Vector.Insert intOps Vector.empty 0 7 = .error (.out_of_bounds (-1)) ∧
    Vector.Insert intOps ⟨⟨[none, none, none], 3⟩, 0⟩ 0 7 = .error (.out_of_bounds (-1)) ∧
    Vector.Insert uniquePtrOps ⟨⟨[some (some 1), none], 2⟩, 1⟩ 1 (some 2)
      = .ok (⟨⟨[some none, some (some 2)], 2⟩, 2⟩, 1) ∧
    ¬ Vector.Holds (⟨⟨[some none, some (some 2)], 2⟩, 2⟩ : Vector (Option Int))
      [some 1, some 2] :=
  ⟨rfl, rfl, rfl, by decide⟩

/-- C2: `Erase` does not remove the element at the given position.  On the vector of `int`
holding `[1, 2]`, `Erase(begin() + 1)` returns with the vector holding `[2]` (specified:
`[1]`); on `[1, 2, 3, 4]`, `Erase(begin() + 1)` leaves `[4, 4, 4]` (specified: `[1, 3, 4]`);
and `Erase(begin())` on `[1]` assigns through the slot `-1`, before the start of the block.
Size, capacity and the returned position are as specified. -/
theorem C2_erase_shifts_the_wrong_way :
    Vector.Erase intOps ⟨⟨[some 1, some 2], 2⟩, 2⟩ 1 = .ok (⟨⟨[some 2, none], 2⟩, 1⟩, 1) ∧
    Vector.Holds (⟨⟨[some 2, none], 2⟩, 1⟩ : Vector Int) [2] ∧
    Vector.Erase intOps ⟨⟨[some 1, some 2, some 3, some 4], 4⟩, 4⟩ 1
      = .ok (⟨⟨[some 4, some 4, some 4, none], 4⟩, 3⟩, 1) ∧
    Vector.Holds (⟨⟨[some 4, some 4, some 4, none], 4⟩, 3⟩ : Vector Int) [4, 4, 4] ∧
    Vector.Erase intOps ⟨⟨[some 1], 1⟩, 1⟩ 0 = .error (.out_of_bounds (-1)) :=
  ⟨rfl, by decide, rfl, by decide, rfl⟩

/-- C4: on a vector holding `s` (size `n`, capacity `c`), `PushBack(v)` and `EmplaceBack(v)`
return, the vector then holds `s ++ [v]` with size `n + 1`; the capacity is still `c` if
`n < c`, and if `n = c` it is `1` when `c = 0` and `2 * c` otherwise; the reference
`EmplaceBack` returns is slot `n`, which `operator[]` reads as `v`. -/
theorem C4_push_back_appends {T : Type} (E : ElemOps T) (v : Vector T) (s : List T) (x : T)
    (h : v.Holds s) :
    (∃ v', v.PushBack E x = .ok v' ∧ v'.Holds (s ++ [x]) ∧ v'.Size = s.length + 1 ∧
      (v.Size < v.Capacity → v'.Capacity = v.Capacity) ∧
      (v.Size = v.Capacity → v'.Capacity = (if v.Capacity = 0 then 1 else 2 * v.Capacity))) ∧
    (∃ v', v.EmplaceBack E x = .ok (v', (s.length : Int)) ∧ v'.Holds (s ++ [x]) ∧
      v'.Size = s.length + 1 ∧ v'.index s.length = .ok x ∧
      (v.Size < v.Capacity → v'.Capacity = v.Capacity) ∧
      (v.Size = v.Capacity → v'.Capacity = (if v.Capacity = 0 then 1 else 2 * v.Capacity))) := by
  obtain ⟨v', hp, hh, hsz, hcap⟩ := Vector.PushBack_spec E v s x h
  have hsize : v.size_ = s.length := ((Vector.holds_iff v s).mp h).choose_spec.2.1
  have hs' : v'.Size = s.length + 1 := by rw [hsz]; simp [Vector.Size, hsize]
  have hc1 : v.Size < v.Capacity → v'.Capacity = v.Capacity := by
    intro hlt; rw [hcap, if_pos hlt]
  have hc2 : v.Size = v.Capacity →
      v'.Capacity = (if v.Capacity = 0 then 1 else 2 * v.Capacity) := by
    intro heq; rw [hcap, if_neg (by omega)]
  refine ⟨⟨v', hp, hh, hs', hc1, hc2⟩, ⟨v', ?_, hh, hs', ?_, hc1, hc2⟩⟩
  · rw [Vector.EmplaceBack_eq, hp, hsize]
  · exact Vector.holds_index hh s.length x (by simp)

/-- C4, witness: `[1, 2]` at capacity 2, `PushBack(3)` gives `[1, 2, 3]` at capacity 4. -/
theorem C4_push_back_appends_witness :
    Vector.Holds (⟨⟨[some 1, some 2], 2⟩, 2⟩ : Vector Int) [1, 2] ∧
    Vector.PushBack intOps ⟨⟨[some 1, some 2], 2⟩, 2⟩ 3
      = .ok ⟨⟨[some 1, some 2, some 3, none], 4⟩, 3⟩ ∧
    Vector.Holds (⟨⟨[some 1, some 2, some 3, none], 4⟩, 3⟩ : Vector Int) [1, 2, 3] ∧
    ((∃ v', Vector.PushBack intOps ⟨⟨[some 1, some 2], 2⟩, 2⟩ 3 = .ok v' ∧
        v'.Holds ([1, 2] ++ [3]) ∧ v'.Size = ([1, 2] : List Int).length + 1 ∧
        (Vector.Size (⟨⟨[some 1, some 2], 2⟩, 2⟩ : Vector Int)
            < Vector.Capacity (⟨⟨[some 1, some 2], 2⟩, 2⟩ : Vector Int) →
          v'.Capacity = Vector.Capacity (⟨⟨[some 1, some 2], 2⟩, 2⟩ : Vector Int)) ∧
        (Vector.Size (⟨⟨[some 1, some 2], 2⟩, 2⟩ : Vector Int)
            = Vector.Capacity (⟨⟨[some 1, some 2], 2⟩, 2⟩ : Vector Int) →
          v'.Capacity = (if Vector.Capacity (⟨⟨[some 1, some 2], 2⟩, 2⟩ : Vector Int) = 0
            then 1 else 2 * Vector.Capacity (⟨⟨[some 1, some 2], 2⟩, 2⟩ : Vector Int)))) ∧
      (∃ v', Vector.EmplaceBack intOps ⟨⟨[some 1, some 2], 2⟩, 2⟩ 3
          = .ok (v', (([1, 2] : List Int).length : Int)) ∧
        v'.Holds ([1, 2] ++ [3]) ∧ v'.Size = ([1, 2] : List Int).length + 1 ∧
        v'.index ([1, 2] : List Int).length = .ok 3 ∧
        (Vector.Size (⟨⟨[some 1, some 2], 2⟩, 2⟩ : Vector Int)
            < Vector.Capacity (⟨⟨[some 1, some 2], 2⟩, 2⟩ : Vector Int) →
          v'.Capacity = Vector.Capacity (⟨⟨[some 1, some 2], 2⟩, 2⟩ : Vector Int)) ∧
        (Vector.Size (⟨⟨[some 1, some 2], 2⟩, 2⟩ : Vector Int)
            = Vector.Capacity (⟨⟨[some 1, some 2], 2⟩, 2⟩ : Vector Int) →
          v'.Capacity = (if Vector.Capacity (⟨⟨[some 1, some 2], 2⟩, 2⟩ : Vector Int) = 0
            then 1 else 2 * Vector.Capacity (⟨⟨[some 1, some 2], 2⟩, 2⟩ : Vector Int))))) :=
  ⟨by decide, rfl, by decide,
    C4_push_back_appends intOps ⟨⟨[some 1, some 2], 2⟩, 2⟩ [1, 2] 3 (by decide)⟩

end CppVector
namespace CppVector

/-- C6, counterexample: it is not so that `Reserve(n)` returns with capacity `n` for every
`n` above the capacity.  On the `Vector<int>` holding `[1, 2]` at capacity 2,
`Reserve(1 << 61)` asks `operator new` for `2^63` bytes and ends in `std::bad_alloc`, and
`Reserve(2^62 + 1)` asks for `(2^62 + 1) * 4` bytes, which is 4 in `size_t`: it receives a
block of one slot and constructs the second element in the slot after it. -/
theorem C6_reserve_counterexample :
    Vector.Holds (⟨⟨[some 1, some 2], 2⟩, 2⟩ : Vector Int) [1, 2] ∧
    Vector.Reserve intOps ⟨⟨[some 1, some 2], 2⟩, 2⟩ 2305843009213693952
      = .error .bad_alloc ∧
    Vector.Reserve intOps ⟨⟨[some 1, some 2], 2⟩, 2⟩ 4611686018427387905
      = .error (.out_of_bounds 1) ∧
    ¬ (∀ (v : Vector Int) (s : List Int) (n : Nat), v.Holds s →
        ∃ v', v.Reserve intOps n = .ok v' ∧
          (n > v.Capacity → v'.Capacity = n) ∧ (n ≤ v.Capacity → v'.Capacity = v.Capacity) ∧
          v'.Size = v.Size ∧ v'.Holds s) := by
  refine ⟨by decide, rfl, rfl, ?_⟩
  intro hall
  obtain ⟨v', hr, _⟩ := hall ⟨⟨[some 1, some 2], 2⟩, 2⟩ [1, 2] 2305843009213693952 (by decide)
  have e : Vector.Reserve intOps ⟨⟨[some 1, some 2], 2⟩, 2⟩ 2305843009213693952
      = .error .bad_alloc := rfl
  rw [e] at hr
  cases hr

/-- C6, amended: on a vector holding `s` with capacity `c`, `Reserve(n)` returns when
`n <= c`, and when `n > c` and the `n * sizeof(T)` bytes are within what `operator new`
grants; afterwards the capacity is exactly `n` if `n > c` and exactly `c` otherwise, so it
is at least `n` and not below `c`, the size is unchanged and the vector still holds `s`.
When `n > c` and the request, `n * sizeof(T)` taken in `size_t`, is above what
`operator new` grants, the call ends in `std::bad_alloc`, thrown by the allocation, which
is its first statement after the test. -/
theorem C6_reserve_granted {T : Type} (E : ElemOps T) (v : Vector T) (s : List T) (n : Nat)
    (h : v.Holds s) :
    ((n ≤ v.Capacity ∨ n * E.size_of ≤ E.new_limit) →
      ∃ v', v.Reserve E n = .ok v' ∧
        (n > v.Capacity → v'.Capacity = n) ∧ (n ≤ v.Capacity → v'.Capacity = v.Capacity) ∧
        n ≤ v'.Capacity ∧ v.Capacity ≤ v'.Capacity ∧
        v'.Size = v.Size ∧ v'.Size = s.length ∧ v'.Holds s) ∧
    (v.Capacity < n → E.new_limit < n * E.size_of % size_t_range →
      v.Reserve E n = .error .bad_alloc) := by
  refine ⟨?_, fun hc hr => Vector.Reserve_refused E v n hc hr⟩
  intro hg
  obtain ⟨v', hr, hh, hsz, hcap, _⟩ := Vector.Reserve_spec E v s n h hg
  have hsize : v.size_ = s.length := ((Vector.holds_iff v s).mp h).choose_spec.2.1
  refine ⟨v', hr, ?_, ?_, ?_, ?_, hsz, by rw [hsz]; exact hsize, hh⟩
  · intro hgt; rw [hcap, if_pos hgt]
  · intro hle; rw [hcap, if_neg (by omega)]
  · rw [hcap]; split <;> omega
  · rw [hcap]; split <;> omega

/-- C6, witness of the amended claim: `[1, 2]` at capacity 2, `Reserve(5)` gives `[1, 2]` at
capacity 5, and `Reserve(1 << 61)` ends in `std::bad_alloc`. -/
theorem C6_reserve_granted_witness :
    Vector.Holds (⟨⟨[some 1, some 2], 2⟩, 2⟩ : Vector Int) [1, 2] ∧
    Vector.Reserve intOps ⟨⟨[some 1, some 2], 2⟩, 2⟩ 5
      = .ok ⟨⟨[some 1, some 2, none, none, none], 5⟩, 2⟩ ∧
    (∃ v', Vector.Reserve intOps ⟨⟨[some 1, some 2], 2⟩, 2⟩ 5 = .ok v' ∧
      (5 > Vector.Capacity (⟨⟨[some 1, some 2], 2⟩, 2⟩ : Vector Int) → v'.Capacity = 5) ∧
      (5 ≤ Vector.Capacity (⟨⟨[some 1, some 2], 2⟩, 2⟩ : Vector Int) →
        v'.Capacity = Vector.Capacity (⟨⟨[some 1, some 2], 2⟩, 2⟩ : Vector Int)) ∧
      5 ≤ v'.Capacity ∧
      Vector.Capacity (⟨⟨[some 1, some 2], 2⟩, 2⟩ : Vector Int) ≤ v'.Capacity ∧
      v'.Size = Vector.Size (⟨⟨[some 1, some 2], 2⟩, 2⟩ : Vector Int) ∧
      v'.Size = ([1, 2] : List Int).length ∧ v'.Holds [1, 2]) ∧
    Vector.Reserve intOps ⟨⟨[some 1, some 2], 2⟩, 2⟩ 2305843009213693952
      = .error .bad_alloc :=
  ⟨by decide, rfl,
    (C6_reserve_granted intOps ⟨⟨[some 1, some 2], 2⟩, 2⟩ [1, 2] 5 (by decide)).1
      (Or.inr (by decide)),
    (C6_reserve_granted intOps ⟨⟨[some 1, some 2], 2⟩, 2⟩ [1, 2] 2305843009213693952
      (by decide)).2 (by decide) (by decide)⟩

/-- C7: for a vector `other` holding `s` (size `m`, any capacity), the copy constructor
returns a vector that holds `s`, has size `m` and capacity exactly `m`, and at every index
below `m` reads the element `other` reads there.  `other` is not written.  The copy is an
object of its own: in a program state `w` that contains `other` at address `i`, the copy is
a new entry, and after any sequence of member calls on the copy the entry at `i` is still
`other`. -/
theorem C7_copy_construction {T : Type} (E : ElemOps T) (other : Vector T) (s : List T)
    (h : other.Holds s) :
    ∃ c, Vector.copy_ctor other = .ok c ∧ c.Holds s ∧ c.Size = s.length ∧
      c.Capacity = s.length ∧
      (∀ i, i < s.length → ∃ x, other.index i = .ok x ∧ c.index i = .ok x) ∧
      ∀ (w : List (Vector T)) (i : Nat) (c' : Vector T), w[i]? = some other →
        Relation.ReflTransGen (Mutate E) c c' →
        Step E w (w ++ [c]) ∧ ((w ++ [c]).set w.length c')[i]? = some other ∧
          ((w ++ [c]).set w.length c')[w.length]? = some c' := by
  have hc := Vector.copy_ctor_spec other s h
  refine ⟨_, hc, Vector.holds_copy s, rfl, rfl, ?_, ?_⟩
  · intro i hi
    refine ⟨s[i], Vector.holds_index h i s[i] (List.getElem?_eq_getElem hi),
      Vector.holds_index (Vector.holds_copy s) i s[i] (List.getElem?_eq_getElem hi)⟩
  · intro w i c' hw _
    have hi : i < w.length := (List.getElem?_eq_some.mp hw).1
    refine ⟨Step.copy_ctor w i other _ hw hc, ?_, ?_⟩
    · rw [List.getElem?_set_ne (by omega), List.getElem?_append_left hi]
      exact hw
    · rw [List.getElem?_set_self (by simp)]

/-- C7, witness: the copy of `[1, 2]` at capacity 3 is `[1, 2]` at capacity 2. -/
theorem C7_copy_construction_witness :
    Vector.Holds (⟨⟨[some 1, some 2, none], 3⟩, 2⟩ : Vector Int) [1, 2] ∧
    Vector.copy_ctor (⟨⟨[some 1, some 2, none], 3⟩, 2⟩ : Vector Int)
      = .ok ⟨⟨[some 1, some 2], 2⟩, 2⟩ ∧
    ∃ c, Vector.copy_ctor (⟨⟨[some 1, some 2, none], 3⟩, 2⟩ : Vector Int) = .ok c ∧
      c.Holds [1, 2] ∧ c.Size = ([1, 2] : List Int).length ∧
      c.Capacity = ([1, 2] : List Int).length ∧
      (∀ i, i < ([1, 2] : List Int).length →
        ∃ x, Vector.index (⟨⟨[some 1, some 2, none], 3⟩, 2⟩ : Vector Int) i = .ok x ∧
          c.index i = .ok x) ∧
      ∀ (w : List (Vector Int)) (i : Nat) (c' : Vector Int),
        w[i]? = some ⟨⟨[some 1, some 2, none], 3⟩, 2⟩ →
        Relation.ReflTransGen (Mutate intOps) c c' →
        Step intOps w (w ++ [c]) ∧
          ((w ++ [c]).set w.length c')[i]? = some ⟨⟨[some 1, some 2, none], 3⟩, 2⟩ ∧
          ((w ++ [c]).set w.length c')[w.length]? = some c' :=
  ⟨by decide, rfl,
    C7_copy_construction intOps ⟨⟨[some 1, some 2, none], 3⟩, 2⟩ [1, 2] (by decide)⟩

/-- C8: for two distinct objects `a` (holding `sa`, capacity `c`) and `b` (holding `t`, size
`k`), the copy assignment `a = b` returns; afterwards `a` holds `t` and has size `k`, its
capacity is exactly `k` if `k > c` and still `c` if `k <= c` (whether `k` is below the old
size of `a` or not), and `b`, which is only read, is the same object as before. -/
theorem C8_copy_assignment {T : Type} (E : ElemOps T) (this_addr rhs_addr : Nat)
    (hne : this_addr ≠ rhs_addr) (a b : Vector T) (sa t : List T)
    (ha : a.Holds sa) (hb : b.Holds t) :
    ∃ a', Vector.assign_copy this_addr rhs_addr a b = .ok a' ∧ a'.Holds t ∧
      a'.Size = t.length ∧
      (t.length > a.Capacity → a'.Capacity = t.length) ∧
      (t.length ≤ a.Capacity → t.length < sa.length → a'.Capacity = a.Capacity) ∧
      (t.length ≤ a.Capacity → sa.length ≤ t.length → a'.Capacity = a.Capacity) ∧
      ∀ w : List (Vector T), w[this_addr]? = some a → w[rhs_addr]? = some b →
        Step E w (w.set this_addr a') ∧ (w.set this_addr a')[rhs_addr]? = some b ∧
          (w.set this_addr a')[this_addr]? = some a' := by
  obtain ⟨a', hr, hh, hsz, hcap⟩ :=
    Vector.assign_copy_spec this_addr rhs_addr hne a b sa t ha hb
  refine ⟨a', hr, hh, hsz, ?_, ?_, ?_, ?_⟩
  · intro hgt; rw [hcap, if_pos hgt]
  · intro hle _; rw [hcap, if_neg (by omega)]
  · intro hle _; rw [hcap, if_neg (by omega)]
  · intro w hwa hwb
    have hi : this_addr < w.length := (List.getElem?_eq_some.mp hwa).1
    refine ⟨Step.assign_copy w this_addr rhs_addr a b a' hwa hwb hr, ?_, ?_⟩
    · rw [List.getElem?_set_ne hne]; exact hwb
    · rw [List.getElem?_set_self hi]

/-- C8, witness: `a` holds `[1, 2, 3]` at capacity 4 and `b` holds `[7, 8]`; after `a = b`
the vector `a` holds `[7, 8]` at capacity 4. -/
theorem C8_copy_assignment_witness :
    Vector.assign_copy 0 1 (⟨⟨[some 1, some 2, some 3, none], 4⟩, 3⟩ : Vector Int)
        ⟨⟨[some 7, some 8], 2⟩, 2⟩ = .ok ⟨⟨[some 7, some 8, none, none], 4⟩, 2⟩ ∧
    ∃ a', Vector.assign_copy 0 1 (⟨⟨[some 1, some 2, some 3, none], 4⟩, 3⟩ : Vector Int)
        ⟨⟨[some 7, some 8], 2⟩, 2⟩ = .ok a' ∧ a'.Holds [7, 8] ∧
      a'.Size = ([7, 8] : List Int).length ∧
      (([7, 8] : List Int).length
          > Vector.Capacity (⟨⟨[some 1, some 2, some 3, none], 4⟩, 3⟩ : Vector Int) →
        a'.Capacity = ([7, 8] : List Int).length) ∧
      (([7, 8] : List Int).length
          ≤ Vector.Capacity (⟨⟨[some 1, some 2, some 3, none], 4⟩, 3⟩ : Vector Int) →
        ([7, 8] : List Int).length < ([1, 2, 3] : List Int).length →
        a'.Capacity = Vector.Capacity (⟨⟨[some 1, some 2, some 3, none], 4⟩, 3⟩ : Vector Int)) ∧
      (([7, 8] : List Int).length
          ≤ Vector.Capacity (⟨⟨[some 1, some 2, some 3, none], 4⟩, 3⟩ : Vector Int) →
        ([1, 2, 3] : List Int).length ≤ ([7, 8] : List Int).length →
        a'.Capacity = Vector.Capacity (⟨⟨[some 1, some 2, some 3, none], 4⟩, 3⟩ : Vector Int)) ∧
      ∀ w : List (Vector Int), w[0]? = some ⟨⟨[some 1, some 2, some 3, none], 4⟩, 3⟩ →
        w[1]? = some ⟨⟨[some 7, some 8], 2⟩, 2⟩ →
        Step intOps w (w.set 0 a') ∧ (w.set 0 a')[1]? = some ⟨⟨[some 7, some 8], 2⟩, 2⟩ ∧
          (w.set 0 a')[0]? = some a' :=
  ⟨rfl, C8_copy_assignment intOps 0 1 (by decide) ⟨⟨[some 1, some 2, some 3, none], 4⟩, 3⟩
    ⟨⟨[some 7, some 8], 2⟩, 2⟩ [1, 2, 3] [7, 8] (by decide) (by decide)⟩

/-- C9: for a vector `other` holding `s` with size `m` and capacity `c`, the move constructor
yields a vector holding `s` with size `m` and capacity `c`, and leaves `other` empty: size
`0` and capacity `0`. -/
theorem C9_move_construction {T : Type} (other : Vector T) (s : List T) (h : other.Holds s) :
    (Vector.move_ctor other).1.Holds s ∧
      (Vector.move_ctor other).1.Size = other.Size ∧
      (Vector.move_ctor other).1.Size = s.length ∧
      (Vector.move_ctor other).1.Capacity = other.Capacity ∧
      (Vector.move_ctor other).2.Size = 0 ∧
      (Vector.move_ctor other).2.Capacity = 0 ∧
      (Vector.move_ctor other).2.Holds [] := by
  have e1 : (Vector.move_ctor other).1 = other := rfl
  have e2 : (Vector.move_ctor other).2 = Vector.empty := rfl
  have hsize : other.size_ = s.length := ((Vector.holds_iff other s).mp h).choose_spec.2.1
  rw [e1, e2]
  exact ⟨h, rfl, hsize, rfl, rfl, rfl, Vector.holds_empty⟩

/-- C9, witness: move construction from `[1, 2]` at capacity 3. -/
theorem C9_move_construction_witness :
    Vector.move_ctor (⟨⟨[some 1, some 2, none], 3⟩, 2⟩ : Vector Int)
      = (⟨⟨[some 1, some 2, none], 3⟩, 2⟩, ⟨⟨[], 0⟩, 0⟩) ∧
    (Vector.move_ctor (⟨⟨[some 1, some 2, none], 3⟩, 2⟩ : Vector Int)).1.Holds [1, 2] ∧
      (Vector.move_ctor (⟨⟨[some 1, some 2, none], 3⟩, 2⟩ : Vector Int)).1.Size
        = Vector.Size (⟨⟨[some 1, some 2, none], 3⟩, 2⟩ : Vector Int) ∧
      (Vector.move_ctor (⟨⟨[some 1, some 2, none], 3⟩, 2⟩ : Vector Int)).1.Size
        = ([1, 2] : List Int).length ∧
      (Vector.move_ctor (⟨⟨[some 1, some 2, none], 3⟩, 2⟩ : Vector Int)).1.Capacity
        = Vector.Capacity (⟨⟨[some 1, some 2, none], 3⟩, 2⟩ : Vector Int) ∧
      (Vector.move_ctor (⟨⟨[some 1, some 2, none], 3⟩, 2⟩ : Vector Int)).2.Size = 0 ∧
      (Vector.move_ctor (⟨⟨[some 1, some 2, none], 3⟩, 2⟩ : Vector Int)).2.Capacity = 0 ∧
      (Vector.move_ctor (⟨⟨[some 1, some 2, none], 3⟩, 2⟩ : Vector Int)).2.Holds [] :=
  ⟨rfl, C9_move_construction ⟨⟨[some 1, some 2, none], 3⟩, 2⟩ [1, 2] (by decide)⟩

/-- C10: for two distinct objects `a` and `b`, the move assignment `a = std::move(b)` gives
the pair of states that `a.Swap(b)` gives, which is the exchange of the two states: `a` has
the former sequence, size and capacity of `b`, and `b` those of `a`. -/
theorem C10_move_assignment_is_swap {T : Type} (this_addr rhs_addr : Nat)
    (hne : this_addr ≠ rhs_addr) (a b : Vector T) :
    Vector.assign_move this_addr rhs_addr a b = Vector.Swap a b ∧
      Vector.assign_move this_addr rhs_addr a b = spec_move_assign a b ∧
      (Vector.assign_move this_addr rhs_addr a b).1.Size = b.Size ∧
      (Vector.assign_move this_addr rhs_addr a b).1.Capacity = b.Capacity ∧
      (Vector.assign_move this_addr rhs_addr a b).2.Size = a.Size ∧
      (Vector.assign_move this_addr rhs_addr a b).2.Capacity = a.Capacity ∧
      ∀ sa sb : List T, a.Holds sa → b.Holds sb →
        (Vector.assign_move this_addr rhs_addr a b).1.Holds sb ∧
          (Vector.assign_move this_addr rhs_addr a b).2.Holds sa := by
  have e : Vector.assign_move this_addr rhs_addr a b = Vector.Swap a b := by
    simp only [Vector.assign_move, hne, ne_eq, not_false_eq_true, if_true]
  have e2 : Vector.Swap a b = (b, a) := rfl
  rw [e]
  refine ⟨rfl, e2, ?_⟩
  rw [e2]
  exact ⟨rfl, rfl, rfl, rfl, fun _ _ ha hb => ⟨hb, ha⟩⟩

/-- C10, witness: `a` holds `[1, 2]` at capacity 3, `b` holds `[7]` at capacity 1. -/
theorem C10_move_assignment_is_swap_witness :
    Vector.assign_move 0 1 (⟨⟨[some 1, some 2, none], 3⟩, 2⟩ : Vector Int) ⟨⟨[some 7], 1⟩, 1⟩
      = Vector.Swap ⟨⟨[some 1, some 2, none], 3⟩, 2⟩ ⟨⟨[some 7], 1⟩, 1⟩ ∧
    Vector.assign_move 0 1 (⟨⟨[some 1, some 2, none], 3⟩, 2⟩ : Vector Int) ⟨⟨[some 7], 1⟩, 1⟩
      = (⟨⟨[some 7], 1⟩, 1⟩, ⟨⟨[some 1, some 2, none], 3⟩, 2⟩) :=
  ⟨(C10_move_assignment_is_swap 0 1 (by decide) ⟨⟨[some 1, some 2, none], 3⟩, 2⟩
      ⟨⟨[some 7], 1⟩, 1⟩).1,
    (C10_move_assignment_is_swap 0 1 (by decide) ⟨⟨[some 1, some 2, none], 3⟩, 2⟩
      ⟨⟨[some 7], 1⟩, 1⟩).2.1⟩

end CppVector
namespace CppVector
section op_specs5
variable {T : Type}

theorem Vector.sized_spec (E : ElemOps T) (n : Nat) (hg : n * E.size_of ≤ E.new_limit) :
    Vector.sized E n = .ok ⟨⟨List.replicate n (some E.value_init), n⟩, n⟩ := by
  have h := uninitialized_value_construct_n_spec E n [] (List.replicate n none) [] 0 rfl
    (by simp)
  simp only [List.nil_append, List.append_nil] at h
  simp only [Vector.sized, RawMemory.ofCapacity_size_t_granted E n hg, h]

theorem Vector.Resize_spec (E : ElemOps T) (v : Vector T) (s : List T) (n : Nat)
    (h : v.Holds s) (hg : n ≤ v.Capacity ∨ n * E.size_of ≤ E.new_limit) :
    ∃ v', v.Resize E n = .ok v' ∧
      v'.Holds (s.take n ++ List.replicate (n - s.length) E.value_init) ∧ v'.Size = n ∧
      v'.Capacity = (if n > v.Capacity then n else v.Capacity) := by
  by_cases hn : n ≤ s.length
  · obtain ⟨rest, h1, h2, h3⟩ := (Vector.holds_iff v s).mp h
    obtain ⟨⟨buf, cap⟩, size⟩ := v
    simp only at h1 h2 h3
    subst h1 h2 h3
    have hsplit : s.map some ++ rest
        = (s.take n).map some ++ (s.drop n).map some ++ rest := by
      rw [← List.map_append, List.take_append_drop]
    have hd := destroy_n_spec (s.drop n) ((s.take n).map some) rest (0 + (n : Int))
      (by simp [List.length_take]; omega)
    rw [← hsplit, List.length_drop] at hd
    refine ⟨⟨⟨(s.take n).map some ++ List.replicate (s.length - n) none ++ rest,
      s.length + rest.length⟩, n⟩, ?_, ?_, rfl, ?_⟩
    · simp only [Vector.Resize, hn, if_true, hd]
    · have := Vector.holds_mk (s.take n) (List.replicate (s.length - n) (none : Option T) ++ rest)
      simp only [List.length_append, List.length_replicate, List.length_take,
        ← List.append_assoc] at this
      rw [show min n s.length + (s.length - n + rest.length) = s.length + rest.length by omega,
        show min n s.length = n by omega] at this
      rw [show n - s.length = 0 by omega, List.replicate_zero, List.append_nil]
      exact this
    · simp only [Vector.Capacity, RawMemory.Capacity]
      rw [if_neg (by omega)]
  · obtain ⟨v1, hr, hh1, hsz1, hcap1, _⟩ := Vector.Reserve_spec E v s n h hg
    have hsize : v.size_ = s.length := ((Vector.holds_iff v s).mp h).choose_spec.2.1
    have hcapv : s.length ≤ v.Capacity := by
      have := Vector.holds_size_le_capacity h
      simpa [Vector.Size, hsize] using this
    obtain ⟨rest, h1, h2, h3⟩ := (Vector.holds_iff v1 s).mp hh1
    obtain ⟨⟨buf, cap⟩, size⟩ := v1
    simp only at h1 h2 h3
    subst h1 h2 h3
    simp only [Vector.Capacity, RawMemory.Capacity] at hcap1
    simp only [Vector.Capacity, RawMemory.Capacity] at hcapv
    have hroom : n - s.length ≤ rest.length := by
      by_cases hgt : n > v.data_.capacity_
      · rw [if_pos hgt] at hcap1; omega
      · rw [if_neg hgt] at hcap1; omega
    have hc := uninitialized_value_construct_n_spec E (n - s.length) (s.map some)
      (rest.take (n - s.length)) (rest.drop (n - s.length)) (0 + (s.length : Int)) (by simp)
      (by simp [List.length_take]; omega)
    rw [List.append_assoc, List.take_append_drop] at hc
    have hns : ¬ n ≤ v.size_ := by omega
    refine ⟨⟨⟨s.map some ++ List.replicate (n - s.length) (some E.value_init)
      ++ rest.drop (n - s.length), s.length + rest.length⟩, n⟩, ?_, ?_, rfl, ?_⟩
    · simp only [Vector.Resize, hns, if_false, hr, hc]
    · have := Vector.holds_mk (s ++ List.replicate (n - s.length) E.value_init)
        (rest.drop (n - s.length))
      simp only [List.length_append, List.length_replicate, List.length_drop, List.map_append,
        List.map_replicate] at this
      rw [show s.length + (n - s.length) + (rest.length - (n - s.length))
        = s.length + rest.length by omega, show s.length + (n - s.length) = n by omega] at this
      rw [List.take_of_length_le (by omega)]
      exact this
    · simp only [Vector.Capacity, RawMemory.Capacity]
      exact hcap1

theorem Vector.Resize_refused (E : ElemOps T) (v : Vector T) (s : List T) (n : Nat)
    (h : v.Holds s) (hc : v.Capacity < n) (hr : E.new_limit < n * E.size_of % size_t_range) :
    v.Resize E n = .error .bad_alloc := by
  have hle := Vector.holds_size_le_capacity h
  have hns : ¬ n ≤ v.size_ := by
    simp only [Vector.Size] at hle; omega
  simp only [Vector.Resize, hns, if_false, Vector.Reserve_refused E v n hc hr]

theorem Vector.PopBack_spec (v : Vector T) (s : List T) (h : v.Holds s) :
    ∃ v', v.PopBack = .ok v' ∧ v'.Holds s.dropLast ∧ v'.Size = s.length - 1 ∧
      v'.Capacity = v.Capacity ∧ (s = [] → v' = v) := by
  obtain ⟨rest, h1, h2, h3⟩ := (Vector.holds_iff v s).mp h
  obtain ⟨⟨buf, cap⟩, size⟩ := v
  simp only at h1 h2 h3
  subst h1 h2 h3
  rcases List.eq_nil_or_concat s with hnil | ⟨s0, z, hc⟩
  · subst hnil
    refine ⟨⟨⟨List.map some [] ++ rest, ([] : List T).length + rest.length⟩,
      ([] : List T).length⟩, by simp [Vector.PopBack], by simpa using h, rfl, rfl, fun _ => rfl⟩
  · have hsz : s = s0 ++ [z] := by simpa using hc
    subst hsz
    have hpos : (s0 ++ [z]).length > 0 := by simp
    have hd : Block.destroy ((s0 ++ [z]).map some ++ rest)
        (0 + (((s0 ++ [z]).length - 1 : Nat) : Int)) = .ok (s0.map some ++ none :: rest) := by
      have := Block.destroy_mid (s0.map some) z rest (0 + (((s0 ++ [z]).length - 1 : Nat) : Int))
        (by simp)
      simpa using this
    refine ⟨⟨⟨s0.map some ++ none :: rest, (s0 ++ [z]).length + rest.length⟩,
      (s0 ++ [z]).length - 1⟩, ?_, ?_, rfl, rfl, ?_⟩
    · simp only [Vector.PopBack, hpos, if_true, hd]
    · have := Vector.holds_mk s0 (none :: rest)
      simp only [List.length_cons] at this
      rw [List.dropLast_concat]
      simp only [List.length_append, List.length_singleton, Nat.add_sub_cancel]
      rw [show s0.length + 1 + rest.length = s0.length + (rest.length + 1) by omega]
      exact this
    · intro hnil; simp at hnil

end op_specs5
end CppVector
namespace CppVector
section simple_lemmas
variable {T : Type}

theorem getElem?_append_at (p : List T) (d : T) (r : List T) :
    (p ++ d :: r)[p.length]? = some d := by
  rw [List.getElem?_append_right (Nat.le_refl _)]
  simp

theorem set_append_at (p : List T) (d y : T) (r : List T) :
    (p ++ d :: r).set p.length y = p ++ y :: r := by
  induction p with
  | nil => rfl
  | cons a p ih => simp [ih]

theorem ArrayPtr.get_mid (p : ArrayPtr T) (x : T) (r : ArrayPtr T) (k : Nat)
    (hk : k = p.length) : ArrayPtr.get (p ++ x :: r) k = .ok x := by
  subst hk
  simp only [ArrayPtr.get, getElem?_append_at]

theorem ArrayPtr.put_mid (p : ArrayPtr T) (d x : T) (r : ArrayPtr T) (k : Nat)
    (hk : k = p.length) : ArrayPtr.put (p ++ d :: r) k x = .ok (p ++ x :: r) := by
  subst hk
  have h1 : p.length < (p ++ d :: r).length := by simp
  simp only [ArrayPtr.put, h1, if_true, set_append_at]

theorem ArrayPtr.put_end (a : ArrayPtr T) (x : T) (k : Nat) (hk : a.length ≤ k) :
    ArrayPtr.put a k x = .error (.out_of_bounds k) := by
  simp only [ArrayPtr.put, Nat.not_lt.mpr hk, if_false]

theorem fill_loop_spec (x : T) (n : Nat) :
    ∀ (bp bm bs : ArrayPtr T) (first : Nat), first = bp.length → bm.length = n →
      fill_loop (bp ++ bm ++ bs) first n x = .ok (bp ++ List.replicate n x ++ bs) := by
  induction n with
  | zero =>
    intro bp bm bs first _ hbm
    have : bm = [] := List.length_eq_zero.mp hbm
    subst this
    simp [fill_loop]
  | succ n ih =>
    intro bp bm bs first hf hbm
    cases bm with
    | nil => simp at hbm
    | cons d bm =>
      have hlen : bm.length = n := by simpa using hbm
      have h2 : ArrayPtr.put (bp ++ d :: bm ++ bs) first x = .ok (bp ++ x :: (bm ++ bs)) := by
        have := ArrayPtr.put_mid bp d x (bm ++ bs) first hf
        simpa using this
      have h3 := ih (bp ++ [x]) bm bs (first + 1) (by simp [hf]) hlen
      simp only [fill_loop, h2]
      simpa [List.replicate_succ] using h3

theorem fill_loop_overrun (x : T) (n : Nat) :
    ∀ (bp bm : ArrayPtr T) (first : Nat), first = bp.length → bm.length < n →
      fill_loop (bp ++ bm) first n x = .error (.out_of_bounds ((bp ++ bm).length : Nat)) := by
  induction n with
  | zero => intro bp bm first _ h; omega
  | succ n ih =>
    intro bp bm first hf hbm
    cases bm with
    | nil =>
      have : ArrayPtr.put (bp ++ []) first x = .error (.out_of_bounds first) :=
        ArrayPtr.put_end _ x first (by simp [hf])
      simp only [fill_loop, this]
      simp [hf]
    | cons d bm =>
      have h2 : ArrayPtr.put (bp ++ d :: bm) first x = .ok (bp ++ x :: bm) :=
        ArrayPtr.put_mid bp d x bm first hf
      have h3 := ih (bp ++ [x]) bm (first + 1) (by simp [hf]) (by simpa using hbm)
      simp only [fill_loop, h2]
      simpa using h3

theorem copy_range_loop_spec (s : List T) :
    ∀ (sp ss dp dm ds : ArrayPtr T) (first d_first : Nat),
      first = sp.length → d_first = dp.length → dm.length = s.length →
      copy_range_loop (sp ++ s ++ ss) first s.length (dp ++ dm ++ ds) d_first
        = .ok (dp ++ s ++ ds) := by
  induction s with
  | nil =>
    intro sp ss dp dm ds first d_first _ _ hdm
    have : dm = [] := List.length_eq_zero.mp hdm
    subst this
    simp [copy_range_loop]
  | cons x s ih =>
    intro sp ss dp dm ds first d_first hf hd hdm
    cases dm with
    | nil => simp at hdm
    | cons d dm =>
      have hlen : dm.length = s.length := by simpa using hdm
      have h1 : ArrayPtr.get (sp ++ (x :: s) ++ ss) first = .ok x := by
        have := ArrayPtr.get_mid sp x (s ++ ss) first hf
        simpa using this
      have h2 : ArrayPtr.put (dp ++ d :: dm ++ ds) d_first x = .ok (dp ++ x :: (dm ++ ds)) := by
        have := ArrayPtr.put_mid dp d x (dm ++ ds) d_first hd
        simpa using this
      have h3 := ih (sp ++ [x]) ss (dp ++ [x]) dm ds (first + 1) (d_first + 1)
        (by simp [hf]) (by simp [hd]) hlen
      simp only [List.length_cons, copy_range_loop, h1, h2]
      simpa using h3

theorem move_range_loop_spec (O : SimpleOps T) (s : List T) :
    ∀ (sp ss dp dm ds : ArrayPtr T) (first d_first : Nat),
      first = sp.length → d_first = dp.length → dm.length = s.length →
      move_range_loop O (sp ++ s ++ ss) first s.length (dp ++ dm ++ ds) d_first
        = .ok (sp ++ s.map O.moved_from ++ ss, dp ++ s ++ ds) := by
  induction s with
  | nil =>
    intro sp ss dp dm ds first d_first _ _ hdm
    have : dm = [] := List.length_eq_zero.mp hdm
    subst this
    simp [move_range_loop]
  | cons x s ih =>
    intro sp ss dp dm ds first d_first hf hd hdm
    cases dm with
    | nil => simp at hdm
    | cons d dm =>
      have hlen : dm.length = s.length := by simpa using hdm
      have h1 : ArrayPtr.get (sp ++ (x :: s) ++ ss) first = .ok x := by
        have := ArrayPtr.get_mid sp x (s ++ ss) first hf
        simpa using this
      have h2 : ArrayPtr.put (dp ++ d :: dm ++ ds) d_first x = .ok (dp ++ x :: (dm ++ ds)) := by
        have := ArrayPtr.put_mid dp d x (dm ++ ds) d_first hd
        simpa using this
      have h4 : (sp ++ (x :: s) ++ ss).set first (O.moved_from x)
          = sp ++ O.moved_from x :: (s ++ ss) := by
        rw [hf]; simp [set_append_at]
      have h3 := ih (sp ++ [O.moved_from x]) ss (dp ++ [x]) dm ds (first + 1) (d_first + 1)
        (by simp [hf]) (by simp [hd]) hlen
      simp only [List.length_cons, move_range_loop, h1, h2, h4]
      simpa using h3

end simple_lemmas
end CppVector
namespace CppVector
section simple_specs
variable {T : Type}

theorem SimpleVector.holds_of_append (s rest : List T) (c : Nat) :
    SimpleVector.Holds ⟨s ++ rest, s.length, c⟩ s := by
  refine ⟨rfl, ?_, ?_⟩
  · simp
  · simp

theorem SimpleVector.consistent_holds_iff (v : SimpleVector T) (s : List T) :
    (v.Consistent ∧ v.Holds s) ↔ ∃ rest : List T, v.items_ = s ++ rest ∧ v.size_ = s.length ∧
      v.capacity_ = s.length + rest.length := by
  constructor
  · rintro ⟨⟨c1, c2⟩, h1, h2, h3⟩
    refine ⟨v.items_.drop v.size_, ?_, h1, ?_⟩
    · conv_rhs => rw [← h2]
      exact (List.take_append_drop _ _).symm
    · rw [← c1, List.length_drop]; omega
  · rintro ⟨rest, h1, h2, h3⟩
    refine ⟨⟨?_, ?_⟩, h2, ?_, ?_⟩
    · rw [h1, h3]; simp
    · omega
    · rw [h1, h2]; simp
    · rw [h1]; simp

theorem SimpleVector.Resize_consistent (O : SimpleOps T) (v : SimpleVector T) (s : List T) (n : Nat)
    (hc : v.Consistent) (h : v.Holds s) :
    ∃ v', v.Resize O n = .ok v' ∧
      v'.Holds (s.take n ++ List.replicate (n - s.length) O.default_value) ∧
      v'.Consistent ∧ v'.size_ = n ∧
      v'.capacity_ = (if n < v.capacity_ then v.capacity_ else max n (2 * v.capacity_)) := by
  obtain ⟨rest, h1, h2, h3⟩ := (SimpleVector.consistent_holds_iff v s).mp ⟨hc, h⟩
  obtain ⟨items, size, cap⟩ := v
  simp only at h1 h2 h3
  subst h1 h2 h3
  by_cases hn : n < s.length + rest.length
  · have hf := fill_loop_spec O.default_value rest.length s rest [] s.length rfl rfl
    simp only [List.append_nil] at hf
    have hge : ¬ (s.length + rest.length < s.length) := by omega
    refine ⟨⟨s ++ List.replicate rest.length O.default_value, n, s.length + rest.length⟩,
      ?_, ?_, ?_, rfl, ?_⟩
    · simp only [SimpleVector.Resize, hn, if_true, SimpleVector.Fill, fill_range, hge, if_false,
        Nat.add_sub_cancel_left, hf]
    · refine ⟨by simp; omega, ?_, by simp; omega⟩
      simp only [List.take_append_eq_append_take, List.take_replicate]
      congr 2
      omega
    · exact ⟨by simp, by simp; omega⟩
    · simp only [hn, if_true]
  · generalize hN : max n (2 * (s.length + rest.length)) = N
    have hNn : n ≤ N := by rw [← hN]; exact Nat.le_max_left _ _
    have hsn : s.length ≤ n := by omega
    have hsplit : (List.replicate N O.fresh)
        = [] ++ List.replicate s.length O.fresh ++ List.replicate (N - s.length) O.fresh := by
      rw [List.nil_append, ← List.replicate_add]; congr 1; omega
    have hm := move_range_loop_spec O s [] rest [] (List.replicate s.length O.fresh)
      (List.replicate (N - s.length) O.fresh) 0 0 rfl rfl (by simp)
    rw [← hsplit] at hm
    simp only [List.nil_append] at hm
    have hsplit2 : s ++ List.replicate (N - s.length) O.fresh
        = s ++ List.replicate (n - s.length) O.fresh ++ List.replicate (N - n) O.fresh := by
      rw [List.append_assoc, ← List.replicate_add]; congr 2; omega
    have hf := fill_loop_spec O.default_value (n - s.length) s
      (List.replicate (n - s.length) O.fresh) (List.replicate (N - n) O.fresh) s.length rfl
      (by simp)
    rw [← hsplit2] at hf
    have hge : ¬ (n < s.length) := by omega
    have hge0 : ¬ (s.length < 0) := by omega
    refine ⟨⟨s ++ List.replicate (n - s.length) O.default_value ++ List.replicate (N - n) O.fresh,
      n, N⟩, ?_, ?_, ?_, rfl, ?_⟩
    · simp only [SimpleVector.Resize, hn, if_false, hN, ArrayPtr.alloc, move_range, hge0,
        Nat.sub_zero, hm, SimpleVector.Fill, fill_range, hge, hf]
    · have := SimpleVector.holds_of_append (s ++ List.replicate (n - s.length) O.default_value)
        (List.replicate (N - n) O.fresh) N
      simp only [List.length_append, List.length_replicate] at this
      rw [show s.length + (n - s.length) = n by omega] at this
      rw [List.take_of_length_le hsn]
      exact this
    · refine ⟨?_, hNn⟩
      simp; omega
    · simp only [hn, if_false, hN]

end simple_specs
end CppVector
namespace CppVector
section simple_specs2
variable {T : Type}

theorem SimpleVector.Erase_consistent (O : SimpleOps T) (v : SimpleVector T) (s : List T) (i : Nat)
    (hc : v.Consistent) (h : v.Holds s) (hi : i < s.length) :
    ∃ v', v.Erase O i = .ok (v', some i) ∧ v'.Holds (s.take i ++ s.drop (i + 1)) ∧
      v'.Consistent ∧ v'.size_ = s.length - 1 ∧ v'.capacity_ = v.capacity_ := by
  obtain ⟨rest, h1, h2, h3⟩ := (SimpleVector.consistent_holds_iff v s).mp ⟨hc, h⟩
  obtain ⟨items, size, cap⟩ := v
  simp only at h1 h2 h3
  subst h1 h2 h3
  have hsplit : s = s.take i ++ s[i] :: s.drop (i + 1) := by
    conv_lhs => rw [← List.take_append_drop i s, List.drop_eq_getElem_cons hi]
  generalize ha : s.take i = a at hsplit
  generalize hb : s.drop (i + 1) = b at hsplit
  generalize hx : s[i] = x at hsplit
  have hal : a.length = i := by rw [← ha, List.length_take]; omega
  have hbl : b.length = s.length - (i + 1) := by rw [← hb, List.length_drop]
  have hsl : s.length = i + 1 + b.length := by omega
  -- the tail is moved into the auxiliary array
  have e1 : s ++ rest = (a ++ [x]) ++ b ++ rest := by rw [hsplit]; simp
  have e2 : ArrayPtr.alloc O (b.length + 1)
      = [] ++ List.replicate b.length O.fresh ++ [O.fresh] := by
    rw [ArrayPtr.alloc, List.nil_append, List.replicate_succ']
  have hm1 := move_range_loop_spec O b (a ++ [x]) rest [] (List.replicate b.length O.fresh)
    [O.fresh] (i + 1) 0 (by simp [hal]) rfl (by simp)
  rw [← e2] at hm1
  simp only [List.nil_append] at hm1
  -- and back, one slot nearer to the head
  have e3 : b ++ [O.fresh] = [] ++ (b ++ [O.fresh]) ++ [] := by simp
  have e4 : a ++ [x] ++ b.map O.moved_from ++ rest
      = a ++ (x :: b.map O.moved_from) ++ rest := by simp
  have hm2 := move_range_loop_spec O (b ++ [O.fresh]) [] [] a (x :: b.map O.moved_from) rest
    0 i rfl hal.symm (by simp)
  rw [← e3, ← e4] at hm2
  simp only [List.nil_append, List.append_nil, List.length_append, List.length_singleton] at hm2
  -- the call of Resize fills the free elements
  have e5 : a ++ (b ++ [O.fresh]) ++ rest = (a ++ b) ++ (O.fresh :: rest) ++ [] := by simp
  have hf := fill_loop_spec O.default_value (rest.length + 1) (a ++ b) (O.fresh :: rest) []
    (s.length - 1) (by simp only [List.length_append]; omega) (by simp)
  rw [← e5] at hf
  simp only [List.append_nil] at hf
  have hne : ¬ (s.length < i) := by omega
  have hemp : (s.length == 0) = false := by
    simp only [beq_eq_false_iff_ne]; omega
  have hr1 : ¬ (s.length < i + 1) := by omega
  have hcnt1 : s.length - (i + 1) = b.length := by omega
  have hcnt2 : s.length - i = b.length + 1 := by omega
  have hlt : s.length - 1 < s.length + rest.length := by omega
  have hge : ¬ (s.length + rest.length < s.length - 1) := by omega
  have hcnt3 : s.length + rest.length - (s.length - 1) = rest.length + 1 := by omega
  refine ⟨⟨a ++ b ++ List.replicate (rest.length + 1) O.default_value, s.length - 1,
    s.length + rest.length⟩, ?_, ?_, ?_, rfl, rfl⟩
  · simp only [SimpleVector.Erase, hne, if_false, SimpleVector.IsEmpty, hemp, move_range, hr1,
      hcnt1, Bool.false_eq_true, e1, hm1, Nat.not_lt_zero, Nat.sub_zero, hcnt2, hm2,
      SimpleVector.Resize, hlt, if_true, SimpleVector.Fill, fill_range, hge, hcnt3, hf]
  · have := SimpleVector.holds_of_append (a ++ b) (List.replicate (rest.length + 1) O.default_value)
      (s.length + rest.length)
    simp only [List.length_append] at this
    rw [show a.length + b.length = s.length - 1 by omega] at this
    exact this
  · refine ⟨?_, by simp; omega⟩
    simp; omega

end simple_specs2
end CppVector
namespace CppVector
section simple_specs3
variable {T : Type}

theorem move_range_loop_overrun (O : SimpleOps T) (s : List T) :
    ∀ (sp ss dp dm : ArrayPtr T) (first d_first : Nat),
      first = sp.length → d_first = dp.length → dm.length < s.length →
      move_range_loop O (sp ++ s ++ ss) first s.length (dp ++ dm) d_first
        = .error (.out_of_bounds ((dp ++ dm).length : Nat)) := by
  induction s with
  | nil => intro sp ss dp dm first d_first _ _ h; simp at h
  | cons x s ih =>
    intro sp ss dp dm first d_first hf hd hdm
    have h1 : ArrayPtr.get (sp ++ (x :: s) ++ ss) first = .ok x := by
      have := ArrayPtr.get_mid sp x (s ++ ss) first hf
      simpa using this
    cases dm with
    | nil =>
      have h2 : ArrayPtr.put (dp ++ []) d_first x = .error (.out_of_bounds d_first) :=
        ArrayPtr.put_end _ x d_first (by simp [hd])
      simp only [List.length_cons, move_range_loop, h1, h2]
      simp [hd]
    | cons d dm =>
      have h2 : ArrayPtr.put (dp ++ d :: dm) d_first x = .ok (dp ++ x :: dm) :=
        ArrayPtr.put_mid dp d x dm d_first hd
      have h4 : (sp ++ (x :: s) ++ ss).set first (O.moved_from x)
          = sp ++ O.moved_from x :: (s ++ ss) := by
        rw [hf]; simp [set_append_at]
      have h3 := ih (sp ++ [O.moved_from x]) ss (dp ++ [x]) dm (first + 1) (d_first + 1)
        (by simp [hf]) (by simp [hd]) (by simpa using hdm)
      simp only [List.length_cons, move_range_loop, h1, h2, h4]
      simpa using h3

theorem SimpleVector.PushBack_room (O : SimpleOps T) (v : SimpleVector T) (s : List T) (x : T)
    (hc : v.Consistent) (h : v.Holds s) (hs : s ≠ []) (hroom : v.size_ < v.capacity_) :
    ∃ v', v.PushBack O x = .ok v' ∧ v'.Holds (s ++ [x]) ∧ v'.Consistent ∧
      v'.size_ = s.length + 1 ∧ v'.capacity_ = v.capacity_ := by
  obtain ⟨rest, h1, h2, h3⟩ := (SimpleVector.consistent_holds_iff v s).mp ⟨hc, h⟩
  obtain ⟨items, size, cap⟩ := v
  simp only at h1 h2 h3 hroom
  subst h1 h2 h3
  have hpos : 0 < s.length := List.length_pos.mpr hs
  cases rest with
  | nil => simp at hroom
  | cons d rest =>
    have hemp : (s.length == 0) = false := by
      simp only [beq_eq_false_iff_ne]; omega
    have hp : ArrayPtr.put (s ++ d :: rest) s.length x = .ok (s ++ x :: rest) :=
      ArrayPtr.put_mid s d x rest s.length rfl
    have hno : ¬ (s.length + 1 > s.length + (d :: rest).length) := by simp
    refine ⟨⟨s ++ x :: rest, s.length + 1, s.length + (d :: rest).length⟩, ?_, ?_, ?_, rfl, rfl⟩
    · simp only [SimpleVector.PushBack, SimpleVector.IsEmpty, hemp, Bool.false_eq_true, if_false,
        hp, hno]
    · have := SimpleVector.holds_of_append (s ++ [x]) rest (s.length + (d :: rest).length)
      simpa using this
    · exact ⟨by simp, by simp⟩

theorem SimpleVector.PushBack_full (O : SimpleOps T) (v : SimpleVector T) (s : List T) (x : T)
    (hc : v.Consistent) (h : v.Holds s) (hs : s ≠ []) (hfull : v.size_ = v.capacity_) :
    v.PushBack O x = .error (.out_of_bounds (v.capacity_ : Nat)) := by
  obtain ⟨rest, h1, h2, h3⟩ := (SimpleVector.consistent_holds_iff v s).mp ⟨hc, h⟩
  obtain ⟨items, size, cap⟩ := v
  simp only at h1 h2 h3 hfull
  subst h1 h2 h3
  have hpos : 0 < s.length := List.length_pos.mpr hs
  have hr : rest = [] := List.length_eq_zero.mp (by omega)
  subst hr
  have hemp : (s.length == 0) = false := by
    simp only [beq_eq_false_iff_ne]; omega
  have hp : ArrayPtr.put (s ++ []) s.length x = .error (.out_of_bounds s.length) :=
    ArrayPtr.put_end _ x s.length (by simp)
  simp only [SimpleVector.PushBack, SimpleVector.IsEmpty, hemp, Bool.false_eq_true, if_false, hp,
    List.length_nil, Nat.add_zero]

theorem SimpleVector.PushBack_empty (O : SimpleOps T) (v : SimpleVector T) (x : T)
    (h0 : v.size_ = 0) :
    v.PushBack O x = .ok ⟨[x], 1, if v.capacity_ = 0 then 1 else v.capacity_⟩ := by
  obtain ⟨items, size, cap⟩ := v
  simp only at h0
  subst h0
  by_cases hcap : cap = 0
  · subst hcap
    simp [SimpleVector.PushBack, SimpleVector.IsEmpty, ArrayPtr.alloc, ArrayPtr.put,
      SimpleVector.Resize, move_range, move_range_loop, ArrayPtr.get, SimpleVector.Fill,
      fill_range, fill_loop]
  · have : ¬ (0 + 1 > cap) := by omega
    simp [SimpleVector.PushBack, SimpleVector.IsEmpty, ArrayPtr.alloc, ArrayPtr.put, this, hcap]

theorem SimpleVector.Insert_room (O : SimpleOps T) (v : SimpleVector T) (s : List T) (i : Nat)
    (x : T) (hc : v.Consistent) (h : v.Holds s) (hs : s ≠ []) (hi : i ≤ s.length)
    (hroom : v.size_ < v.capacity_) :
    ∃ v', v.Insert O i x = .ok (v', i) ∧ v'.Holds (s.take i ++ x :: s.drop i) ∧ v'.Consistent ∧
      v'.size_ = s.length + 1 ∧ v'.capacity_ = v.capacity_ := by
  obtain ⟨rest, h1, h2, h3⟩ := (SimpleVector.consistent_holds_iff v s).mp ⟨hc, h⟩
  obtain ⟨items, size, cap⟩ := v
  simp only at h1 h2 h3 hroom
  subst h1 h2 h3
  have hpos : 0 < s.length := List.length_pos.mpr hs
  cases rest with
  | nil => simp at hroom
  | cons d rest =>
    generalize ha : s.take i = a
    generalize hb : s.drop i = b
    have hsplit : s = a ++ b := by rw [← ha, ← hb, List.take_append_drop]
    have hal : a.length = i := by rw [← ha, List.length_take]; omega
    have hbl : b.length = s.length - i := by rw [← hb, List.length_drop]
    have hemp : (s.length == 0) = false := by
      simp only [beq_eq_false_iff_ne]; omega
    -- the tail is moved into the auxiliary array
    have e1 : s ++ d :: rest = a ++ b ++ d :: rest := by rw [hsplit]
    have e2 : ArrayPtr.alloc O b.length = [] ++ List.replicate b.length O.fresh ++ [] := by
      simp [ArrayPtr.alloc]
    have hm1 := move_range_loop_spec O b a (d :: rest) [] (List.replicate b.length O.fresh) []
      i 0 hal.symm rfl (by simp)
    rw [← e2] at hm1
    simp only [List.nil_append, List.append_nil] at hm1
    -- the value is assigned to the slot of the position
    have hp : ArrayPtr.put (a ++ b.map O.moved_from ++ d :: rest) i x
        = .ok (a ++ x :: ((b.map O.moved_from ++ [d]).drop 1 ++ rest)) := by
      cases b with
      | nil =>
        have := ArrayPtr.put_mid a d x rest i hal.symm
        simpa using this
      | cons y b =>
        have := ArrayPtr.put_mid a (O.moved_from y) x (b.map O.moved_from ++ d :: rest) i
          hal.symm
        simpa using this
    -- and the tail is moved back, one slot nearer to the end
    have hm2 := move_range_loop_spec O b [] [] (a ++ [x]) ((b.map O.moved_from ++ [d]).drop 1)
      rest 0 (i + 1) rfl (by simp [hal]) (by simp)
    simp only [List.nil_append, List.append_nil] at hm2
    have e3 : a ++ x :: ((b.map O.moved_from ++ [d]).drop 1 ++ rest)
        = a ++ [x] ++ (b.map O.moved_from ++ [d]).drop 1 ++ rest := by simp
    have hne : ¬ (s.length < i) := by omega
    have hr1 : ¬ (s.length < i) := hne
    have hno : ¬ (s.length + 1 > s.length + (rest.length + 1)) := by omega
    refine ⟨⟨a ++ [x] ++ b ++ rest, s.length + 1, s.length + (d :: rest).length⟩,
      ?_, ?_, ?_, rfl, rfl⟩
    · simp only [SimpleVector.Insert, hne, if_false, SimpleVector.IsEmpty, hemp,
        Bool.false_eq_true, move_range, ← hbl, e1, hm1, hp, e3, Nat.not_lt_zero, Nat.sub_zero,
        hm2, List.length_cons, hno]
    · have := SimpleVector.holds_of_append (a ++ x :: b) rest (s.length + (d :: rest).length)
      simp only [List.length_append, List.length_cons] at this
      rw [show a.length + (b.length + 1) = s.length + 1 by omega] at this
      simpa using this
    · refine ⟨?_, by simp⟩
      simp only [List.length_append, List.length_cons, List.length_nil]; omega

theorem SimpleVector.Insert_full (O : SimpleOps T) (v : SimpleVector T) (s : List T) (i : Nat)
    (x : T) (hc : v.Consistent) (h : v.Holds s) (hs : s ≠ []) (hi : i ≤ s.length)
    (hfull : v.size_ = v.capacity_) :
    v.Insert O i x = .error (.out_of_bounds (v.capacity_ : Nat)) := by
  obtain ⟨rest, h1, h2, h3⟩ := (SimpleVector.consistent_holds_iff v s).mp ⟨hc, h⟩
  obtain ⟨items, size, cap⟩ := v
  simp only at h1 h2 h3 hfull
  subst h1 h2 h3
  have hpos : 0 < s.length := List.length_pos.mpr hs
  have hr : rest = [] := List.length_eq_zero.mp (by omega)
  subst hr
  generalize ha : s.take i = a
  generalize hb : s.drop i = b
  have hsplit : s = a ++ b := by rw [← ha, ← hb, List.take_append_drop]
  have hal : a.length = i := by rw [← ha, List.length_take]; omega
  have hbl : b.length = s.length - i := by rw [← hb, List.length_drop]
  have hemp : (s.length == 0) = false := by
    simp only [beq_eq_false_iff_ne]; omega
  have e1 : s ++ [] = a ++ b ++ [] := by rw [hsplit]
  have e2 : ArrayPtr.alloc O b.length = [] ++ List.replicate b.length O.fresh ++ [] := by
    simp [ArrayPtr.alloc]
  have hm1 := move_range_loop_spec O b a [] [] (List.replicate b.length O.fresh) []
    i 0 hal.symm rfl (by simp)
  rw [← e2] at hm1
  simp only [List.nil_append, List.append_nil] at hm1
  have hne : ¬ (s.length < i) := by omega
  have hlen : s.length = a.length + b.length := by rw [hsplit]; simp
  cases b with
  | nil =>
    have hp : ArrayPtr.put (a ++ List.map O.moved_from []) i x
        = .error (.out_of_bounds i) := ArrayPtr.put_end _ x i (by simp [hal])
    simp only [SimpleVector.Insert, hne, if_false, SimpleVector.IsEmpty, hemp,
      Bool.false_eq_true, move_range, ← hbl, e1, hm1, hp, List.append_nil, Nat.add_zero]
    simp at hlen
    simp [hlen, hal, move_range_loop, ArrayPtr.put]
  | cons y b =>
    have hp : ArrayPtr.put (a ++ List.map O.moved_from (y :: b)) i x
        = .ok (a ++ x :: b.map O.moved_from) := by
      have := ArrayPtr.put_mid a (O.moved_from y) x (b.map O.moved_from) i hal.symm
      simpa using this
    have hm2 := move_range_loop_overrun O (y :: b) [] [] (a ++ [x]) (b.map O.moved_from)
      0 (i + 1) rfl (by simp [hal]) (by simp)
    simp only [List.nil_append, List.append_nil] at hm2
    have e3 : a ++ x :: b.map O.moved_from = a ++ [x] ++ b.map O.moved_from := by simp
    simp only [SimpleVector.Insert, hne, if_false, SimpleVector.IsEmpty, hemp,
      Bool.false_eq_true, move_range, ← hbl, e1, hm1, hp, e3, Nat.not_lt_zero, Nat.sub_zero,
      hm2, List.append_nil, Nat.add_zero]
    simp only [List.length_append, List.length_cons, List.length_map, List.length_nil] at hlen ⊢
    rw [hlen]
    congr 2
    omega

end simple_specs3
end CppVector
namespace CppVector

/-- C11, counterexample: it is not so that `Resize(n)` returns with size `n` for every `n`.
On the `Vector<int>` holding `[0, 0, 0]` at capacity 3, `Resize(1 << 61)` asks
`operator new` for `2^63` bytes through `Reserve` and ends in `std::bad_alloc`, and
`Resize(2^62 + 1)` asks for `(2^62 + 1) * 4` bytes, which is 4 in `size_t`: `Reserve`
receives a block of one slot and constructs the second element in the slot after it. -/
theorem C11_resize_counterexample :
    Vector.Holds (⟨⟨[some 0, some 0, some 0], 3⟩, 3⟩ : Vector Int) [0, 0, 0] ∧
    Vector.Resize intOps ⟨⟨[some 0, some 0, some 0], 3⟩, 3⟩ 2305843009213693952
      = .error .bad_alloc ∧
    Vector.Resize intOps ⟨⟨[some 0, some 0, some 0], 3⟩, 3⟩ 4611686018427387905
      = .error (.out_of_bounds 1) ∧
    ¬ (∀ (v : Vector Int) (s : List Int) (n : Nat), v.Holds s →
        ∃ v', v.Resize intOps n = .ok v' ∧ v'.Size = n ∧
          v'.Holds (s.take n ++ List.replicate (n - s.length) intOps.value_init)) := by
  refine ⟨by decide, rfl, rfl, ?_⟩
  intro hall
  obtain ⟨v', hr, _⟩ := hall ⟨⟨[some 0, some 0, some 0], 3⟩, 3⟩ [0, 0, 0] 2305843009213693952
    (by decide)
  have e : Vector.Resize intOps ⟨⟨[some 0, some 0, some 0], 3⟩, 3⟩ 2305843009213693952
      = .error .bad_alloc := rfl
  rw [e] at hr
  cases hr

/-- C11, amended: on a vector holding `s` (size `m`, capacity `c`), `Resize(n)` returns when
`n <= c`, and when `n > c` and the `n * sizeof(T)` bytes are within what `operator new`
grants; afterwards the size is `n`, the vector holds the first `min(m, n)` elements of `s`
followed by `n - m` value-initialised elements, so every index below `min(m, n)` reads the
element of `s` and every index in `[m, n)` reads `T()`; and if `n <= m` the capacity is
still `c`.  When `n > c` and the request, `n * sizeof(T)` taken in `size_t`, is above what
`operator new` grants, the call ends in `std::bad_alloc`, thrown by the allocation in
`Reserve` before anything is written. -/
theorem C11_resize_contents_granted {T : Type} (E : ElemOps T) (v : Vector T) (s : List T)
    (n : Nat) (h : v.Holds s) :
    ((n ≤ v.Capacity ∨ n * E.size_of ≤ E.new_limit) →
      ∃ v', v.Resize E n = .ok v' ∧ v'.Size = n ∧
        v'.Holds (s.take n ++ List.replicate (n - s.length) E.value_init) ∧
        (∀ i x, i < min s.length n → s[i]? = some x → v'.index i = .ok x) ∧
        (∀ i, s.length ≤ i → i < n → v'.index i = .ok E.value_init) ∧
        (n ≤ s.length → v'.Capacity = v.Capacity)) ∧
    (v.Capacity < n → E.new_limit < n * E.size_of % size_t_range →
      v.Resize E n = .error .bad_alloc) := by
  refine ⟨?_, fun hc hr => Vector.Resize_refused E v s n h hc hr⟩
  intro hg
  obtain ⟨v', hr, hh, hsz, hcap⟩ := Vector.Resize_spec E v s n h hg
  have hcapv : s.length ≤ v.Capacity := by
    have hsize : v.size_ = s.length := ((Vector.holds_iff v s).mp h).choose_spec.2.1
    have := Vector.holds_size_le_capacity h
    simpa [Vector.Size, hsize] using this
  refine ⟨v', hr, hsz, hh, ?_, ?_, ?_⟩
  · intro i x hi hx
    refine Vector.holds_index hh i x ?_
    have hi1 : i < (s.take n).length := by rw [List.length_take]; omega
    rw [List.getElem?_append_left hi1, List.getElem?_take_of_lt (by omega)]
    exact hx
  · intro i hmi hin
    refine Vector.holds_index hh i E.value_init ?_
    have hlen : (s.take n).length = s.length := by rw [List.length_take]; omega
    rw [List.getElem?_append_right (by omega), hlen, List.getElem?_replicate]
    rw [if_pos (by omega)]
  · intro hle
    rw [hcap, if_neg (by omega)]

/-- C11, witness of the amended claim: `Vector<int>(3)` is `[0, 0, 0]` at capacity 3,
`Resize(1)` leaves `[0]` with size 1 and capacity 3, and `Resize(1 << 61)` ends in
`std::bad_alloc`. -/
theorem C11_resize_contents_granted_witness :
    Vector.sized intOps 3 = .ok ⟨⟨[some 0, some 0, some 0], 3⟩, 3⟩ ∧
    Vector.Holds (⟨⟨[some 0, some 0, some 0], 3⟩, 3⟩ : Vector Int) [0, 0, 0] ∧
    Vector.Resize intOps ⟨⟨[some 0, some 0, some 0], 3⟩, 3⟩ 1
      = .ok ⟨⟨[some 0, none, none], 3⟩, 1⟩ ∧
    (∃ v', Vector.Resize intOps ⟨⟨[some 0, some 0, some 0], 3⟩, 3⟩ 1 = .ok v' ∧ v'.Size = 1 ∧
      v'.Holds (([0, 0, 0] : List Int).take 1
        ++ List.replicate (1 - ([0, 0, 0] : List Int).length) intOps.value_init) ∧
      (∀ i x, i < min ([0, 0, 0] : List Int).length 1 → ([0, 0, 0] : List Int)[i]? = some x →
        v'.index i = .ok x) ∧
      (∀ i, ([0, 0, 0] : List Int).length ≤ i → i < 1 → v'.index i = .ok intOps.value_init) ∧
      (1 ≤ ([0, 0, 0] : List Int).length →
        v'.Capacity = Vector.Capacity (⟨⟨[some 0, some 0, some 0], 3⟩, 3⟩ : Vector Int))) ∧
    Vector.Resize intOps ⟨⟨[some 0, some 0, some 0], 3⟩, 3⟩ 2305843009213693952
      = .error .bad_alloc :=
  ⟨rfl, by decide, rfl,
    (C11_resize_contents_granted intOps ⟨⟨[some 0, some 0, some 0], 3⟩, 3⟩ [0, 0, 0] 1
      (by decide)).1 (Or.inl (by decide)),
    (C11_resize_contents_granted intOps ⟨⟨[some 0, some 0, some 0], 3⟩, 3⟩ [0, 0, 0]
      2305843009213693952 (by decide)).2 (by decide) (by decide)⟩

/-- C12: on a vector holding `s` (size `n`, capacity `c`), `PopBack` returns; a non-empty
vector then holds `s` without its last element, with size `n - 1` and capacity `c`; an empty
vector is left as it is, with size 0 and its capacity. -/
theorem C12_pop_back {T : Type} (v : Vector T) (s : List T) (h : v.Holds s) :
    ∃ v', v.PopBack = .ok v' ∧ v'.Holds s.dropLast ∧ v'.Size = s.length - 1 ∧
      v'.Capacity = v.Capacity ∧ (s = [] → v' = v ∧ v'.Size = 0) := by
  obtain ⟨v', hp, hh, hsz, hcap, hemp⟩ := Vector.PopBack_spec v s h
  refine ⟨v', hp, hh, hsz, hcap, ?_⟩
  intro hs
  refine ⟨hemp hs, ?_⟩
  rw [hsz, hs]; rfl

/-- C12, witness: `[1, 2, 3]` at capacity 4 becomes `[1, 2]` at capacity 4. -/
theorem C12_pop_back_witness :
    Vector.PopBack (⟨⟨[some 1, some 2, some 3, none], 4⟩, 3⟩ : Vector Int)
      = .ok ⟨⟨[some 1, some 2, none, none], 4⟩, 2⟩ ∧
    Vector.PopBack (Vector.empty : Vector Int) = .ok Vector.empty ∧
    ∃ v', Vector.PopBack (⟨⟨[some 1, some 2, some 3, none], 4⟩, 3⟩ : Vector Int) = .ok v' ∧
      v'.Holds ([1, 2, 3] : List Int).dropLast ∧ v'.Size = ([1, 2, 3] : List Int).length - 1 ∧
      v'.Capacity = Vector.Capacity (⟨⟨[some 1, some 2, some 3, none], 4⟩, 3⟩ : Vector Int) ∧
      (([1, 2, 3] : List Int) = [] →
        v' = ⟨⟨[some 1, some 2, some 3, none], 4⟩, 3⟩ ∧ v'.Size = 0) :=
  ⟨rfl, rfl, C12_pop_back ⟨⟨[some 1, some 2, some 3, none], 4⟩, 3⟩ [1, 2, 3] (by decide)⟩

/-- C13: for a `SimpleVector` holding `s` (size `m`) and every index `i`, `At(i)` throws
`std::out_of_range` exactly when `i >= m`, whatever the capacity is, and for `i < m` it
returns the element `s[i]`, which is also what `operator[]` returns.  `At` is a read: it
yields no new state. -/
theorem C13_at_checks_the_size {T : Type} (v : SimpleVector T) (s : List T) (i : Nat)
    (h : v.Holds s) :
    (v.At i = .error .out_of_range ↔ i ≥ s.length) ∧
      (i < s.length → ∃ x, s[i]? = some x ∧ v.At i = .ok x ∧ v.index i = .ok x) := by
  obtain ⟨h1, h2, h3⟩ := h
  have hget : ∀ hi : i < s.length, v.items_.get i = .ok s[i] := by
    intro hi
    have e : v.items_[i]? = some s[i] := by
      have := List.getElem?_take_of_lt (l := v.items_) (show i < v.size_ by omega)
      rw [← this, h2]
      exact List.getElem?_eq_getElem hi
    simp only [ArrayPtr.get, e]
  constructor
  · constructor
    · intro hat
      by_contra hlt
      have hi : i < s.length := by omega
      have hn : ¬ (i ≥ v.size_) := by omega
      simp only [SimpleVector.At, hn, if_false, hget hi] at hat
      cases hat
    · intro hge
      have : i ≥ v.size_ := by omega
      simp only [SimpleVector.At, this, if_true]
  · intro hi
    have hn : ¬ (i ≥ v.size_) := by omega
    have hlt : i < v.size_ := by omega
    refine ⟨s[i], List.getElem?_eq_getElem hi, ?_, ?_⟩
    · simp only [SimpleVector.At, hn, if_false, hget hi]
    · simp only [SimpleVector.index, hlt, if_true, hget hi]

/-- C13, witness: `At(0)` on an empty vector throws `std::out_of_range`; on `[5, 6]` with
capacity 4, `At(1)` is `6` and `At(2)` throws although `2` is below the capacity. -/
theorem C13_at_checks_the_size_witness :
    SimpleVector.At (SimpleVector.empty : SimpleVector Int) 0 = .error .out_of_range ∧
    SimpleVector.At (⟨[5, 6, 0, 0], 2, 4⟩ : SimpleVector Int) 2 = .error .out_of_range ∧
    ∃ x, ([5, 6] : List Int)[1]? = some x ∧
      SimpleVector.At (⟨[5, 6, 0, 0], 2, 4⟩ : SimpleVector Int) 1 = .ok x ∧
      SimpleVector.index (⟨[5, 6, 0, 0], 2, 4⟩ : SimpleVector Int) 1 = .ok x :=
  ⟨(C13_at_checks_the_size SimpleVector.empty [] 0 (by decide)).1.mpr (Nat.le_refl 0),
    (C13_at_checks_the_size ⟨[5, 6, 0, 0], 2, 4⟩ [5, 6] 2 (by decide)).1.mpr (Nat.le_refl 2),
    (C13_at_checks_the_size ⟨[5, 6, 0, 0], 2, 4⟩ [5, 6] 1 (by decide)).2 (by decide)⟩

/-- C14: `SimpleVector::PushBack` assigns `items_[size_]` before it looks at the capacity.
After `PushBack(1)` on a default-constructed vector the array has one element, and
`PushBack(2)` assigns to the element `1` of it, outside the array.  After `Reserve(5)` the
first `PushBack(1)` replaces the array of five elements by an array of one element while
`capacity_` stays `5`, and the next `PushBack(2)` assigns outside that array too. -/
theorem C14_push_back_assigns_outside_the_array (O : SimpleOps Int) :
    SimpleVector.PushBack O SimpleVector.empty 1 = .ok ⟨[1], 1, 1⟩ ∧
    SimpleVector.PushBack O ⟨[1], 1, 1⟩ 2 = .error (.out_of_bounds 1) ∧
    SimpleVector.Reserve O SimpleVector.empty 5
      = .ok ⟨[O.fresh, O.fresh, O.fresh, O.fresh, O.fresh], 0, 5⟩ ∧
    SimpleVector.PushBack O ⟨[O.fresh, O.fresh, O.fresh, O.fresh, O.fresh], 0, 5⟩ 1
      = .ok ⟨[1], 1, 5⟩ ∧
    SimpleVector.PushBack O ⟨[1], 1, 5⟩ 2 = .error (.out_of_bounds 1) :=
  ⟨rfl, rfl, rfl, rfl, rfl⟩

/-- C15: `SimpleVector::Insert` shifts the tail and assigns the value before it looks at the
capacity.  On the full vector `[1]` (capacity 1, reached by one `PushBack`), `Insert` at
`begin()` moves the element `1` to the element `1` of the array, outside it, and `Insert`
at `end()` assigns the value there.  After `Reserve(5)`, `Insert(begin(), 7)` replaces the
array by an array of one element while `capacity_` stays `5`, and `Insert(end(), 8)` then
assigns outside that array. -/
theorem C15_insert_assigns_outside_the_array (O : SimpleOps Int) :
    SimpleVector.PushBack O SimpleVector.empty 1 = .ok ⟨[1], 1, 1⟩ ∧
    SimpleVector.Insert O ⟨[1], 1, 1⟩ 0 7 = .error (.out_of_bounds 1) ∧
    SimpleVector.Insert O ⟨[1], 1, 1⟩ 1 7 = .error (.out_of_bounds 1) ∧
    SimpleVector.Reserve O SimpleVector.empty 5
      = .ok ⟨[O.fresh, O.fresh, O.fresh, O.fresh, O.fresh], 0, 5⟩ ∧
    SimpleVector.Insert O ⟨[O.fresh, O.fresh, O.fresh, O.fresh, O.fresh], 0, 5⟩ 0 7
      = .ok (⟨[7], 1, 5⟩, 0) ∧
    SimpleVector.Insert O ⟨[7], 1, 5⟩ 1 8 = .error (.out_of_bounds 1) :=
  ⟨rfl, rfl, rfl, rfl, rfl, rfl⟩

/-- C16: `SimpleVector::Erase` ends with `Resize(size_)`, which assigns `Type{}` to the
elements `[size_, capacity_)`.  In a reachable state whose array is shorter than
`capacity_` this runs out of the array: after `SimpleVector(Reserve(5))` and `PushBack(1)`
the array has one element and `Erase(begin())` assigns to the element `1`; the copy of a
vector of size 2 and capacity 4 has an array of two elements and `capacity_ == 4`, and
`Erase(begin())` on it assigns to the element `2`. -/
theorem C16_erase_fills_outside_the_array (O : SimpleOps Int) :
    SimpleVector.reserve_ctor O 5
      = .ok ⟨[O.fresh, O.fresh, O.fresh, O.fresh, O.fresh], 0, 5⟩ ∧
    SimpleVector.PushBack O ⟨[O.fresh, O.fresh, O.fresh, O.fresh, O.fresh], 0, 5⟩ 1
      = .ok ⟨[1], 1, 5⟩ ∧
    SimpleVector.Erase O ⟨[1], 1, 5⟩ 0 = .error (.out_of_bounds 1) ∧
    SimpleVector.from_list O [1, 2, 3, 4] = .ok ⟨[1, 2, 3, 4], 4, 4⟩ ∧
    SimpleVector.PopBack (SimpleVector.PopBack (⟨[1, 2, 3, 4], 4, 4⟩ : SimpleVector Int))
      = ⟨[1, 2, 3, 4], 2, 4⟩ ∧
    SimpleVector.copy_ctor O ⟨[1, 2, 3, 4], 2, 4⟩ = .ok ⟨[1, 2], 2, 4⟩ ∧
    SimpleVector.Erase O ⟨[1, 2], 2, 4⟩ 0 = .error (.out_of_bounds 2) :=
  ⟨rfl, rfl, rfl, rfl, rfl, rfl, rfl⟩

end CppVector
namespace CppVector

/-- C17: for a vector `x` holding `s`, the copy assignment `x = x` and the move assignment
`x = std::move(x)` (both operands are the object at the address `addr`) return and leave
`x` as it was: the same sequence, size and capacity. -/
theorem C17_self_assignment {T : Type} (addr : Nat) (x : Vector T) (s : List T)
    (h : x.Holds s) :
    (∃ x1, Vector.assign_copy addr addr x x = .ok x1 ∧ x1 = x ∧ x1.Holds s ∧
      x1.Size = x.Size ∧ x1.Capacity = x.Capacity) ∧
    (Vector.assign_move addr addr x x = (x, x) ∧
      (Vector.assign_move addr addr x x).1.Holds s ∧
      (Vector.assign_move addr addr x x).1.Size = x.Size ∧
      (Vector.assign_move addr addr x x).1.Capacity = x.Capacity) := by
  have e1 : Vector.assign_copy addr addr x x = .ok x := by
    simp only [Vector.assign_copy, ne_eq, not_true_eq_false, if_false]
  have e2 : Vector.assign_move addr addr x x = (x, x) := by
    simp only [Vector.assign_move, ne_eq, not_true_eq_false, if_false]
  refine ⟨⟨x, e1, rfl, h, rfl, rfl⟩, e2, ?_⟩
  rw [e2]
  exact ⟨h, rfl, rfl⟩

/-- C17, witness: self-assignment of the vector `[1, 2]` at capacity 3. -/
theorem C17_self_assignment_witness :
    Vector.assign_copy 0 0 (⟨⟨[some 1, some 2, none], 3⟩, 2⟩ : Vector Int)
        ⟨⟨[some 1, some 2, none], 3⟩, 2⟩ = .ok ⟨⟨[some 1, some 2, none], 3⟩, 2⟩ ∧
    Vector.assign_move 0 0 (⟨⟨[some 1, some 2, none], 3⟩, 2⟩ : Vector Int)
        ⟨⟨[some 1, some 2, none], 3⟩, 2⟩
      = (⟨⟨[some 1, some 2, none], 3⟩, 2⟩, ⟨⟨[some 1, some 2, none], 3⟩, 2⟩) :=
  ⟨(C17_self_assignment 0 ⟨⟨[some 1, some 2, none], 3⟩, 2⟩ [1, 2] (by decide)).1.elim
      (fun _ hx => hx.2.1 ▸ hx.1),
    (C17_self_assignment 0 ⟨⟨[some 1, some 2, none], 3⟩, 2⟩ [1, 2] (by decide)).2.1⟩

/-- C18: `Reserve(n)` followed by `Reserve(n)` leaves what a single `Reserve(n)` leaves, for
every vector and every `n`.  As a plain build executes it, a call `Reserve(n)` either ends
in `std::bad_alloc`, thrown by the allocation before anything of the vector is written, or
returns, and then a second `Reserve(n)` returns the vector as the first call left it; the
size is the one before the calls and the capacity is `n` if `n` was above the capacity and
the capacity otherwise.  Within the behaviour C++ defines, on a vector holding `s` with
capacity `c`: when `n <= c`, or `n > c` and the `n * sizeof(T)` bytes are within what
`operator new` grants, both calls return and the vector holds `s` after each; a call that
returned is followed by a call that returns the vector itself; for `n <= c`, `Reserve(n)`
returns the vector itself, capacity, size, sequence and block unchanged; and when `n > c`
and the request, `n * sizeof(T)` taken in `size_t`, is above what `operator new` grants, the
call ends in `std::bad_alloc`. -/
theorem C18_reserve_twice_is_reserve_once {T : Type} (E : ElemOps T) (v : Vector T)
    (s : List T) (n : Nat) (h : v.Holds s) :
    (∀ junk : Int → T,
      Vector.Reserve_run E junk v n = .error .bad_alloc ∨
      ∃ v1, Vector.Reserve_run E junk v n = .ok v1 ∧ Vector.Reserve_run E junk v1 n = .ok v1 ∧
        v1.Size = v.Size ∧ v1.Capacity = (if n > v.Capacity then n else v.Capacity)) ∧
    ((n ≤ v.Capacity ∨ n * E.size_of ≤ E.new_limit) →
      ∃ v1 v2, v.Reserve E n = .ok v1 ∧ v1.Reserve E n = .ok v2 ∧ v2 = v1 ∧
        v2.Capacity = v1.Capacity ∧ v2.Size = v1.Size ∧ v1.Holds s ∧ v2.Holds s) ∧
    (∀ v1, v.Reserve E n = .ok v1 → v1.Reserve E n = .ok v1) ∧
    (n ≤ v.Capacity → v.Reserve E n = .ok v) ∧
    (v.Capacity < n → E.new_limit < n * E.size_of % size_t_range →
      v.Reserve E n = .error .bad_alloc) := by
  refine ⟨?_, ?_, ?_, ?_, fun hc hr => Vector.Reserve_refused E v n hc hr⟩
  · intro junk
    cases hr : Vector.Reserve_run E junk v n with
    | error e =>
      left
      rw [Vector.Reserve_run_throws E junk v n e hr]
    | ok v1 =>
      right
      obtain ⟨f1, f2⟩ := Vector.Reserve_run_fields E junk v v1 n hr
      have hn : n ≤ v1.data_.capacity_ := by rw [f2]; split <;> omega
      refine ⟨v1, rfl, ?_, f1, ?_⟩
      · simp only [Vector.Reserve_run, RawMemory.Capacity, hn, if_true]
      · simp only [Vector.Capacity, RawMemory.Capacity]
        rw [f2]
        split <;> split <;> omega
  · intro hg
    obtain ⟨v1, hr1, hh1, _, hcap1, _⟩ := Vector.Reserve_spec E v s n h hg
    have hn : n ≤ v1.Capacity := by rw [hcap1]; split <;> omega
    obtain ⟨v2, hr2, hh2, _, _, hsame2⟩ := Vector.Reserve_spec E v1 s n hh1 (Or.inl hn)
    have e : v2 = v1 := hsame2 hn
    exact ⟨v1, v2, hr1, hr2, e, by rw [e], by rw [e], hh1, hh2⟩
  · intro v1 hr1
    have hf := (Vector.Reserve_fields E v v1 n hr1).2
    have hn : n ≤ v1.data_.capacity_ := by rw [hf]; split <;> omega
    simp only [Vector.Reserve, RawMemory.Capacity, hn, if_true]
  · intro hle
    have hle1 : n ≤ v.data_.capacity_ := hle
    simp only [Vector.Reserve, RawMemory.Capacity, hle1, if_true]

/-- C18, witness: `[1, 2]` at capacity 2: `Reserve(5)` twice, `Reserve(1)`,
`Reserve(1 << 61)`, which ends in `std::bad_alloc`, and `Reserve(2^62 + 1)`, whose request
of `(2^62 + 1) * 4` bytes is 4 in `size_t`: C++ leaves the call undefined (the second
element is constructed in the slot after the block), a plain build returns from it, and a
second `Reserve(2^62 + 1)` changes nothing. -/
theorem C18_reserve_twice_is_reserve_once_witness :
    Vector.Reserve intOps ⟨⟨[some 1, some 2], 2⟩, 2⟩ 5
      = .ok ⟨⟨[some 1, some 2, none, none, none], 5⟩, 2⟩ ∧
    Vector.Reserve intOps ⟨⟨[some 1, some 2, none, none, none], 5⟩, 2⟩ 5
      = .ok ⟨⟨[some 1, some 2, none, none, none], 5⟩, 2⟩ ∧
    Vector.Reserve intOps ⟨⟨[some 1, some 2], 2⟩, 2⟩ 1 = .ok ⟨⟨[some 1, some 2], 2⟩, 2⟩ ∧
    (∃ v1 v2, Vector.Reserve intOps ⟨⟨[some 1, some 2], 2⟩, 2⟩ 5 = .ok v1 ∧
      v1.Reserve intOps 5 = .ok v2 ∧ v2 = v1 ∧ v2.Capacity = v1.Capacity ∧ v2.Size = v1.Size ∧
      v1.Holds [1, 2] ∧ v2.Holds [1, 2]) ∧
    Vector.Reserve intOps ⟨⟨[some 1, some 2], 2⟩, 2⟩ 2305843009213693952
      = .error .bad_alloc ∧
    Vector.Reserve intOps ⟨⟨[some 1, some 2], 2⟩, 2⟩ 4611686018427387905
      = .error (.out_of_bounds 1) ∧
    Vector.Reserve_run intOps (fun _ => 0) ⟨⟨[some 1, some 2], 2⟩, 2⟩ 4611686018427387905
      = .ok ⟨⟨[some 1], 4611686018427387905⟩, 2⟩ ∧
    (Vector.Reserve_run intOps (fun _ => 0) ⟨⟨[some 1, some 2], 2⟩, 2⟩ 4611686018427387905
        = .error .bad_alloc ∨
      ∃ v1, Vector.Reserve_run intOps (fun _ => 0) ⟨⟨[some 1, some 2], 2⟩, 2⟩
          4611686018427387905 = .ok v1 ∧
        Vector.Reserve_run intOps (fun _ => 0) v1 4611686018427387905 = .ok v1 ∧
        v1.Size = Vector.Size (⟨⟨[some 1, some 2], 2⟩, 2⟩ : Vector Int) ∧
        v1.Capacity
          = (if 4611686018427387905 > Vector.Capacity (⟨⟨[some 1, some 2], 2⟩, 2⟩ : Vector Int)
              then 4611686018427387905
              else Vector.Capacity (⟨⟨[some 1, some 2], 2⟩, 2⟩ : Vector Int))) :=
  ⟨rfl, rfl,
    (C18_reserve_twice_is_reserve_once intOps ⟨⟨[some 1, some 2], 2⟩, 2⟩ [1, 2] 1
      (by decide)).2.2.2.1 (by decide),
    (C18_reserve_twice_is_reserve_once intOps ⟨⟨[some 1, some 2], 2⟩, 2⟩ [1, 2] 5
      (by decide)).2.1 (Or.inr (by decide)),
    (C18_reserve_twice_is_reserve_once intOps ⟨⟨[some 1, some 2], 2⟩, 2⟩ [1, 2]
      2305843009213693952 (by decide)).2.2.2.2 (by decide) (by decide),
    rfl, rfl,
    (C18_reserve_twice_is_reserve_once intOps ⟨⟨[some 1, some 2], 2⟩, 2⟩ [1, 2]
      4611686018427387905 (by decide)).1 (fun _ => 0)⟩

/-- C19, counterexample: it is not so that `Resize(n)` with `n` above the capacity `c` always
leaves the capacity `max(n, g)`, `g` being `1` for `c = 0` and `2 * c` otherwise: the vector
`[1, 2, 3, 4]` of capacity 4 has capacity 5 after `Resize(5)`, not 8. -/
theorem C19_resize_growth_counterexample :
    Vector.Resize intOps ⟨⟨[some 1, some 2, some 3, some 4], 4⟩, 4⟩ 5
      = .ok ⟨⟨[some 1, some 2, some 3, some 4, some 0], 5⟩, 5⟩ ∧
    ¬ (∀ (v : Vector Int) (s : List Int) (n : Nat), v.Holds s → n > v.Capacity →
        ∃ v', v.Resize intOps n = .ok v' ∧
          v'.Capacity = max n (if v.Capacity = 0 then 1 else 2 * v.Capacity)) := by
  refine ⟨rfl, ?_⟩
  intro hall
  obtain ⟨v', hr, hcap⟩ := hall ⟨⟨[some 1, some 2, some 3, some 4], 4⟩, 4⟩ [1, 2, 3, 4] 5
    (by decide) (by decide)
  have e : Vector.Resize intOps ⟨⟨[some 1, some 2, some 3, some 4], 4⟩, 4⟩ 5
      = .ok ⟨⟨[some 1, some 2, some 3, some 4, some 0], 5⟩, 5⟩ := rfl
  rw [e] at hr
  cases hr
  revert hcap
  decide

/-- C19, amended: on a vector holding `s` with capacity `c`, `Resize(n)` with `n > c` and
`n * sizeof(T)` bytes within what `operator new` grants returns; it reallocates through
`Reserve(n)`, so the capacity afterwards is exactly `n` (the growth policy of the appending
operations is not applied), the size is `n`, and the vector holds `s` followed by `n - m`
value-initialised elements. -/
theorem C19_resize_reserves_exactly {T : Type} (E : ElemOps T) (v : Vector T) (s : List T)
    (n : Nat) (h : v.Holds s) (hn : n > v.Capacity) (hg : n * E.size_of ≤ E.new_limit) :
    ∃ v', v.Resize E n = .ok v' ∧ v'.Capacity = n ∧ v'.Size = n ∧
      v'.Holds (s ++ List.replicate (n - s.length) E.value_init) := by
  obtain ⟨v', hr, hh, hsz, hcap⟩ := Vector.Resize_spec E v s n h (Or.inr hg)
  have hcapv : s.length ≤ v.Capacity := by
    have hsize : v.size_ = s.length := ((Vector.holds_iff v s).mp h).choose_spec.2.1
    have := Vector.holds_size_le_capacity h
    simpa [Vector.Size, hsize] using this
  refine ⟨v', hr, by rw [hcap, if_pos hn], hsz, ?_⟩
  rw [List.take_of_length_le (by omega)] at hh
  exact hh

/-- C19, witness of the amended claim: capacity 4 resized to 5 has capacity 5. -/
theorem C19_resize_reserves_exactly_witness :
    ∃ v', Vector.Resize intOps ⟨⟨[some 1, some 2, some 3, some 4], 4⟩, 4⟩ 5 = .ok v' ∧
      v'.Capacity = 5 ∧ v'.Size = 5 ∧
      v'.Holds ([1, 2, 3, 4] ++ List.replicate (5 - ([1, 2, 3, 4] : List Int).length)
        intOps.value_init) :=
  C19_resize_reserves_exactly intOps ⟨⟨[some 1, some 2, some 3, some 4], 4⟩, 4⟩ [1, 2, 3, 4] 5
    (by decide) (by decide) (by decide)

/-- C20: `SimpleVector::Resize` keeps the capacity only for a requested size below it: the
test is `new_size < capacity_`.  For a requested size equal to the capacity it allocates
again: `SimpleVector<int>(3)` has capacity 3, and after `Resize(3)` capacity 6 (specified:
3).  Size and elements are as specified: `Resize(2)` keeps capacity 3, `Resize(7)` gives
capacity 7 with the new elements `Type()`. -/
theorem C20_resize_grows_at_equal_size (O : SimpleOps Int) :
    SimpleVector.sized O 3 = .ok ⟨[O.from_zero, O.from_zero, O.from_zero], 3, 3⟩ ∧
    SimpleVector.Resize O ⟨[O.from_zero, O.from_zero, O.from_zero], 3, 3⟩ 3
      = .ok ⟨[O.from_zero, O.from_zero, O.from_zero, O.fresh, O.fresh, O.fresh], 3, 6⟩ ∧
    SimpleVector.Resize O ⟨[O.from_zero, O.from_zero, O.from_zero], 3, 3⟩ 2
      = .ok ⟨[O.from_zero, O.from_zero, O.from_zero], 2, 3⟩ ∧
    SimpleVector.Resize O ⟨[O.from_zero, O.from_zero, O.from_zero], 3, 3⟩ 7
      = .ok ⟨[O.from_zero, O.from_zero, O.from_zero, O.default_value, O.default_value,
        O.default_value, O.default_value], 7, 7⟩ :=
  ⟨rfl, rfl, rfl, rfl⟩

end CppVector
namespace CppVector
section emplace_any
variable {T : Type}

theorem headD_map_append_singleton (f : T → T) (s : List T) (z y : T) :
    ((s ++ [z]).map f).headD y = (s.map f).headD (f z) := by
  cases s <;> rfl

theorem move_backward_loop_shift_any (E : ElemOps T) (s : List T) :
    ∀ (bp bs : Block T) (y : T) (last d_last : Int),
      last = bp.length + s.length → d_last = last + 1 →
      move_backward_loop E (bp ++ s.map some ++ some y :: bs) last s.length d_last
        = .ok (bp ++ some ((s.map E.moved_from).headD y) :: (s.map some ++ bs)) := by
  induction s using List.reverseRecOn with
  | nil => intro bp bs y last d_last _ _; simp [move_backward_loop]
  | append_singleton s z ih =>
    intro bp bs y last d_last hl hd
    have hl1 : last - 1 = ((bp ++ s.map some).length : Nat) := by
      simp [hl]; omega
    have hd1 : d_last - 1 = ((bp ++ s.map some ++ [some z]).length : Nat) := by
      simp [hl, hd]
    have e0 : bp ++ List.map some (s ++ [z]) ++ some y :: bs
        = (bp ++ s.map some) ++ some z :: (some y :: bs) := by simp
    have e1 : bp ++ List.map some (s ++ [z]) ++ some y :: bs
        = (bp ++ s.map some ++ [some z]) ++ some y :: bs := by simp
    have h1 : Block.load (bp ++ List.map some (s ++ [z]) ++ some y :: bs) (last - 1) = .ok z := by
      rw [e0]; exact Block.load_mid _ z _ _ hl1
    have h2 : Block.assign (bp ++ List.map some (s ++ [z]) ++ some y :: bs) (d_last - 1) z
        = .ok ((bp ++ s.map some ++ [some z]) ++ some z :: bs) := by
      rw [e1]; exact Block.assign_mid _ y z _ _ hd1
    have h4 : Block.leave_moved E ((bp ++ s.map some ++ [some z]) ++ some z :: bs) (last - 1) z
        = bp ++ s.map some ++ some (E.moved_from z) :: (some z :: bs) := by
      have := Block.leave_moved_mid E (bp ++ s.map some) (some z) z (some z :: bs) (last - 1) hl1
      simpa using this
    have h3 := ih bp (some z :: bs) (E.moved_from z) (last - 1) (d_last - 1)
      (by simp [hl]; omega) (by simp [hd])
    rw [List.length_append, List.length_singleton]
    simp only [move_backward_loop, h1, h2, h4, h3, headD_map_append_singleton]
    simp

theorem Vector.Emplace_any (E : ElemOps T) (v : Vector T) (s0 : List T) (z : T) (i : Nat)
    (x : T) (h : v.Holds (s0 ++ [z])) (hi : i ≤ s0.length + 1) :
    ∃ v', v.Emplace E i x = .ok (v', i) ∧
      v'.Holds ((s0 ++ [E.moved_from z]).take i ++ x :: (s0 ++ [E.moved_from z]).drop i) ∧
      v'.Size = s0.length + 2 ∧
      v'.Capacity = (if v.Size < v.Capacity then v.Capacity
        else if v.Capacity = 0 then 1 else 2 * v.Capacity) := by
  obtain ⟨d, rest, hg, hcap⟩ := Vector.grow_spec E v (s0 ++ [z]) h
  generalize hs' : s0 ++ [E.moved_from z] = s'
  have hlen : (s0 ++ [z]).length = s0.length + 1 := by simp
  have hlen' : s'.length = s0.length + 1 := by rw [← hs']; simp
  have hlast : (0 : Int) + ((s0 ++ [z]).length : Int) - 1 = ((s0.map some).length : Nat) := by
    simp
  have hmap : (s0 ++ [z]).map some = s0.map some ++ [some z] := by simp
  have hmap' : s'.map some = s0.map some ++ [some (E.moved_from z)] := by rw [← hs']; simp
  have hl : Block.load ((s0 ++ [z]).map some ++ d :: rest) (0 + ((s0 ++ [z]).length : Int) - 1)
      = .ok z := by
    rw [hmap, List.append_assoc]
    exact Block.load_mid (s0.map some) z (d :: rest) _ hlast
  have hc : Block.construct ((s0 ++ [z]).map some ++ d :: rest) (0 + ((s0 ++ [z]).length : Int)) z
      = .ok ((s0 ++ [z]).map some ++ some z :: rest) :=
    Block.construct_mid _ d z _ _ (by simp)
  have hm : Block.leave_moved E ((s0 ++ [z]).map some ++ some z :: rest)
      (0 + ((s0 ++ [z]).length : Int) - 1) z = s'.map some ++ some z :: rest := by
    have := Block.leave_moved_mid E (s0.map some) (some z) z (some z :: rest) _ hlast
    rw [hmap, hmap', List.append_assoc, List.append_assoc]
    exact this
  have hsplit : s'.map some = (s'.take i).map some ++ (s'.drop i).map some := by
    rw [← List.map_append, List.take_append_drop]
  have hcount : ((0 : Int) + ((s0 ++ [z]).length : Int) - (0 + (i : Int))).toNat
      = (s'.drop i).length := by
    rw [List.length_drop, hlen, hlen']; omega
  have hb := move_backward_loop_shift_any E (s'.drop i) ((s'.take i).map some) rest z
    (0 + ((s0 ++ [z]).length : Int)) (0 + ((s0 ++ [z]).length : Int) + 1)
    (by simp [List.length_take, List.length_drop, hlen']; omega) rfl
  rw [← hsplit] at hb
  have ha : Block.assign ((s'.take i).map some ++
      some (((s'.drop i).map E.moved_from).headD z) :: ((s'.drop i).map some ++ rest))
      (0 + (i : Int)) x
      = .ok ((s'.take i).map some ++ some x :: ((s'.drop i).map some ++ rest)) :=
    Block.assign_mid _ _ x _ _ (by simp [List.length_take, hlen']; omega)
  refine ⟨⟨⟨(s'.take i).map some ++ some x :: ((s'.drop i).map some ++ rest),
    (s0 ++ [z]).length + (rest.length + 1)⟩, (s0 ++ [z]).length + 1⟩, ?_, ?_, ?_, ?_⟩
  · simp only [Vector.Emplace, hg, hl, hc, hm, move_backward, hcount, hb, ha]
  · have := Vector.holds_mk (s'.take i ++ x :: s'.drop i) rest
    simp only [List.length_append, List.length_cons, List.length_take, List.length_drop,
      List.map_append, List.map_cons, List.append_assoc, List.cons_append, hlen'] at this
    rw [show min i (s0.length + 1) + (s0.length + 1 - i + 1) + rest.length
        = s0.length + 1 + (rest.length + 1) by omega,
      show min i (s0.length + 1) + (s0.length + 1 - i + 1) = s0.length + 1 + 1 by omega] at this
    rw [hlen]
    exact this
  · simp only [Vector.Size, hlen]
  · exact hcap

theorem Vector.Emplace_empty (E : ElemOps T) (v : Vector T) (pos : Nat) (x : T)
    (h : v.Holds []) : v.Emplace E pos x = .error (.out_of_bounds (-1)) := by
  obtain ⟨d, rest, hg, _⟩ := Vector.grow_spec E v [] h
  simp only [List.length_nil, List.map_nil, List.nil_append] at hg
  have hl : Block.load (d :: rest) (0 + ((0 : Nat) : Int) - 1) = .error (.out_of_bounds (-1)) := by
    simp [Block.load]
  simp only [Vector.Emplace, hg, hl]

end emplace_any
end CppVector
namespace CppVector
section simple_invariant
variable {T : Type}

theorem SimpleVector.Resize_le (O : SimpleOps T) (a a' : SimpleVector T) (n : Nat)
    (h : SimpleVector.Resize O a n = .ok a') : a'.size_ ≤ a'.capacity_ := by
  simp only [SimpleVector.Resize] at h
  split at h
  · split at h
    · cases h
    · cases h; simp only; omega
  · split at h
    · cases h
    · split at h
      · cases h
      · cases h; exact Nat.le_max_left _ _

theorem SimpleVector.Reserve_le (O : SimpleOps T) (a a' : SimpleVector T) (n : Nat)
    (h : SimpleVector.Reserve O a n = .ok a') (ha : a.size_ ≤ a.capacity_) :
    a'.size_ ≤ a'.capacity_ := by
  simp only [SimpleVector.Reserve] at h
  split at h
  · cases h; exact ha
  · split at h
    · cases h
    · cases h; simp only; omega

theorem SimpleVector.filled_le (O : SimpleOps T) (n : Nat) (x : T) (v : SimpleVector T)
    (h : SimpleVector.filled O n x = .ok v) : v.size_ ≤ v.capacity_ := by
  simp only [SimpleVector.filled] at h
  split at h
  · cases h
  · cases h; exact Nat.le_refl _

theorem SimpleVector.from_list_le (O : SimpleOps T) (init : List T) (v : SimpleVector T)
    (h : SimpleVector.from_list O init = .ok v) : v.size_ ≤ v.capacity_ := by
  simp only [SimpleVector.from_list] at h
  split at h
  · cases h
  · cases h; exact Nat.le_refl _

theorem SimpleVector.CopyAndSwap_le (O : SimpleOps T) (a b a' : SimpleVector T)
    (h : SimpleVector.CopyAndSwap O a b = .ok a') (hb : b.size_ ≤ b.capacity_) :
    a'.size_ ≤ a'.capacity_ := by
  simp only [SimpleVector.CopyAndSwap, SimpleVector.sized, SimpleVector.filled,
    SimpleVector.GetSize, SimpleVector.swap] at h
  split at h
  · cases h
  · rename_i c hc
    split at hc
    · cases hc
    · cases hc
      split at h
      · cases h
      · cases h; exact hb

theorem SimpleVector.PushBack_le (O : SimpleOps T) (a a' : SimpleVector T) (x : T)
    (h : SimpleVector.PushBack O a x = .ok a') : a'.size_ ≤ a'.capacity_ := by
  simp only [SimpleVector.PushBack] at h
  split at h
  · cases h
  · split at h
    · exact SimpleVector.Resize_le O _ a' _ h
    · rename_i hle
      cases h
      simp only at hle ⊢
      omega

theorem SimpleVector.Insert_le (O : SimpleOps T) (a a' : SimpleVector T) (pos : Nat) (x : T)
    (r : Nat) (h : SimpleVector.Insert O a pos x = .ok (a', r)) : a'.size_ ≤ a'.capacity_ := by
  simp only [SimpleVector.Insert] at h
  split at h
  · cases h
  · split at h
    · cases h
    · split at h
      · split at h
        · cases h
        · rename_i a2 hr
          cases h
          exact SimpleVector.Resize_le O _ a' _ hr
      · rename_i hle
        cases h
        simp only at hle ⊢
        omega

theorem SimpleVector.Erase_le (O : SimpleOps T) (a a' : SimpleVector T) (pos : Nat)
    (r : Option Nat) (h : SimpleVector.Erase O a pos = .ok (a', r))
    (ha : a.size_ ≤ a.capacity_) : a'.size_ ≤ a'.capacity_ := by
  simp only [SimpleVector.Erase] at h
  split at h
  · cases h
  · split at h
    · cases h; exact ha
    · split at h
      · cases h
      · split at h
        · cases h
        · split at h
          · cases h
          · rename_i a2 hr
            cases h
            exact SimpleVector.Resize_le O _ a' _ hr

theorem simple_mutate_keeps_size_le_capacity (O : SimpleOps T) (a a' : SimpleVector T)
    (hm : SimpleMutate O a a') (h : a.size_ ≤ a.capacity_) : a'.size_ ≤ a'.capacity_ := by
  cases hm with
  | reserve _ n hr => exact SimpleVector.Reserve_le O a a' n hr h
  | resize _ n hr => exact SimpleVector.Resize_le O a a' n hr
  | clear => exact Nat.zero_le _
  | push_back _ x hr => exact SimpleVector.PushBack_le O a a' x hr
  | insert _ pos x r _ hr => exact SimpleVector.Insert_le O a a' pos x r hr
  | erase _ pos r _ hr => exact SimpleVector.Erase_le O a a' pos r hr h
  | pop_back =>
    simp only [SimpleVector.PopBack]
    split
    · simp only; omega
    · exact h

theorem simple_step_keeps_size_le_capacity (O : SimpleOps T) (w w' : List (SimpleVector T))
    (hs : SimpleStep O w w') (h : ∀ v ∈ w, v.size_ ≤ v.capacity_) :
    ∀ v ∈ w', v.size_ ≤ v.capacity_ := by
  have hset : ∀ (l : List (SimpleVector T)) (i : Nat) (b : SimpleVector T),
      (∀ v ∈ l, v.size_ ≤ v.capacity_) → b.size_ ≤ b.capacity_ →
      ∀ v ∈ l.set i b, v.size_ ≤ v.capacity_ := by
    intro l i b hl hb v hv
    rcases List.mem_or_eq_of_mem_set hv with hin | heq
    · exact hl v hin
    · rw [heq]; exact hb
  have happ : ∀ (l : List (SimpleVector T)) (b : SimpleVector T),
      (∀ v ∈ l, v.size_ ≤ v.capacity_) → b.size_ ≤ b.capacity_ →
      ∀ v ∈ l ++ [b], v.size_ ≤ v.capacity_ := by
    intro l b hl hb v hv
    rcases List.mem_append.mp hv with hin | heq
    · exact hl v hin
    · rw [List.mem_singleton.mp heq]; exact hb
  cases hs with
  | default_ctor => exact happ w _ h (Nat.le_refl 0)
  | sized_ctor n v hv => exact happ w v h (SimpleVector.filled_le O n _ v hv)
  | fill_ctor n x v hv => exact happ w v h (SimpleVector.filled_le O n x v hv)
  | init_list_ctor init v hv => exact happ w v h (SimpleVector.from_list_le O init v hv)
  | reserve_ctor n v hv =>
    exact happ w v h (SimpleVector.Reserve_le O _ v n hv (Nat.le_refl 0))
  | copy_ctor i other v hi hv =>
    exact happ w v h (SimpleVector.CopyAndSwap_le O _ other v hv
      (h other (mem_of_getElem?_some w i other hi)))
  | move_ctor i other hi =>
    exact happ _ _ (hset w i _ h (Nat.le_refl 0)) (h other (mem_of_getElem?_some w i other hi))
  | assign_copy i j a b a' hi hj ha =>
    refine hset w i a' h ?_
    simp only [SimpleVector.assign_copy] at ha
    split at ha
    · exact SimpleVector.CopyAndSwap_le O a b a' ha (h b (mem_of_getElem?_some w j b hj))
    · cases ha; exact h a (mem_of_getElem?_some w i a hi)
  | swap i j a b hi hj =>
    exact hset _ j _ (hset w i _ h (h b (mem_of_getElem?_some w j b hj)))
      (h a (mem_of_getElem?_some w i a hi))
  | mutate i a a' hi hm =>
    exact hset w i a' h
      (simple_mutate_keeps_size_le_capacity O a a' hm (h a (mem_of_getElem?_some w i a hi)))

theorem simple_reachable_size_le_capacity (O : SimpleOps T) (w : List (SimpleVector T))
    (hw : SimpleReachable O w) : ∀ v ∈ w, v.size_ ≤ v.capacity_ := by
  induction hw with
  | start =>
    intro v hv
    rw [List.mem_singleton.mp hv]
    exact Nat.le_refl 0
  | step w w' _ hs ih => exact simple_step_keeps_size_le_capacity O w w' hs ih

end simple_invariant
end CppVector
namespace CppVector

/-- C21: the array of a reachable `SimpleVector` can be shorter than `capacity_`.  After
`Reserve(5)` and `PushBack(1)` on the default-constructed vector the array has one element
while `GetCapacity()` is 5, so the index 1, below the capacity, is no element of the array;
the same after `Clear()` and `PushBack(9)` on `{1, 2, 3}`; and the copy of a vector of size
2 and capacity 4 has an array of two elements and `capacity_ == 4`. -/
theorem C21_array_shorter_than_capacity (O : SimpleOps Int) :
    SimpleReachable O [⟨[1], 1, 5⟩] ∧
    ¬ SimpleVector.Consistent (⟨[1], 1, 5⟩ : SimpleVector Int) ∧
    SimpleVector.GetCapacity (⟨[1], 1, 5⟩ : SimpleVector Int) = 5 ∧
    ArrayPtr.get (⟨[1], 1, 5⟩ : SimpleVector Int).items_ 1 = .error (.out_of_bounds 1) ∧
    SimpleReachable O [SimpleVector.empty, ⟨[9], 1, 3⟩] ∧
    ¬ SimpleVector.Consistent (⟨[9], 1, 3⟩ : SimpleVector Int) ∧
    SimpleReachable O [SimpleVector.empty, ⟨[1, 2, 3, 4], 2, 4⟩, ⟨[1, 2], 2, 4⟩] ∧
    ¬ SimpleVector.Consistent (⟨[1, 2], 2, 4⟩ : SimpleVector Int) := by
  have r1 : SimpleReachable O [⟨[1], 1, 5⟩] :=
    .step _ _
      (.step _ _ .start
        (.mutate [SimpleVector.empty] 0 SimpleVector.empty
          ⟨[O.fresh, O.fresh, O.fresh, O.fresh, O.fresh], 0, 5⟩ rfl (.reserve _ _ 5 rfl)))
      (.mutate _ 0 ⟨[O.fresh, O.fresh, O.fresh, O.fresh, O.fresh], 0, 5⟩ ⟨[1], 1, 5⟩ rfl
        (.push_back _ _ 1 rfl))
  have r2 : SimpleReachable O [SimpleVector.empty, ⟨[9], 1, 3⟩] :=
    .step _ _
      (.step _ _
        (.step _ _ .start
          (.init_list_ctor [SimpleVector.empty] [1, 2, 3] ⟨[1, 2, 3], 3, 3⟩ rfl))
        (.mutate _ 1 ⟨[1, 2, 3], 3, 3⟩ ⟨[1, 2, 3], 0, 3⟩ rfl (.clear _)))
      (.mutate _ 1 ⟨[1, 2, 3], 0, 3⟩ ⟨[9], 1, 3⟩ rfl (.push_back _ _ 9 rfl))
  have r3 : SimpleReachable O
      [SimpleVector.empty, ⟨[1, 2, 3, 4], 2, 4⟩, ⟨[1, 2], 2, 4⟩] :=
    .step _ _
      (.step _ _
        (.step _ _
          (.step _ _ .start
            (.init_list_ctor [SimpleVector.empty] [1, 2, 3, 4] ⟨[1, 2, 3, 4], 4, 4⟩ rfl))
          (.mutate _ 1 ⟨[1, 2, 3, 4], 4, 4⟩ ⟨[1, 2, 3, 4], 3, 4⟩ rfl (.pop_back _)))
        (.mutate _ 1 ⟨[1, 2, 3, 4], 3, 4⟩ ⟨[1, 2, 3, 4], 2, 4⟩ rfl (.pop_back _)))
      (.copy_ctor _ 1 ⟨[1, 2, 3, 4], 2, 4⟩ ⟨[1, 2], 2, 4⟩ rfl rfl)
  exact ⟨r1, by decide, rfl, rfl, r2, by decide, r3, by decide⟩

/-- C22: `Vector::Emplace` and `Vector::Insert` are not index-safe on the empty vector.  On
every vector that holds no element, whatever its capacity, the statements
`auto& last_value = *(this->end() - 1); new(this->end()) T(std::forward<T>(last_value));`
read the slot `-1`, the slot before index 0 of the block in use. -/
theorem C22_emplace_reads_the_slot_before_index_zero {T : Type} (E : ElemOps T) (v : Vector T)
    (x : T) (h : v.Holds []) :
    v.Emplace E 0 x = .error (.out_of_bounds (-1)) ∧
      v.Insert E 0 x = .error (.out_of_bounds (-1)) :=
  ⟨Vector.Emplace_empty E v 0 x h, Vector.Emplace_empty E v 0 x h⟩

/-- C22, witness: the empty vector of `std::unique_ptr<int>` with capacity 2 (after
`Reserve(2)`), `Emplace(begin(), pointer to 7)`. -/
theorem C22_emplace_reads_the_slot_before_index_zero_witness :
    Vector.Reserve uniquePtrOps Vector.empty 2 = .ok ⟨⟨[none, none], 2⟩, 0⟩ ∧
    Vector.Holds (⟨⟨[none, none], 2⟩, 0⟩ : Vector (Option Int)) [] ∧
    Vector.Emplace uniquePtrOps ⟨⟨[none, none], 2⟩, 0⟩ 0 (some 7)
      = .error (.out_of_bounds (-1)) ∧
    Vector.Insert uniquePtrOps ⟨⟨[none, none], 2⟩, 0⟩ 0 (some 7)
      = .error (.out_of_bounds (-1)) :=
  ⟨rfl, by decide,
    C22_emplace_reads_the_slot_before_index_zero uniquePtrOps ⟨⟨[none, none], 2⟩, 0⟩ (some 7)
      (by decide)⟩

end CppVector
